import Mathlib

/-!
# Stream frame queue of quic-go (`stream_frame_queue.go`)

A shallow embedding of `streamFrameQueue` and its operations `Push`, `Len`,
`ByteLen`, `UpdateWindow`, `Pop`, `RemoveStream`, together with the private
helpers `garbageCollectActiveStreams`, `getNextStream`, `maybeSplitOffFrame`
and `getMaximumFrameDataSize`.

Conventions of the embedding.

* `protocol.ByteCount` is `uint64`: values are natural numbers and every
  addition or subtraction that is not guarded in the source is taken modulo
  `2^64` (`wrapAdd`, `wrapSub`).
* `protocol.StreamID` is `uint32`; only comparisons are performed on it.
* Go `int` fields (`len`, `activeStreamsPosition`) are integers.
* Frames are held by pointer in the source.  Every frame object is owned by
  one queue slot, so a slot holds the frame value, and the in-place update
  performed by `maybeSplitOffFrame` is an update of the slot.
* Go maps are finite association lists with pairwise distinct keys.
* The mutexes are not modelled: every operation holds the lock for its whole
  body, so operations are atomic state transformers.
* An index out of range is a run-time panic; it is an explicit outcome.
-/

namespace QuicGo

/-! ## Machine arithmetic -/

/-- Modulus of `uint64` arithmetic. -/
def U64 : Nat := 18446744073709551616

/-- Addition of two `uint64` values. -/
def wrapAdd (a b : Nat) : Nat := (a + b) % U64

/-- Subtraction of two `uint64` values. -/
def wrapSub (a b : Nat) : Nat := (a + (U64 - b % U64)) % U64

/-! ## Go maps keyed by stream ID -/

/-- First value bound to `k` in an association list. -/
def lookupKey {V : Type} (k : Nat) : List (Nat × V) → Option V
  | [] => none
  | (a, v) :: t => if a = k then some v else lookupKey k t

/-- Overwrite the binding of `k`, or add one when there is none. -/
def setKey {V : Type} (k : Nat) (v : V) : List (Nat × V) → List (Nat × V)
  | [] => [(k, v)]
  | (a, w) :: t => if a = k then (a, v) :: t else (a, w) :: setKey k v t

/-- Remove the bindings of `k`. -/
def deleteKey {V : Type} (k : Nat) : List (Nat × V) → List (Nat × V)
  | [] => []
  | (a, w) :: t => if a = k then deleteKey k t else (a, w) :: deleteKey k t

theorem mem_keys_setKey {V : Type} (k : Nat) (v : V) (l : List (Nat × V)) (a : Nat) :
    a ∈ (setKey k v l).map Prod.fst ↔ a = k ∨ a ∈ l.map Prod.fst := by
  induction l with
  | nil => simp [setKey]
  | cons e t ih =>
    obtain ⟨b, w⟩ := e
    by_cases hb : b = k
    · subst hb
      simp [setKey]
    · simp only [setKey, hb, if_false, List.map_cons, List.mem_cons, ih]
      tauto

theorem nodup_setKey {V : Type} (k : Nat) (v : V) (l : List (Nat × V))
    (h : (l.map Prod.fst).Nodup) : ((setKey k v l).map Prod.fst).Nodup := by
  induction l with
  | nil => simp [setKey]
  | cons e t ih =>
    obtain ⟨b, w⟩ := e
    simp only [List.map_cons, List.nodup_cons] at h
    by_cases hb : b = k
    · simp only [setKey, hb, if_true, List.map_cons, List.nodup_cons]
      exact ⟨hb ▸ h.1, h.2⟩
    · simp only [setKey, hb, if_false, List.map_cons, List.nodup_cons]
      refine ⟨?_, ih h.2⟩
      rw [mem_keys_setKey]
      rintro (h1 | h1)
      · exact hb h1
      · exact h.1 h1

theorem mem_keys_deleteKey {V : Type} (k : Nat) (l : List (Nat × V)) (a : Nat) :
    a ∈ (deleteKey k l).map Prod.fst ↔ a ≠ k ∧ a ∈ l.map Prod.fst := by
  induction l with
  | nil => simp [deleteKey]
  | cons e t ih =>
    obtain ⟨b, w⟩ := e
    by_cases hb : b = k
    · simp only [deleteKey, hb, if_true, ih, List.map_cons, List.mem_cons]
      constructor
      · rintro ⟨h1, h2⟩
        exact ⟨h1, Or.inr h2⟩
      · rintro ⟨h1, h2 | h2⟩
        · exact absurd h2 h1
        · exact ⟨h1, h2⟩
    · simp only [deleteKey, hb, if_false, List.map_cons, List.mem_cons, ih]
      constructor
      · rintro (h1 | ⟨h1, h2⟩)
        · exact ⟨h1 ▸ hb, Or.inl h1⟩
        · exact ⟨h1, Or.inr h2⟩
      · rintro ⟨h1, h2 | h2⟩
        · exact Or.inl h2
        · exact Or.inr ⟨h1, h2⟩

theorem nodup_deleteKey {V : Type} (k : Nat) (l : List (Nat × V))
    (h : (l.map Prod.fst).Nodup) : ((deleteKey k l).map Prod.fst).Nodup := by
  induction l with
  | nil => simp [deleteKey]
  | cons e t ih =>
    obtain ⟨b, w⟩ := e
    simp only [List.map_cons, List.nodup_cons] at h
    by_cases hb : b = k
    · simp only [deleteKey, hb, if_true]
      exact ih h.2
    · simp only [deleteKey, hb, if_false, List.map_cons, List.nodup_cons]
      refine ⟨?_, ih h.2⟩
      rw [mem_keys_deleteKey]
      exact fun h1 => h.1 h1.2

/-- A Go map from stream IDs to `V`: finitely many bindings, one per key. -/
structure GoMap (V : Type) where
  entries : List (Nat × V)
  nodup : (entries.map Prod.fst).Nodup

namespace GoMap

/-- The map returned by `make`. -/
def empty {V : Type} : GoMap V := ⟨[], List.nodup_nil⟩

/-- The two-valued read `v, ok := m[k]`. -/
def get? {V : Type} (m : GoMap V) (k : Nat) : Option V := lookupKey k m.entries

/-- The assignment `m[k] = v`. -/
def set {V : Type} (m : GoMap V) (k : Nat) (v : V) : GoMap V :=
  ⟨setKey k v m.entries, nodup_setKey k v m.entries m.nodup⟩

/-- The statement `delete(m, k)`. -/
def delete {V : Type} (m : GoMap V) (k : Nat) : GoMap V :=
  ⟨deleteKey k m.entries, nodup_deleteKey k m.entries m.nodup⟩

end GoMap

/-! ## Frames -/

/-- The fields of `frames.StreamFrame` that the queue reads or writes. -/
structure StreamFrame where
  FinBit : Bool
  StreamID : Nat
  Offset : Nat
  Data : List (Fin 256)
  DataLenPresent : Bool
deriving DecidableEq

/-- Modelled from the spec: the method `frames.StreamFrame.DataLen` belongs to
package `frames`, which is not embedded here; a frame's offset and payload
length define its byte range, so `DataLen` is the number of payload bytes. -/
def StreamFrame.DataLen (f : StreamFrame) : Nat := f.Data.length

/-- What the queue takes from the packages `protocol` and `frames`, which are
not embedded here: the constant `protocol.MaxPacketSize` (the value of
`frameSizeInf`) and the method `StreamFrame.MinLength`, the minimal length of a
written frame. Both are parameters of `Pop`. -/
structure FrameEnv where
  MaxPacketSize : Nat
  MinLength : StreamFrame → Nat

/-- Modelled from the spec: the function `utils.MinByteCount` belongs to package
`utils`, which is not embedded here; the payload budget is clamped to the
flow-control cap, so it returns the lesser of its two arguments. -/
def MinByteCount (a b : Nat) : Nat := if a < b then a else b

/-- The two sentinel errors of the file. -/
inductive QueueError
  | errMapAccess
  | errStreamFlowControlBlocked
deriving DecidableEq

/-! ## The queue -/

/-- The struct `streamFrameQueue` without its two mutexes. A `nil` entry of
`prioFrames` is `none`. -/
structure streamFrameQueue where
  prioFrames : List (Option StreamFrame)
  frameMap : GoMap (List StreamFrame)
  flowControlWindows : GoMap Nat
  bytesSent : Nat
  activeStreams : List Nat
  activeStreamsPosition : Int
  len : Int
  byteLen : Nat

/-- The constructor `newStreamFrameQueue`: empty maps, zero values elsewhere. -/
def newStreamFrameQueue : streamFrameQueue where
  prioFrames := []
  frameMap := GoMap.empty
  flowControlWindows := GoMap.empty
  bytesSent := 0
  activeStreams := []
  activeStreamsPosition := 0
  len := 0
  byteLen := 0

/-- The method `Push`. -/
def Push (q : streamFrameQueue) (frame : StreamFrame) (prio : Bool) : streamFrameQueue :=
  let frame := { frame with DataLenPresent := true }
  let q1 : streamFrameQueue :=
    if prio then
      { q with prioFrames := q.prioFrames ++ [some frame] }
    else
      match q.frameMap.get? frame.StreamID with
      | some frameQueue =>
        { q with frameMap := q.frameMap.set frame.StreamID (frameQueue ++ [frame]) }
      | none =>
        { q with
          frameMap := q.frameMap.set frame.StreamID [frame]
          activeStreams := q.activeStreams ++ [frame.StreamID] }
  { q1 with byteLen := wrapAdd q1.byteLen frame.DataLen, len := q1.len + 1 }

/-- The method `Len`. -/
def Len (q : streamFrameQueue) : Int := q.len

/-- The method `ByteLen`. -/
def ByteLen (q : streamFrameQueue) : Nat := q.byteLen

/-- The method `UpdateWindow`. -/
def UpdateWindow (q : streamFrameQueue) (streamID offset : Nat) : streamFrameQueue :=
  match q.flowControlWindows.get? streamID with
  | some windowSize =>
    if offset > windowSize then
      { q with flowControlWindows := q.flowControlWindows.set streamID offset }
    else q
  | none => { q with flowControlWindows := q.flowControlWindows.set streamID offset }

/-- The method `maybeSplitOffFrame`. `none` is the `nil` result, with the frame
untouched; otherwise the pair is the returned frame and the frame as the
deferred function leaves it. -/
def maybeSplitOffFrame (frame : StreamFrame) (n : Nat) : Option (StreamFrame × StreamFrame) :=
  if n ≥ frame.DataLen then none
  else
    some
      ({ FinBit := false
         StreamID := frame.StreamID
         Offset := frame.Offset
         Data := frame.Data.take n
         DataLenPresent := frame.DataLenPresent },
       { frame with Data := frame.Data.drop n, Offset := wrapAdd frame.Offset n })

/-- The method `getMaximumFrameDataSize`: the byte count and the error. -/
def getMaximumFrameDataSize (q : streamFrameQueue) (frame : StreamFrame) :
    Nat × Option QueueError :=
  match q.flowControlWindows.get? frame.StreamID with
  | none => (0, some QueueError.errMapAccess)
  | some highestAllowedStreamOffset =>
    if frame.Offset > highestAllowedStreamOffset then
      (0, some QueueError.errStreamFlowControlBlocked)
    else (highestAllowedStreamOffset - frame.Offset, none)

/-- Outcome of `getNextStream`: the returned pair, or an index out of range. -/
inductive NextStream
  | ret (streamID : Nat) (err : Option QueueError)
  | panicked
deriving DecidableEq

/-- The loop of `getNextStream`; the first argument is the number of
iterations left, `len(q.activeStreams) - counter`. -/
def getNextStreamLoop : Nat → streamFrameQueue → streamFrameQueue × NextStream
  | 0, q => (q, NextStream.ret 0 none)
  | k + 1, q =>
    if q.activeStreamsPosition < 0 then (q, NextStream.panicked)
    else
      match q.activeStreams[q.activeStreamsPosition.toNat]? with
      | none => (q, NextStream.panicked)
      | some streamID =>
        let q1 : streamFrameQueue :=
          { q with
            activeStreamsPosition :=
              Int.tmod (q.activeStreamsPosition + 1) (q.activeStreams.length : Int) }
        match q1.frameMap.get? streamID with
        | none => (q1, NextStream.ret 0 (some QueueError.errMapAccess))
        | some frameQueue =>
          if frameQueue.length > 0 then (q1, NextStream.ret streamID none)
          else getNextStreamLoop k q1

/-- The method `getNextStream`. -/
def getNextStream (q : streamFrameQueue) : streamFrameQueue × NextStream :=
  if q.len - (q.prioFrames.length : Int) = 0 then (q, NextStream.ret 0 none)
  else getNextStreamLoop q.activeStreams.length q

/-- What a call of `Pop` hands back: `(frame, nil)`, `(nil, nil)`, `(nil, err)`,
or a run-time panic. -/
inductive PopResult
  | frame (f : StreamFrame)
  | nothing
  | error (e : QueueError)
  | panicked
deriving DecidableEq

/-- The first loop of `Pop`: drop the `nil` entries at the front of
`prioFrames`, stop at the first frame. -/
def dropNilPrio : List (Option StreamFrame) → List (Option StreamFrame)
  | none :: t => dropNilPrio t
  | l => l

/-- How the second loop of `Pop` ends: by one of its `return` statements, or by
leaving the loop with the local variables `frame`, `streamID` and
`maxFrameDataSize`. -/
inductive Scan
  | returned (r : PopResult)
  | left (frame : Option StreamFrame) (streamID : Nat) (maxFrameDataSize : Nat)
deriving DecidableEq

/-- The second loop of `Pop` (`for !foundFrame && counter < len(q.activeStreams)`);
the first argument is `len(q.activeStreams) - counter`. -/
def popScan : Nat → streamFrameQueue → Option StreamFrame → Nat → Nat →
    streamFrameQueue × Scan
  | 0, q, frame, streamID, maxFrameDataSize => (q, Scan.left frame streamID maxFrameDataSize)
  | k + 1, q, _, _, _ =>
    match getNextStream q with
    | (q1, NextStream.panicked) => (q1, Scan.returned PopResult.panicked)
    | (q1, NextStream.ret streamID err) =>
      if streamID = 0 then (q1, Scan.returned PopResult.nothing)
      else
        match err with
        | some e => (q1, Scan.returned (PopResult.error e))
        | none =>
          match q1.frameMap.get? streamID with
          | some (frame :: _) =>
            let maxFrameDataSize := (getMaximumFrameDataSize q1 frame).1
            if maxFrameDataSize > 0 then (q1, Scan.left (some frame) streamID maxFrameDataSize)
            else popScan k q1 (some frame) streamID maxFrameDataSize
          | _ => (q1, Scan.returned PopResult.panicked)

/-- The slot the selected frame lives in is overwritten: the head of
`prioFrames`, or the head of `frameMap[streamID]`. -/
def writeHead (q : streamFrameQueue) (isPrioFrame : Bool) (streamID : Nat)
    (frame : StreamFrame) : streamFrameQueue :=
  if isPrioFrame then { q with prioFrames := some frame :: q.prioFrames.drop 1 }
  else
    match q.frameMap.get? streamID with
    | some frameQueue =>
      { q with frameMap := q.frameMap.set streamID (frame :: frameQueue.drop 1) }
    | none => q

/-- The re-slicing `[1:]` of the queue the selected frame heads: `prioFrames`, or
`frameMap[streamID]`. Re-slicing an empty queue is a slice-bounds panic,
`none`. -/
def dequeueHead (q : streamFrameQueue) (isPrioFrame : Bool) (streamID : Nat) :
    Option streamFrameQueue :=
  if isPrioFrame then
    match q.prioFrames with
    | _ :: t => some { q with prioFrames := t }
    | [] => none
  else
    match q.frameMap.get? streamID with
    | some (_ :: t) => some { q with frameMap := q.frameMap.set streamID t }
    | _ => none

/-- The part of `Pop` after a frame has been selected, from the test
`maxFrameDataSize == 0` to the end. -/
def popFinish (env : FrameEnv) (q : streamFrameQueue) (isPrioFrame : Bool)
    (frame : Option StreamFrame) (streamID maxFrameDataSize maxLength : Nat) :
    streamFrameQueue × PopResult :=
  if maxFrameDataSize = 0 then (q, PopResult.nothing)
  else
    match frame with
    | none => (q, PopResult.panicked)
    | some frame =>
      let frameMinLength := env.MinLength frame
      if frameMinLength > maxLength then (q, PopResult.nothing)
      else
        let maxLength := wrapSub maxLength (wrapSub frameMinLength 1)
        let maxLength := MinByteCount maxLength maxFrameDataSize
        match maybeSplitOffFrame frame maxLength with
        | some (splitFrame, rest) =>
          let q1 := writeHead q isPrioFrame streamID rest
          ({ q1 with byteLen := wrapSub q1.byteLen splitFrame.DataLen },
            PopResult.frame splitFrame)
        | none =>
          match dequeueHead q isPrioFrame streamID with
          | none => (q, PopResult.panicked)
          | some q1 =>
            let q2 : streamFrameQueue := { q1 with byteLen := wrapSub q1.byteLen frame.DataLen }
            let q3 : streamFrameQueue :=
              if frame.StreamID ≠ 1 ∧ frame.StreamID ≠ 3 then
                { q2 with bytesSent := wrapAdd q2.bytesSent frame.DataLen }
              else q2
            ({ q3 with len := q3.len - 1 }, PopResult.frame frame)

/-- The method `Pop`: the queue after the call and what the call hands back. -/
def Pop (env : FrameEnv) (q : streamFrameQueue) (maxLength : Nat) :
    streamFrameQueue × PopResult :=
  let q0 : streamFrameQueue := { q with prioFrames := dropNilPrio q.prioFrames }
  match q0.prioFrames with
  | some frame :: _ => popFinish env q0 true (some frame) 0 env.MaxPacketSize maxLength
  | _ =>
    match popScan q0.activeStreams.length q0 none 0 0 with
    | (q1, Scan.returned r) => (q1, r)
    | (q1, Scan.left frame streamID maxFrameDataSize) =>
      popFinish env q1 false frame streamID maxFrameDataSize maxLength

/-- The first loop of `RemoveStream`: every frame of the stream in `prioFrames`
is replaced by `nil` and taken out of the totals. The result is the new
`prioFrames`, `len` and `byteLen`. -/
def removePrioFrames (streamID : Nat) :
    List (Option StreamFrame) → Int → Nat → List (Option StreamFrame) × Int × Nat
  | [], len, byteLen => ([], len, byteLen)
  | none :: t, len, byteLen =>
    let r := removePrioFrames streamID t len byteLen
    (none :: r.1, r.2.1, r.2.2)
  | some frame :: t, len, byteLen =>
    if frame.StreamID = streamID then
      let r := removePrioFrames streamID t (len - 1) (wrapSub byteLen frame.DataLen)
      (none :: r.1, r.2.1, r.2.2)
    else
      let r := removePrioFrames streamID t len byteLen
      (some frame :: r.1, r.2.1, r.2.2)

/-- The second loop of `RemoveStream`: the frames of the stream's own queue are
taken out of the totals. The result is the new `len` and `byteLen`. -/
def removeQueued : List StreamFrame → Int → Nat → Int × Nat
  | [], len, byteLen => (len, byteLen)
  | frame :: t, len, byteLen => removeQueued t (len - 1) (wrapSub byteLen frame.DataLen)

/-- The loop of `garbageCollectActiveStreams` from index `i` on, with `k`
iterations left: the slice contents, `j` and `deletedIndex`. -/
def gcLoop : Nat → Nat → List Nat → Nat → Nat → List Nat × Nat × Nat
  | 0, _, a, j, deletedIndex => (a, j, deletedIndex)
  | k + 1, i, a, j, deletedIndex =>
    match a[i]? with
    | none => (a, j, deletedIndex)
    | some str =>
      if str ≠ 0 then gcLoop k (i + 1) (a.set j str) (j + 1) deletedIndex
      else gcLoop k (i + 1) a j i

/-- The method `garbageCollectActiveStreams`. -/
def garbageCollectActiveStreams (q : streamFrameQueue) : streamFrameQueue :=
  let r := gcLoop q.activeStreams.length 0 q.activeStreams 0 0
  let deletedIndex : Int := (r.2.2 : Int)
  let q1 : streamFrameQueue :=
    if r.1.length > 0 then { q with activeStreams := r.1.take (r.1.length - 1) }
    else { q with activeStreams := r.1 }
  if deletedIndex < q1.activeStreamsPosition then
    { q1 with activeStreamsPosition := q1.activeStreamsPosition - 1 }
  else q1

/-- The method `RemoveStream`. -/
def RemoveStream (q : streamFrameQueue) (streamID : Nat) : streamFrameQueue :=
  let r := removePrioFrames streamID q.prioFrames q.len q.byteLen
  let q1 : streamFrameQueue := { q with prioFrames := r.1, len := r.2.1, byteLen := r.2.2 }
  let q2 : streamFrameQueue :=
    match q1.frameMap.get? streamID with
    | some frameQueue =>
      let c := removeQueued frameQueue q1.len q1.byteLen
      { q1 with len := c.1, byteLen := c.2, frameMap := q1.frameMap.delete streamID }
    | none => q1
  let q3 : streamFrameQueue :=
    { q2 with flowControlWindows := q2.flowControlWindows.delete streamID }
  let q4 : streamFrameQueue :=
    { q3 with activeStreams := q3.activeStreams.map (fun s => if s = streamID then 0 else s) }
  garbageCollectActiveStreams q4

/-- The payload budget `Pop` hands to `maybeSplitOffFrame`: `maxLength` less the
header overhead (which counts one payload byte), clamped to the cap. -/
def popBudget (env : FrameEnv) (frame : StreamFrame) (maxFrameDataSize maxLength : Nat) : Nat :=
  MinByteCount (wrapSub maxLength (wrapSub (env.MinLength frame) 1)) maxFrameDataSize

/-- A sample environment: packets of 1452 bytes, a frame header of
1 + 4 + 8 + 2 bytes and one payload byte. -/
def sampleEnv : FrameEnv := ⟨1452, fun _ => 16⟩

/-- A frame of stream `sid` at offset `off` carrying `n` bytes. -/
def sampleFrame (sid off n : Nat) : StreamFrame :=
  ⟨false, sid, off, List.replicate n 7, false⟩

/-- The frame `f` heads the queue of stream `sid`, which is not stream 0, and
`m` is the stream's remaining window for it: the ceiling of the frame's stream
less the frame's offset, and not zero. -/
def Selected (q : streamFrameQueue) (f : StreamFrame) (sid m : Nat) : Prop :=
  sid ≠ 0 ∧ (∃ t, q.frameMap.get? sid = some (f :: t)) ∧
    ∃ w, q.flowControlWindows.get? f.StreamID = some w ∧ f.Offset ≤ w ∧ m = w - f.Offset ∧ 0 < m

/-! ## Runs of the queue and its totals -/

/-- A call of one of the four mutating methods. -/
inductive Op
  | push (frame : StreamFrame) (prio : Bool)
  | pop (maxLength : Nat)
  | updateWindow (streamID offset : Nat)
  | removeStream (streamID : Nat)

/-- The queue after one call. -/
def step (env : FrameEnv) (q : streamFrameQueue) : Op → streamFrameQueue
  | Op.push frame prio => Push q frame prio
  | Op.pop maxLength => (Pop env q maxLength).1
  | Op.updateWindow streamID offset => UpdateWindow q streamID offset
  | Op.removeStream streamID => RemoveStream q streamID

/-- The queue reached from `newStreamFrameQueue()` by a sequence of calls. -/
def run (env : FrameEnv) (ops : List Op) : streamFrameQueue :=
  ops.foldl (step env) newStreamFrameQueue

/-- Number of entries of `prioFrames` that are not `nil`. -/
def prioCount (l : List (Option StreamFrame)) : Nat := (l.filter Option.isSome).length

/-- Payload bytes of the frames in `prioFrames`. -/
def prioBytes (l : List (Option StreamFrame)) : Nat :=
  (l.map (fun e => match e with
    | some f => f.DataLen
    | none => 0)).sum

/-- Payload bytes of the frames of one per-stream queue. -/
def queueBytes (fq : List StreamFrame) : Nat := (fq.map StreamFrame.DataLen).sum

/-- Sum of a measure over the values of a map. -/
def mapTotal {V : Type} (F : V → Nat) (l : List (Nat × V)) : Nat := (l.map (fun e => F e.2)).sum

/-- Number of queued frames: the entries of `prioFrames` that are not `nil` and
the frames of all queues of `frameMap`. -/
def queuedCount (q : streamFrameQueue) : Nat :=
  prioCount q.prioFrames + mapTotal List.length q.frameMap.entries

/-- Sum of `DataLen()` over the queued frames. -/
def queuedBytes (q : streamFrameQueue) : Nat :=
  prioBytes q.prioFrames + mapTotal queueBytes q.frameMap.entries

/-- The totals agree with the queue contents. -/
def TotalsOk (q : streamFrameQueue) : Prop :=
  q.len = (queuedCount q : Int) ∧ q.byteLen = queuedBytes q % U64

/-- The frame as `Push` stores it: the length field is marked present. -/
def withDataLen (f : StreamFrame) : StreamFrame := { f with DataLenPresent := true }

/-- The results of `k` consecutive calls `Pop(maxLength)`. -/
def popMany (env : FrameEnv) (maxLength : Nat) : Nat → streamFrameQueue → List PopResult
  | 0, _ => []
  | k + 1, q => (Pop env q maxLength).2 :: popMany env maxLength k (Pop env q maxLength).1

/-- One frame after the other is pushed, none as a priority frame. -/
def pushAll (q : streamFrameQueue) (fs : List StreamFrame) : streamFrameQueue :=
  fs.foldl (fun q f => Push q f false) q

/-- A sequence of `UpdateWindow` calls, each a stream ID and an offset. -/
def updateWindows (q : streamFrameQueue) (ws : List (Nat × Nat)) : streamFrameQueue :=
  ws.foldl (fun q p => UpdateWindow q p.1 p.2) q

/-- A queue whose active-stream list names stream 5 while `frameMap` has no
entry for it, with one frame counted in `len`. -/
def staleActiveQueue : streamFrameQueue where
  prioFrames := []
  frameMap := GoMap.empty
  flowControlWindows := GoMap.empty.set 5 100
  bytesSent := 0
  activeStreams := [5]
  activeStreamsPosition := 0
  len := 1
  byteLen := 16

/-! ## Entropy accumulator (`entropy_accumulator.go`) -/

/-- The method `EntropyAccumulator.Add`. The accumulator is a `byte`, a number
below 256. The constant `0x01` takes the accumulator's type, and shifted by
`packetNumber % 8` it stays below 256, as does the exclusive or of two
bytes, so no reduction modulo 256 takes place. -/
def EntropyAccumulator.Add (e : Nat) (packetNumber : Nat) (entropyFlag : Bool) : Nat :=
  if entropyFlag then e ^^^ (1 <<< (packetNumber % 8)) else e

/-- The method `EntropyAccumulator.Subtract`. -/
def EntropyAccumulator.Subtract (e : Nat) (packetNumber : Nat) (entropyFlag : Bool) : Nat :=
  EntropyAccumulator.Add e packetNumber entropyFlag

/-- The method `EntropyAccumulator.Get`. -/
def EntropyAccumulator.Get (e : Nat) : Nat := e

/-! ## Sent packets (`ackhandlerlegacy/packet.go`) -/

/-- A value of the interface `frames.Frame`, told apart by its dynamic type as
the type assertions of `packet.go` do: `*frames.StreamFrame`,
`*frames.AckFrameLegacy`, `*frames.StopWaitingFrame`, or any other. The
number stands for the content of a frame whose type is not embedded here. -/
inductive Frame
  | streamFrame (f : StreamFrame)
  | ackFrameLegacy (content : Nat)
  | stopWaitingFrame (content : Nat)
  | other (content : Nat)
deriving DecidableEq

/-- The struct `Packet` without its time stamp. -/
structure Packet where
  PacketNumber : Nat
  Frames : List Frame
  EntropyBit : Bool
  Entropy : Nat
  Length : Nat
  MissingReports : Nat
  Retransmitted : Bool

/-- The method `GetStreamFramesForRetransmission`. -/
def Packet.GetStreamFramesForRetransmission (p : Packet) : List StreamFrame :=
  p.Frames.foldl
    (fun streamFrames frame =>
      match frame with
      | Frame.streamFrame streamFrame => streamFrames ++ [streamFrame]
      | _ => streamFrames)
    []

/-- The method `GetControlFramesForRetransmission`. -/
def Packet.GetControlFramesForRetransmission (p : Packet) : List Frame :=
  p.Frames.foldl
    (fun controlFrames frame =>
      match frame with
      | Frame.streamFrame _ => controlFrames
      | Frame.ackFrameLegacy _ => controlFrames
      | Frame.stopWaitingFrame _ => controlFrames
      | Frame.other _ => controlFrames ++ [frame])
    []

/-- The frame is a stream frame. -/
def Frame.isStream : Frame → Bool
  | Frame.streamFrame _ => true
  | _ => false

/-- The frame is an acknowledgment frame. -/
def Frame.isAck : Frame → Bool
  | Frame.ackFrameLegacy _ => true
  | _ => false

/-- The frame is a stop-waiting frame. -/
def Frame.isStopWaiting : Frame → Bool
  | Frame.stopWaitingFrame _ => true
  | _ => false

/-- The frame is neither a stream frame nor an acknowledgment frame nor a
stop-waiting frame. -/
def Frame.isControl (x : Frame) : Bool := !x.isStream && !x.isAck && !x.isStopWaiting

/-- The stream frame behind a frame, if it is one. -/
def Frame.asStream : Frame → Option StreamFrame
  | Frame.streamFrame f => some f
  | _ => none

/-! ## Received-packet history

The file `received_packet_history.go` is not part of the embedded sources; its
tests are. The tracker is modelled from the specification, and the model is
checked against the tests. -/

/-- Modelled from the spec: the type `utils.PacketInterval`, which the tracker's
missing source uses: a closed range `[Start, End]` of packet numbers. -/
structure PacketInterval where
  Start : Nat
  End : Nat
deriving DecidableEq

/-- Modelled from the spec: the type `frames.AckRange`, the pair
`(first, last)` that `GetAckRanges` returns for an interval. -/
structure AckRange where
  FirstPacketNumber : Nat
  LastPacketNumber : Nat
deriving DecidableEq

/-- Modelled from the spec: the type `receivedPacketHistory`, whose source is
missing: the ordered sequence `ranges` of intervals. -/
structure receivedPacketHistory where
  ranges : List PacketInterval
deriving DecidableEq

/-- Modelled from the spec: the constructor `newReceivedPacketHistory`, whose
source is missing: no packet has been received. -/
def newReceivedPacketHistory : receivedPacketHistory := ⟨[]⟩

/-- Modelled from the spec: the scan of `ReceivedPacket(n)`, whose source is
missing. If `n` is already covered, nothing changes; if `n` is one less than
an interval's start or one more than its end, that interval is extended in
place and merged with its neighbour when the gap closes; otherwise the
singleton `[n, n]` is inserted at its sorted position. -/
def insertPacket (n : Nat) : List PacketInterval → List PacketInterval
  | [] => [⟨n, n⟩]
  | i :: t =>
    if i.Start ≤ n ∧ n ≤ i.End then i :: t
    else if n + 1 = i.Start then ⟨n, i.End⟩ :: t
    else if n = i.End + 1 then
      match t with
      | j :: t2 => if n + 1 = j.Start then ⟨i.Start, j.End⟩ :: t2 else ⟨i.Start, n⟩ :: t
      | [] => [⟨i.Start, n⟩]
    else if n < i.Start then ⟨n, n⟩ :: i :: t
    else i :: insertPacket n t

/-- Modelled from the spec: the method `ReceivedPacket`, whose source is
missing. -/
def receivedPacketHistory.ReceivedPacket (h : receivedPacketHistory) (n : Nat) :
    receivedPacketHistory :=
  ⟨insertPacket n h.ranges⟩

/-- Modelled from the spec: the pass of `DeleteBelow(k)` over the intervals,
whose source is missing. An interval entirely below `k` is removed; an
interval that straddles `k` has its start raised to `k` and is kept, also as a
singleton. -/
def deleteBelow (k : Nat) : List PacketInterval → List PacketInterval
  | [] => []
  | i :: t =>
    if i.End < k then deleteBelow k t
    else if i.Start < k then ⟨k, i.End⟩ :: deleteBelow k t
    else i :: deleteBelow k t

/-- Modelled from the spec: the method `DeleteBelow`, whose source is missing. -/
def receivedPacketHistory.DeleteBelow (h : receivedPacketHistory) (k : Nat) :
    receivedPacketHistory :=
  ⟨deleteBelow k h.ranges⟩

/-- Modelled from the spec: the method `GetAckRanges`, whose source is missing:
one pair `(first, last)` for each interval, from the interval with the largest
start to the one with the smallest; the `nil` slice, the empty list, when
there is no interval. -/
def receivedPacketHistory.GetAckRanges (h : receivedPacketHistory) : List AckRange :=
  h.ranges.reverse.map (fun i => ⟨i.Start, i.End⟩)

/-- A call on the history. -/
inductive HistoryOp
  | receivedPacket (n : Nat)
  | deleteBelow (k : Nat)

/-- The history after one call. -/
def historyStep (h : receivedPacketHistory) : HistoryOp → receivedPacketHistory
  | HistoryOp.receivedPacket n => h.ReceivedPacket n
  | HistoryOp.deleteBelow k => h.DeleteBelow k

/-- The history reached from a fresh one by a sequence of calls. -/
def historyAfter (ops : List HistoryOp) : receivedPacketHistory :=
  ops.foldl historyStep newReceivedPacketHistory

/-- The history after `ReceivedPacket` calls for the given packet numbers. -/
def received (ns : List Nat) : receivedPacketHistory :=
  ns.foldl receivedPacketHistory.ReceivedPacket newReceivedPacketHistory

/-- The packet number lies in one of the intervals. -/
def Tracked (l : List PacketInterval) (x : Nat) : Prop :=
  ∃ i ∈ l, i.Start ≤ x ∧ x ≤ i.End

/-- The intervals are in ascending order, none is empty, the first starts at
`lo` or later, and between an interval and the next at least one packet
number is missing. -/
def Canonical : Nat → List PacketInterval → Prop
  | _, [] => True
  | lo, i :: t => lo ≤ i.Start ∧ i.Start ≤ i.End ∧ Canonical (i.End + 2) t

/-- The set of packet numbers tracked after one call, as the specification
words it: `ReceivedPacket(n)` adds `n`, `DeleteBelow(k)` keeps the numbers that
are at least `k`. -/
def trackedStep (s : Nat → Prop) : HistoryOp → Nat → Prop
  | HistoryOp.receivedPacket n => fun x => x = n ∨ s x
  | HistoryOp.deleteBelow k => fun x => s x ∧ k ≤ x

/-- The set of packet numbers tracked after a sequence of calls on a fresh
history. -/
def trackedAfter (ops : List HistoryOp) : Nat → Prop :=
  ops.foldl trackedStep (fun _ => False)

/-- An empty queue reached by public calls: frames are pushed for the streams 5
and 7, the ceiling of stream 5 is raised to 100, `Pop` hands back the frame of
stream 5, and `RemoveStream(7)` removes the other. `Len()` is 0, the active
list is `[5]` and the cursor is 1. -/
def cursorPastEndQueue : streamFrameQueue :=
  run sampleEnv [Op.push (sampleFrame 5 0 16) false, Op.push (sampleFrame 7 0 3) false,
    Op.updateWindow 5 100, Op.pop 1000, Op.removeStream 7]

/-- An empty queue reached by public calls: a frame is pushed for stream 7, the
ceiling of stream 7 is raised to 100, `Pop` hands back the frame, and
`RemoveStream(9)` names a stream that was never used. `Len()` is 0, stream 7
still has its (empty) queue in `frameMap`, and the active list is empty. -/
def unlistedStreamQueue : streamFrameQueue :=
  run sampleEnv [Op.push (sampleFrame 7 0 3) false, Op.updateWindow 7 100, Op.pop 1000,
    Op.removeStream 9]

/-- An empty queue reached by public calls without `RemoveStream`: a frame is
pushed for stream 5, the ceiling of stream 5 is raised to 100, and `Pop` hands
back the frame. Stream 5 stays listed with an empty queue. -/
def drainedQueue : streamFrameQueue :=
  run sampleEnv [Op.push (sampleFrame 5 0 16) false, Op.updateWindow 5 100, Op.pop 1000]

/-- The selection part of `Pop`, from its start to the end of the rotation: the
local variables `frame` and `maxFrameDataSize` with which control reaches the
test `maxFrameDataSize == 0`, or `none` when `Pop` returns from inside the
rotation. The code is that of `Pop`. -/
def popSelect (env : FrameEnv) (q : streamFrameQueue) : Option (Option StreamFrame × Nat) :=
  let q0 : streamFrameQueue := { q with prioFrames := dropNilPrio q.prioFrames }
  match q0.prioFrames with
  | some frame :: _ => some (some frame, env.MaxPacketSize)
  | _ =>
    match popScan q0.activeStreams.length q0 none 0 0 with
    | (_, Scan.returned _) => none
    | (_, Scan.left frame _ maxFrameDataSize) => some (frame, maxFrameDataSize)

/-- A sample environment in which the header overhead depends on the stream:
16 bytes for stream 5 and 2 bytes for every other stream. -/
def streamEnv : FrameEnv := ⟨1452, fun f => if f.StreamID = 5 then 16 else 2⟩

/-- A queue with a 16-byte frame for each of the streams 5 and 7; stream 5 has
no window left (ceiling 0) and stream 7 the ceiling 100, so the rotation
passes stream 5 and selects the frame of stream 7. -/
def blockedThenOpenQueue : streamFrameQueue :=
  UpdateWindow (UpdateWindow
    (Push (Push newStreamFrameQueue (sampleFrame 5 0 16) false) (sampleFrame 7 0 16) false)
    5 0) 7 100

/-! ## Facts about Go maps -/

theorem lookupKey_setKey_self {V : Type} (k : Nat) (v : V) (l : List (Nat × V)) :
    lookupKey k (setKey k v l) = some v := by
  induction l with
  | nil => simp [setKey, lookupKey]
  | cons e t ih =>
    obtain ⟨b, w⟩ := e
    by_cases hb : b = k
    · simp [setKey, lookupKey, hb]
    · simp [setKey, lookupKey, hb, ih]

theorem lookupKey_setKey_ne {V : Type} (k a : Nat) (v : V) (l : List (Nat × V)) (h : a ≠ k) :
    lookupKey a (setKey k v l) = lookupKey a l := by
  induction l with
  | nil =>
    have h1 : ¬ k = a := fun e => h e.symm
    simp [setKey, lookupKey, h1]
  | cons e t ih =>
    obtain ⟨b, w⟩ := e
    by_cases hb : b = k
    · have h1 : ¬ b = a := fun e => h (e.symm.trans hb)
      simp [setKey, lookupKey, hb, h1]
      subst hb
      simp [h1]
    · by_cases hba : b = a
      · subst hba
        simp [setKey, lookupKey, hb]
      · simp [setKey, lookupKey, hb, hba, ih]

theorem lookupKey_deleteKey_self {V : Type} (k : Nat) (l : List (Nat × V)) :
    lookupKey k (deleteKey k l) = none := by
  induction l with
  | nil => simp [deleteKey, lookupKey]
  | cons e t ih =>
    obtain ⟨b, w⟩ := e
    by_cases hb : b = k
    · simp [deleteKey, hb, ih]
    · simp [deleteKey, lookupKey, hb, ih]

theorem lookupKey_deleteKey_ne {V : Type} (k a : Nat) (l : List (Nat × V)) (h : a ≠ k) :
    lookupKey a (deleteKey k l) = lookupKey a l := by
  induction l with
  | nil => simp [deleteKey, lookupKey]
  | cons e t ih =>
    obtain ⟨b, w⟩ := e
    by_cases hb : b = k
    · have h1 : ¬ b = a := fun e => h (e.symm.trans hb)
      simp [deleteKey, lookupKey, hb, ih]
      subst hb
      simp [h1]
    · by_cases hba : b = a
      · subst hba
        simp [deleteKey, lookupKey, hb]
      · simp [deleteKey, lookupKey, hb, hba, ih]

namespace GoMap

@[simp] theorem get?_empty {V : Type} (k : Nat) : (empty : GoMap V).get? k = none := rfl

@[simp] theorem get?_set_self {V : Type} (m : GoMap V) (k : Nat) (v : V) :
    (m.set k v).get? k = some v := lookupKey_setKey_self k v m.entries

theorem get?_set_ne {V : Type} (m : GoMap V) (k a : Nat) (v : V) (h : a ≠ k) :
    (m.set k v).get? a = m.get? a := lookupKey_setKey_ne k a v m.entries h

@[simp] theorem get?_delete_self {V : Type} (m : GoMap V) (k : Nat) :
    (m.delete k).get? k = none := lookupKey_deleteKey_self k m.entries

theorem get?_delete_ne {V : Type} (m : GoMap V) (k a : Nat) (h : a ≠ k) :
    (m.delete k).get? a = m.get? a := lookupKey_deleteKey_ne k a m.entries h

theorem get?_set {V : Type} (m : GoMap V) (k a : Nat) (v : V) :
    (m.set k v).get? a = if a = k then some v else m.get? a := by
  by_cases h : a = k
  · subst h; simp
  · simp [h, get?_set_ne]

end GoMap

/-! ## Facts about machine arithmetic -/

theorem U64_pos : 0 < U64 := by decide

theorem wrapSub_of_le {a b : Nat} (hb : b ≤ a) (ha : a < U64) : wrapSub a b = a - b := by
  unfold wrapSub
  have hb2 : b % U64 = b := Nat.mod_eq_of_lt (lt_of_le_of_lt hb ha)
  rw [hb2]
  have : a + (U64 - b) = (a - b) + U64 := by omega
  rw [this, Nat.add_mod_right]
  exact Nat.mod_eq_of_lt (by omega)

theorem wrapAdd_of_lt {a b : Nat} (h : a + b < U64) : wrapAdd a b = a + b :=
  Nat.mod_eq_of_lt h

theorem maybeSplitOffFrame_lt (f : StreamFrame) (n : Nat) (h : n < f.Data.length) :
    maybeSplitOffFrame f n =
      some
        ({ FinBit := false, StreamID := f.StreamID, Offset := f.Offset, Data := f.Data.take n,
           DataLenPresent := f.DataLenPresent },
         { f with Data := f.Data.drop n, Offset := wrapAdd f.Offset n }) := by
  have h1 : ¬ n ≥ f.DataLen := by
    simp only [StreamFrame.DataLen]
    omega
  simp only [maybeSplitOffFrame, h1, if_false]

theorem maybeSplitOffFrame_ge (f : StreamFrame) (n : Nat) (h : f.Data.length ≤ n) :
    maybeSplitOffFrame f n = none := by
  have h1 : n ≥ f.DataLen := h
  simp only [maybeSplitOffFrame, h1, if_true]

theorem popFinish_split (env : FrameEnv) (q : streamFrameQueue) (isPrio : Bool)
    (f : StreamFrame) (sid m maxLength : Nat) (hm : m ≠ 0) (hlen : env.MinLength f ≤ maxLength)
    (hb : popBudget env f m maxLength < f.Data.length) :
    popFinish env q isPrio (some f) sid m maxLength =
      (let q1 := writeHead q isPrio sid
          { f with Data := f.Data.drop (popBudget env f m maxLength),
                   Offset := wrapAdd f.Offset (popBudget env f m maxLength) }
       ({ q1 with byteLen := wrapSub q1.byteLen (f.Data.take (popBudget env f m maxLength)).length },
        PopResult.frame
          { FinBit := false, StreamID := f.StreamID, Offset := f.Offset,
            Data := f.Data.take (popBudget env f m maxLength),
            DataLenPresent := f.DataLenPresent })) := by
  have h1 : ¬ env.MinLength f > maxLength := by omega
  unfold popBudget at hb
  simp only [popFinish, hm, if_false, h1, maybeSplitOffFrame_lt _ _ hb, popBudget,
    StreamFrame.DataLen]

theorem writeHead_frameMap (q : streamFrameQueue) (sid : Nat) (f g : StreamFrame)
    (t : List StreamFrame) (h : q.frameMap.get? sid = some (f :: t)) :
    (writeHead q false sid g).frameMap.get? sid = some (g :: t) := by
  simp [writeHead, h]

theorem writeHead_prioFrames (q : streamFrameQueue) (sid : Nat) (f g : StreamFrame)
    (t : List (Option StreamFrame)) (h : q.prioFrames = some f :: t) :
    (writeHead q true sid g).prioFrames = some g :: t := by
  simp [writeHead, h]

/-- C4: for a budget `n` smaller than the payload, `maybeSplitOffFrame` returns a
new frame with the stream ID and the original offset of `f`, exactly the first
`n` bytes and no FIN bit, and leaves `f` with the bytes from `n` on at offset
`Offset + n` (in `uint64` arithmetic; the plain sum for a byte range that fits
in 64 bits), so that the two payloads concatenate to the original one. For
`n` at least the payload length it returns `nil`. Inside `Pop` the rewritten
frame stays at the head of its queue, and the scenario of a 16-byte frame of
stream 5 with ceiling 10 and `Pop(1000)` gives 10 bytes at offset 0 and leaves
6 bytes at offset 10. -/
theorem maybeSplitOffFrame_splits_head :
    (∀ (f : StreamFrame) (n : Nat), n < f.Data.length →
      ∃ r rest, maybeSplitOffFrame f n = some (r, rest) ∧
        r.StreamID = f.StreamID ∧ r.Offset = f.Offset ∧ r.Data = f.Data.take n ∧
        r.Data.length = n ∧ r.FinBit = false ∧
        rest = { f with Data := f.Data.drop n, Offset := wrapAdd f.Offset n } ∧
        (f.Offset + n < U64 → rest.Offset = f.Offset + n) ∧
        r.Data ++ rest.Data = f.Data) ∧
    (∀ (f : StreamFrame) (n : Nat), f.Data.length ≤ n → maybeSplitOffFrame f n = none) ∧
    (∀ (env : FrameEnv) (q : streamFrameQueue) (f : StreamFrame) (sid m maxLength : Nat)
        (t : List StreamFrame),
      m ≠ 0 → env.MinLength f ≤ maxLength → popBudget env f m maxLength < f.Data.length →
      q.frameMap.get? sid = some (f :: t) →
      ∃ r rest, maybeSplitOffFrame f (popBudget env f m maxLength) = some (r, rest) ∧
        (popFinish env q false (some f) sid m maxLength).2 = PopResult.frame r ∧
        (popFinish env q false (some f) sid m maxLength).1.frameMap.get? sid = some (rest :: t)) ∧
    (∀ (env : FrameEnv) (q : streamFrameQueue) (f : StreamFrame) (sid m maxLength : Nat)
        (t : List (Option StreamFrame)),
      m ≠ 0 → env.MinLength f ≤ maxLength → popBudget env f m maxLength < f.Data.length →
      q.prioFrames = some f :: t →
      ∃ r rest, maybeSplitOffFrame f (popBudget env f m maxLength) = some (r, rest) ∧
        (popFinish env q true (some f) sid m maxLength).2 = PopResult.frame r ∧
        (popFinish env q true (some f) sid m maxLength).1.prioFrames = some rest :: t) ∧
    (∀ (env : FrameEnv) (d : List (Fin 256)) (fin dlp : Bool),
      d.length = 16 → 1 ≤ env.MinLength ⟨fin, 5, 0, d, true⟩ →
      env.MinLength ⟨fin, 5, 0, d, true⟩ ≤ 991 →
      (Pop env (UpdateWindow (UpdateWindow (Push newStreamFrameQueue ⟨fin, 5, 0, d, dlp⟩ false)
          5 10) 0 10) 1000).2 = PopResult.frame ⟨false, 5, 0, d.take 10, true⟩ ∧
      (Pop env (UpdateWindow (UpdateWindow (Push newStreamFrameQueue ⟨fin, 5, 0, d, dlp⟩ false)
          5 10) 0 10) 1000).1.frameMap.get? 5 = some [⟨fin, 5, 10, d.drop 10, true⟩] ∧
      (d.take 10).length = 10 ∧ (d.drop 10).length = 6) := by
  refine ⟨?_, ?_, ?_, ?_, ?_⟩
  · intro f n h
    refine ⟨_, _, maybeSplitOffFrame_lt f n h, rfl, rfl, rfl, ?_, rfl, rfl, ?_, ?_⟩
    · simp only [List.length_take]
      omega
    · intro h1
      exact wrapAdd_of_lt h1
    · exact List.take_append_drop n f.Data
  · exact maybeSplitOffFrame_ge
  · intro env q f sid m maxLength t hm hlen hb hq
    refine ⟨_, _, maybeSplitOffFrame_lt f _ hb, ?_, ?_⟩
    · rw [popFinish_split env q false f sid m maxLength hm hlen hb]
    · rw [popFinish_split env q false f sid m maxLength hm hlen hb]
      exact writeHead_frameMap q sid f _ t hq
  · intro env q f sid m maxLength t hm hlen hb hq
    refine ⟨_, _, maybeSplitOffFrame_lt f _ hb, ?_, ?_⟩
    · rw [popFinish_split env q true f sid m maxLength hm hlen hb]
    · rw [popFinish_split env q true f sid m maxLength hm hlen hb]
      exact writeHead_prioFrames q sid f _ t hq
  · intro env d fin dlp hd h1 h2
    have hb : popBudget env ⟨fin, 5, 0, d, true⟩ 10 1000 = 10 := by
      unfold popBudget
      rw [wrapSub_of_le h1 (by unfold U64; omega),
        wrapSub_of_le (by omega) (by unfold U64; omega)]
      unfold MinByteCount
      rw [if_neg (by omega)]
    have hlt : popBudget env ⟨fin, 5, 0, d, true⟩ 10 1000 <
        (⟨fin, 5, 0, d, true⟩ : StreamFrame).Data.length := by
      rw [hb]
      simp only [hd]
      omega
    have hw : wrapAdd 0 10 = 10 := by decide
    have hP : Pop env (UpdateWindow (UpdateWindow
        (Push newStreamFrameQueue ⟨fin, 5, 0, d, dlp⟩ false) 5 10) 0 10) 1000 =
        popFinish env
          { prioFrames := []
            frameMap := GoMap.empty.set 5 [⟨fin, 5, 0, d, true⟩]
            flowControlWindows := (GoMap.empty.set 5 10).set 0 10
            bytesSent := 0
            activeStreams := [5]
            activeStreamsPosition := 0
            len := 1
            byteLen := wrapAdd 0 (StreamFrame.DataLen ⟨fin, 5, 0, d, true⟩) }
          false (some ⟨fin, 5, 0, d, true⟩) 5 10 1000 := by
      simp [Pop, Push, UpdateWindow, newStreamFrameQueue, dropNilPrio, popScan, getNextStream,
        getNextStreamLoop, getMaximumFrameDataSize, GoMap.get?_set]
    rw [hP, popFinish_split env _ false _ 5 10 1000 (by decide) (by omega) hlt, hb]
    refine ⟨?_, ?_, ?_, ?_⟩
    · rfl
    · simp only [hw]
      exact writeHead_frameMap _ 5 _ _ [] (GoMap.get?_set_self _ _ _)
    · simp only [List.length_take, hd]
      decide
    · simp only [List.length_drop, hd]

/-- C4, at a concrete input: a 16-byte frame of stream 5 split after 10 bytes,
a 6-byte budget that does not split a 4-byte frame, and the scenario under the
sample environment. -/
theorem maybeSplitOffFrame_splits_head_witness :
    (10 < (sampleFrame 5 0 16).Data.length ∧
      ∃ r rest, maybeSplitOffFrame (sampleFrame 5 0 16) 10 = some (r, rest) ∧
        r.StreamID = 5 ∧ r.Offset = 0 ∧ r.Data = (sampleFrame 5 0 16).Data.take 10 ∧
        r.Data.length = 10 ∧ r.FinBit = false ∧
        rest = { sampleFrame 5 0 16 with
                 Data := (sampleFrame 5 0 16).Data.drop 10, Offset := wrapAdd 0 10 } ∧
        ((sampleFrame 5 0 16).Offset + 10 < U64 → rest.Offset = 0 + 10) ∧
        r.Data ++ rest.Data = (sampleFrame 5 0 16).Data) ∧
    ((sampleFrame 5 0 4).Data.length ≤ 6 ∧ maybeSplitOffFrame (sampleFrame 5 0 4) 6 = none) ∧
    (Pop sampleEnv (UpdateWindow (UpdateWindow
        (Push newStreamFrameQueue ⟨false, 5, 0, List.replicate 16 7, false⟩ false) 5 10) 0 10)
        1000).2 = PopResult.frame ⟨false, 5, 0, (List.replicate 16 7).take 10, true⟩ :=
  ⟨⟨by decide, maybeSplitOffFrame_splits_head.1 (sampleFrame 5 0 16) 10 (by decide)⟩,
   ⟨by decide, maybeSplitOffFrame_splits_head.2.1 (sampleFrame 5 0 4) 6 (by decide)⟩,
   (maybeSplitOffFrame_splits_head.2.2.2.2 sampleEnv (List.replicate 16 7) false false
      (by decide) (by decide) (by decide)).1⟩

/-! ## The rotation -/

theorem getNextStreamLoop_state (k : Nat) (q : streamFrameQueue) :
    (getNextStreamLoop k q).1 =
      { q with activeStreamsPosition := (getNextStreamLoop k q).1.activeStreamsPosition } := by
  induction k generalizing q with
  | zero => rfl
  | succ k ih =>
    rw [getNextStreamLoop]
    split
    · rfl
    · split
      · rfl
      · dsimp only
        split
        · rfl
        · split
          · rfl
          · rw [ih]

theorem getNextStream_state (q : streamFrameQueue) :
    (getNextStream q).1 =
      { q with activeStreamsPosition := (getNextStream q).1.activeStreamsPosition } := by
  unfold getNextStream
  split
  · rfl
  · exact getNextStreamLoop_state _ q

theorem getNextStreamLoop_ret (k : Nat) (q : streamFrameQueue) (sid : Nat)
    (err : Option QueueError)
    (h : (getNextStreamLoop k q).2 = NextStream.ret sid err) (hs : sid ≠ 0) :
    err = none ∧ ∃ f t, q.frameMap.get? sid = some (f :: t) := by
  induction k generalizing q with
  | zero =>
    simp only [getNextStreamLoop, NextStream.ret.injEq] at h
    exact absurd h.1.symm hs
  | succ k ih =>
    rw [getNextStreamLoop] at h
    split at h
    · cases h
    · split at h
      · cases h
      · dsimp only at h
        split at h
        · simp only [NextStream.ret.injEq] at h
          exact absurd h.1.symm hs
        · rename_i frameQueue hq
          split at h
          · rename_i hlen
            simp only [NextStream.ret.injEq] at h
            obtain ⟨h1, h2⟩ := h
            subst h1
            refine ⟨h2.symm, ?_⟩
            cases frameQueue with
            | nil => simp at hlen
            | cons f t => exact ⟨f, t, hq⟩
          · have h3 := ih _ h
            exact h3

theorem getNextStream_ret (q : streamFrameQueue) (sid : Nat) (err : Option QueueError)
    (h : (getNextStream q).2 = NextStream.ret sid err) (hs : sid ≠ 0) :
    err = none ∧ ∃ f t, q.frameMap.get? sid = some (f :: t) := by
  unfold getNextStream at h
  split at h
  · simp only [NextStream.ret.injEq] at h
    exact absurd h.1.symm hs
  · exact getNextStreamLoop_ret _ q sid err h hs

theorem getMaximumFrameDataSize_pos (q : streamFrameQueue) (f : StreamFrame)
    (h : 0 < (getMaximumFrameDataSize q f).1) :
    ∃ w, q.flowControlWindows.get? f.StreamID = some w ∧ f.Offset ≤ w ∧
      (getMaximumFrameDataSize q f).1 = w - f.Offset := by
  unfold getMaximumFrameDataSize at h
  split at h
  · simp at h
  · rename_i w hw
    split at h
    · simp at h
    · rename_i hle
      refine ⟨w, hw, by omega, ?_⟩
      unfold getMaximumFrameDataSize
      simp only [hw, hle, if_false]

/-- What the second loop of `Pop` can do: it moves the cursor only, it never
returns an error, and it leaves either with the variables it was entered
with, or with a zero cap, or with a selected frame. -/
theorem popScan_spec (k : Nat) (q : streamFrameQueue) (fr : Option StreamFrame) (sid m : Nat) :
    (popScan k q fr sid m).1 =
        { q with activeStreamsPosition := (popScan k q fr sid m).1.activeStreamsPosition } ∧
      (∀ r, (popScan k q fr sid m).2 = Scan.returned r →
        r = PopResult.nothing ∨ r = PopResult.panicked) ∧
      (∀ fr1 sid1 m1, (popScan k q fr sid m).2 = Scan.left fr1 sid1 m1 →
        (fr1 = fr ∧ sid1 = sid ∧ m1 = m) ∨ m1 = 0 ∨ ∃ f, fr1 = some f ∧ Selected q f sid1 m1) := by
  induction k generalizing q fr sid m with
  | zero =>
    refine ⟨rfl, ?_, ?_⟩
    · intro r h
      simp [popScan] at h
    · intro fr1 sid1 m1 h
      simp only [popScan, Scan.left.injEq] at h
      exact Or.inl ⟨h.1.symm, h.2.1.symm, h.2.2.symm⟩
  | succ k ih =>
    rw [popScan]
    have hst := getNextStream_state q
    have hret := getNextStream_ret q
    rcases hg : getNextStream q with ⟨q1, ns⟩
    rw [hg] at hst hret
    simp only at hst hret
    cases ns with
    | panicked =>
      refine ⟨hst, ?_, ?_⟩
      · intro r h
        simp only [Scan.returned.injEq] at h
        exact Or.inr h.symm
      · intro fr1 sid1 m1 h
        simp at h
    | ret streamID err =>
      dsimp only
      by_cases h0 : streamID = 0
      · simp only [h0, if_true]
        refine ⟨hst, ?_, ?_⟩
        · intro r h
          simp only [Scan.returned.injEq] at h
          exact Or.inl h.symm
        · intro fr1 sid1 m1 h
          simp at h
      · simp only [h0, if_false]
        obtain ⟨herr, f, t, hft⟩ := hret streamID err rfl h0
        subst herr
        have hq1 : q1.frameMap = q.frameMap := by rw [hst]
        simp only [hq1, hft]
        have hmax : getMaximumFrameDataSize q1 f = getMaximumFrameDataSize q f := by
          rw [hst]
          rfl
        rw [hmax]
        by_cases hpos : (getMaximumFrameDataSize q f).1 > 0
        · simp only [hpos, if_true]
          refine ⟨hst, ?_, ?_⟩
          · intro r h
            simp at h
          · intro fr1 sid1 m1 h
            simp only [Scan.left.injEq] at h
            obtain ⟨h1, h2, h3⟩ := h
            subst h1 h2 h3
            obtain ⟨w, hw1, hw2, hw3⟩ := getMaximumFrameDataSize_pos q f hpos
            exact Or.inr (Or.inr ⟨f, rfl, h0, ⟨t, hft⟩, w, hw1, hw2, hw3, hpos⟩)
        · simp only [hpos, if_false]
          obtain ⟨i1, i2, i3⟩ := ih q1 (some f) streamID (getMaximumFrameDataSize q f).1
          refine ⟨?_, i2, ?_⟩
          · rw [i1, hst]
          · intro fr1 sid1 m1 h
            rcases i3 fr1 sid1 m1 h with ⟨_, _, h3⟩ | h3 | ⟨g, hg1, hg2⟩
            · exact Or.inr (Or.inl (by omega))
            · exact Or.inr (Or.inl h3)
            · refine Or.inr (Or.inr ⟨g, hg1, ?_⟩)
              unfold Selected at hg2 ⊢
              rw [hst] at hg2
              exact hg2

/-! ## The tail of `Pop` -/

theorem MinByteCount_le_right (a b : Nat) : MinByteCount a b ≤ b := by
  unfold MinByteCount
  split <;> omega

theorem popBudget_le (env : FrameEnv) (f : StreamFrame) (m maxLength : Nat) :
    popBudget env f m maxLength ≤ m := MinByteCount_le_right _ _

theorem popFinish_zero (env : FrameEnv) (q : streamFrameQueue) (isPrio : Bool)
    (fr : Option StreamFrame) (sid maxLength : Nat) :
    popFinish env q isPrio fr sid 0 maxLength = (q, PopResult.nothing) := by
  simp only [popFinish, if_true]

theorem popFinish_short (env : FrameEnv) (q : streamFrameQueue) (isPrio : Bool)
    (f : StreamFrame) (sid m maxLength : Nat) (h : maxLength < env.MinLength f) :
    popFinish env q isPrio (some f) sid m maxLength = (q, PopResult.nothing) := by
  have h1 : env.MinLength f > maxLength := h
  by_cases hm : m = 0
  · subst hm
    exact popFinish_zero env q isPrio _ sid maxLength
  · simp only [popFinish, hm, if_false, h1, if_true]

theorem popFinish_whole (env : FrameEnv) (q : streamFrameQueue) (isPrio : Bool)
    (f : StreamFrame) (sid m maxLength : Nat) (hm : m ≠ 0) (hlen : env.MinLength f ≤ maxLength)
    (hb : f.Data.length ≤ popBudget env f m maxLength) :
    popFinish env q isPrio (some f) sid m maxLength =
      (match dequeueHead q isPrio sid with
       | none => (q, PopResult.panicked)
       | some q1 =>
         ({ q1 with
            byteLen := wrapSub q1.byteLen f.DataLen
            bytesSent :=
              if f.StreamID ≠ 1 ∧ f.StreamID ≠ 3 then wrapAdd q1.bytesSent f.DataLen
              else q1.bytesSent
            len := q1.len - 1 }, PopResult.frame f)) := by
  have h1 : ¬ env.MinLength f > maxLength := by omega
  unfold popBudget at hb
  simp only [popFinish, hm, if_false, h1, maybeSplitOffFrame_ge _ _ hb]
  cases dequeueHead q isPrio sid with
  | none => rfl
  | some q1 =>
    dsimp only
    by_cases hs : f.StreamID ≠ 1 ∧ f.StreamID ≠ 3
    · rw [if_pos hs, if_pos hs]
    · rw [if_neg hs, if_neg hs]

/-- A frame handed back by the tail of `Pop` starts where the selected frame
starts, belongs to the same stream, carries an initial segment of its payload,
and is no longer than the cap. -/
theorem popFinish_frame (env : FrameEnv) (q : streamFrameQueue) (isPrio : Bool)
    (f r : StreamFrame) (sid m maxLength : Nat)
    (h : (popFinish env q isPrio (some f) sid m maxLength).2 = PopResult.frame r) :
    r.StreamID = f.StreamID ∧ r.Offset = f.Offset ∧ r.Data.length ≤ m ∧
      r.Data = f.Data.take r.Data.length ∧ (r.Data.length < f.Data.length → r.FinBit = false) := by
  by_cases hm : m = 0
  · subst hm
    rw [popFinish_zero] at h
    cases h
  by_cases hlen : maxLength < env.MinLength f
  · rw [popFinish_short env q isPrio f sid m maxLength hlen] at h
    cases h
  by_cases hb : popBudget env f m maxLength < f.Data.length
  · rw [popFinish_split env q isPrio f sid m maxLength hm (by omega) hb] at h
    simp only [PopResult.frame.injEq] at h
    subst h
    have hl : (List.take (popBudget env f m maxLength) f.Data).length =
        popBudget env f m maxLength := by
      rw [List.length_take]
      omega
    refine ⟨rfl, rfl, ?_, ?_, fun _ => rfl⟩
    · simp only [hl]
      exact popBudget_le env f m maxLength
    · simp only [hl]
  · rw [popFinish_whole env q isPrio f sid m maxLength hm (by omega) (by omega)] at h
    cases hd : dequeueHead q isPrio sid with
    | none =>
      rw [hd] at h
      cases h
    | some q1 =>
      rw [hd] at h
      simp only [PopResult.frame.injEq] at h
      subst h
      refine ⟨rfl, rfl, ?_, ?_, fun h => absurd h (lt_irrefl _)⟩
      · have := popBudget_le env f m maxLength
        omega
      · simp

theorem dropNilPrio_all_none (l : List (Option StreamFrame)) (h : ∀ e ∈ l, e = none) :
    dropNilPrio l = [] := by
  induction l with
  | nil => rfl
  | cons a t ih =>
    have ha : a = none := h a (List.mem_cons_self a t)
    subst ha
    rw [dropNilPrio]
    exact ih (fun e he => h e (List.mem_cons_of_mem _ he))

theorem dropNilPrio_replicate (k : Nat) (f : StreamFrame) (t : List (Option StreamFrame)) :
    dropNilPrio (List.replicate k none ++ some f :: t) = some f :: t := by
  induction k with
  | zero => simp [dropNilPrio]
  | succ k ih =>
    rw [List.replicate_succ, List.cons_append, dropNilPrio]
    exact ih

/-- Without a live priority frame `Pop` is the rotation followed by the tail. -/
theorem Pop_no_prio (env : FrameEnv) (q : streamFrameQueue) (maxLength : Nat)
    (h : ∀ e ∈ q.prioFrames, e = none) :
    Pop env q maxLength =
      (match popScan q.activeStreams.length { q with prioFrames := [] } none 0 0 with
       | (q1, Scan.returned r) => (q1, r)
       | (q1, Scan.left frame streamID maxFrameDataSize) =>
         popFinish env q1 false frame streamID maxFrameDataSize maxLength) := by
  unfold Pop
  simp only [dropNilPrio_all_none _ h]

/-- With a live priority frame `Pop` is the tail, applied to that frame with the
cap `frameSizeInf`. -/
theorem Pop_prio (env : FrameEnv) (q : streamFrameQueue) (maxLength k : Nat) (f : StreamFrame)
    (t : List (Option StreamFrame)) (h : q.prioFrames = List.replicate k none ++ some f :: t) :
    Pop env q maxLength =
      popFinish env { q with prioFrames := some f :: t } true (some f) 0 env.MaxPacketSize
        maxLength := by
  unfold Pop
  simp only [h, dropNilPrio_replicate]

theorem popFinish_ne_error (env : FrameEnv) (q : streamFrameQueue) (isPrio : Bool)
    (fr : Option StreamFrame) (sid m maxLength : Nat) (e : QueueError) :
    (popFinish env q isPrio fr sid m maxLength).2 ≠ PopResult.error e := by
  by_cases hm : m = 0
  · subst hm
    rw [popFinish_zero]
    simp
  cases fr with
  | none => simp [popFinish, hm]
  | some f =>
    by_cases hlen : maxLength < env.MinLength f
    · rw [popFinish_short env q isPrio f sid m maxLength hlen]
      simp
    by_cases hb : popBudget env f m maxLength < f.Data.length
    · rw [popFinish_split env q isPrio f sid m maxLength hm (by omega) hb]
      simp
    · rw [popFinish_whole env q isPrio f sid m maxLength hm (by omega) (by omega)]
      cases dequeueHead q isPrio sid <;> simp

/-- No call of `Pop` hands back an error: the rotation returns `(nil, nil)` for
stream ID 0 before it looks at the error, and the error of
`getMaximumFrameDataSize` is never read. -/
theorem Pop_ne_error (env : FrameEnv) (q : streamFrameQueue) (maxLength : Nat) (e : QueueError) :
    (Pop env q maxLength).2 ≠ PopResult.error e := by
  unfold Pop
  dsimp only
  split
  · exact popFinish_ne_error _ _ _ _ _ _ _ _
  · split
    · rename_i q1 r hr
      have h := (popScan_spec _ _ none 0 0).2.1 r (by rw [hr])
      rcases h with h | h <;> subst h <;> simp
    · exact popFinish_ne_error _ _ _ _ _ _ _ _

/-- Without a live priority frame, a frame handed back by `Pop` comes from the
tail of `Pop` run on a selected frame. -/
theorem Pop_no_prio_selected (env : FrameEnv) (q : streamFrameQueue) (maxLength : Nat)
    (r : StreamFrame) (hprio : ∀ e ∈ q.prioFrames, e = none)
    (h : (Pop env q maxLength).2 = PopResult.frame r) :
    ∃ f sid m p, Selected q f sid m ∧
      Pop env q maxLength =
        popFinish env { q with prioFrames := [], activeStreamsPosition := p } false (some f)
          sid m maxLength := by
  rw [Pop_no_prio env q maxLength hprio] at h ⊢
  obtain ⟨h1, h2, h3⟩ := popScan_spec q.activeStreams.length { q with prioFrames := [] } none 0 0
  rcases hp : popScan q.activeStreams.length { q with prioFrames := [] } none 0 0 with ⟨q1, sc⟩
  rw [hp] at h h1 h2 h3
  cases sc with
  | returned r1 =>
    rcases h2 r1 rfl with h4 | h4 <;> subst h4 <;> simp at h
  | left fr sid m =>
    dsimp only at h ⊢
    rcases h3 fr sid m rfl with ⟨hf, _, hm⟩ | hm | ⟨f, hf, hsel⟩
    · subst hm
      rw [popFinish_zero] at h
      cases h
    · subst hm
      rw [popFinish_zero] at h
      cases h
    · subst hf
      refine ⟨f, sid, m, q1.activeStreamsPosition, hsel, ?_⟩
      dsimp only at h1
      rw [h1]

/-- C2: when no priority frame is live and `Pop` hands back a frame, the frame
ends at or below the ceiling that `flowControlWindows` held for its stream when
`Pop` was called. -/
theorem Pop_within_stream_ceiling (env : FrameEnv) (q : streamFrameQueue) (maxLength : Nat)
    (f : StreamFrame) (hprio : ∀ e ∈ q.prioFrames, e = none)
    (h : (Pop env q maxLength).2 = PopResult.frame f) :
    ∃ w, q.flowControlWindows.get? f.StreamID = some w ∧ f.Offset + f.Data.length ≤ w := by
  obtain ⟨g, sid, m, p, hsel, hpop⟩ := Pop_no_prio_selected env q maxLength f hprio h
  rw [hpop] at h
  obtain ⟨h1, h2, h3, _, _⟩ := popFinish_frame env _ false g f sid m maxLength h
  obtain ⟨_, _, w, hw1, hw2, hw3, _⟩ := hsel
  refine ⟨w, ?_, ?_⟩
  · rw [h1]
    exact hw1
  · rw [h2]
    omega

/-- C2, at a concrete input: a 16-byte frame of stream 5 under ceiling 10; the
10 bytes handed back end at the ceiling. -/
theorem Pop_within_stream_ceiling_witness :
    ∃ w, (UpdateWindow (Push newStreamFrameQueue (sampleFrame 5 0 16) false) 5 10).flowControlWindows.get?
        (StreamFrame.mk false 5 0 (List.replicate 10 7) true).StreamID = some w ∧
      (StreamFrame.mk false 5 0 (List.replicate 10 7) true).Offset +
        (StreamFrame.mk false 5 0 (List.replicate 10 7) true).Data.length ≤ w :=
  Pop_within_stream_ceiling sampleEnv
    (UpdateWindow (Push newStreamFrameQueue (sampleFrame 5 0 16) false) 5 10) 1000
    ⟨false, 5, 0, List.replicate 10 7, true⟩ (by decide) (by decide)

/-- C7: when `prioFrames` holds a frame, `Pop` with a `maxLength` of at least
that frame's `MinLength()` drops the `nil` entries in front of the first frame
and hands back that frame or an initial segment of it, whatever the per-stream
queues and the flow-control ceilings hold: the frame leaves `prioFrames` when it
is handed back whole and stays at its head, cut down, otherwise, and the
per-stream queues, the active streams, the cursor and the ceilings are as
before. -/
theorem Pop_prefers_priority_frame (env : FrameEnv) (q : streamFrameQueue) (maxLength k : Nat)
    (f : StreamFrame) (t : List (Option StreamFrame))
    (hq : q.prioFrames = List.replicate k none ++ some f :: t)
    (hinf : 0 < env.MaxPacketSize) (hlen : env.MinLength f ≤ maxLength) :
    ∃ r, (Pop env q maxLength).2 = PopResult.frame r ∧
      r.StreamID = f.StreamID ∧ r.Offset = f.Offset ∧ r.Data = f.Data.take r.Data.length ∧
      ((r = f ∧ (Pop env q maxLength).1.prioFrames = t) ∨
        (r.Data.length < f.Data.length ∧ r.FinBit = false ∧
          (Pop env q maxLength).1.prioFrames =
            some { f with Data := f.Data.drop r.Data.length,
                          Offset := wrapAdd f.Offset r.Data.length } :: t)) ∧
      (Pop env q maxLength).1.frameMap = q.frameMap ∧
      (Pop env q maxLength).1.activeStreams = q.activeStreams ∧
      (Pop env q maxLength).1.activeStreamsPosition = q.activeStreamsPosition ∧
      (Pop env q maxLength).1.flowControlWindows = q.flowControlWindows := by
  rw [Pop_prio env q maxLength k f t hq]
  have hm : env.MaxPacketSize ≠ 0 := by omega
  by_cases hb : popBudget env f env.MaxPacketSize maxLength < f.Data.length
  · rw [popFinish_split env _ true f 0 env.MaxPacketSize maxLength hm hlen hb]
    have hl : (List.take (popBudget env f env.MaxPacketSize maxLength) f.Data).length =
        popBudget env f env.MaxPacketSize maxLength := by
      rw [List.length_take]
      omega
    refine ⟨_, rfl, rfl, rfl, ?_, Or.inr ⟨?_, rfl, ?_⟩, rfl, rfl, rfl, rfl⟩
    · simp only [hl]
    · simp only [hl]
      exact hb
    · simp only [hl, writeHead, if_true, List.drop_one, List.tail_cons]
  · rw [popFinish_whole env _ true f 0 env.MaxPacketSize maxLength hm hlen (by omega)]
    have hd : dequeueHead { q with prioFrames := some f :: t } true 0 =
        some { q with prioFrames := t } := by
      simp [dequeueHead]
    rw [hd]
    refine ⟨f, rfl, rfl, rfl, ?_, Or.inl ⟨rfl, rfl⟩, rfl, rfl, rfl, rfl⟩
    simp

/-- C7, at a concrete input: stream 3 had a priority frame queued and was
removed, behind its `nil` entry sits a 4-byte frame of stream 9 at offset 50,
stream 9 has no ceiling, and stream 5 has a frame queued; `Pop` hands back the
priority frame of stream 9. -/
theorem Pop_prefers_priority_frame_witness :
    ∃ r, (Pop sampleEnv
        (RemoveStream (Push (Push (Push newStreamFrameQueue (sampleFrame 5 0 16) false)
          (sampleFrame 3 0 2) true) (sampleFrame 9 50 4) true) 3) 1000).2 = PopResult.frame r ∧
      r.StreamID = 9 ∧ r.Offset = 50 ∧ r.Data = (List.replicate 4 7).take r.Data.length :=
  let h := Pop_prefers_priority_frame sampleEnv
    (RemoveStream (Push (Push (Push newStreamFrameQueue (sampleFrame 5 0 16) false)
      (sampleFrame 3 0 2) true) (sampleFrame 9 50 4) true) 3) 1000 1
    ⟨false, 9, 50, List.replicate 4 7, true⟩ [] (by decide) (by decide) (by decide)
  ⟨h.choose, h.choose_spec.1, h.choose_spec.2.1, h.choose_spec.2.2.1, h.choose_spec.2.2.2.1⟩

/-- C10: a frame of stream 5 at offset 20 under ceiling 10 makes
`getMaximumFrameDataSize` return `errStreamFlowControlBlocked`, yet `Pop` hands
back `(nil, nil)`; no call of `Pop` hands back that error. -/
theorem Pop_drops_flow_control_error :
    (getMaximumFrameDataSize (UpdateWindow (Push newStreamFrameQueue (sampleFrame 5 20 16) false) 5 10)
        ⟨false, 5, 20, List.replicate 16 7, true⟩).2 =
        some QueueError.errStreamFlowControlBlocked ∧
      (Pop sampleEnv (UpdateWindow (Push newStreamFrameQueue (sampleFrame 5 20 16) false) 5 10)
        1000).2 = PopResult.nothing ∧
      ∀ (env : FrameEnv) (q : streamFrameQueue) (maxLength : Nat),
        (Pop env q maxLength).2 ≠ PopResult.error QueueError.errStreamFlowControlBlocked :=
  ⟨by decide, by decide, fun env q maxLength => Pop_ne_error env q maxLength _⟩

/-! ## The ceilings the rotation reads -/

theorem getNextStreamLoop_windows (k : Nat) (q : streamFrameQueue) (W : GoMap Nat) :
    getNextStreamLoop k { q with flowControlWindows := W } =
      ({ (getNextStreamLoop k q).1 with flowControlWindows := W }, (getNextStreamLoop k q).2) := by
  induction k generalizing q with
  | zero => rfl
  | succ k ih =>
    simp only [getNextStreamLoop]
    by_cases hp : q.activeStreamsPosition < 0
    · simp only [hp, if_true]
    · simp only [hp, if_false]
      cases ha : q.activeStreams[q.activeStreamsPosition.toNat]? with
      | none => rfl
      | some s =>
        dsimp only
        cases hf : q.frameMap.get? s with
        | none => rfl
        | some fq =>
          dsimp only
          by_cases hl : fq.length > 0
          · simp only [hl, if_true]
          · simp only [hl, if_false]
            exact ih
              { q with
                activeStreamsPosition :=
                  (q.activeStreamsPosition + 1).tmod (q.activeStreams.length : Int) }

theorem getNextStream_windows (q : streamFrameQueue) (W : GoMap Nat) :
    getNextStream { q with flowControlWindows := W } =
      ({ (getNextStream q).1 with flowControlWindows := W }, (getNextStream q).2) := by
  unfold getNextStream
  dsimp only
  split
  · rfl
  · exact getNextStreamLoop_windows _ q W

theorem getMaximumFrameDataSize_congr (q q1 : streamFrameQueue) (f : StreamFrame)
    (h : q1.flowControlWindows.get? f.StreamID = q.flowControlWindows.get? f.StreamID) :
    getMaximumFrameDataSize q1 f = getMaximumFrameDataSize q f := by
  unfold getMaximumFrameDataSize
  rw [h]

theorem popScan_windows (k : Nat) (q : streamFrameQueue) (W : GoMap Nat)
    (fr : Option StreamFrame) (sid m : Nat)
    (H : ∀ s f t, s ≠ 0 → q.frameMap.get? s = some (f :: t) →
      W.get? f.StreamID = q.flowControlWindows.get? f.StreamID) :
    popScan k { q with flowControlWindows := W } fr sid m =
      ({ (popScan k q fr sid m).1 with flowControlWindows := W }, (popScan k q fr sid m).2) := by
  induction k generalizing q fr sid m with
  | zero => rfl
  | succ k ih =>
    simp only [popScan]
    rw [getNextStream_windows]
    have hst := getNextStream_state q
    rcases hg : getNextStream q with ⟨q1, ns⟩
    rw [hg] at hst
    dsimp only at hst
    have hfm : q1.frameMap = q.frameMap := by rw [hst]
    have hfw : q1.flowControlWindows = q.flowControlWindows := by rw [hst]
    cases ns with
    | panicked => rfl
    | ret streamID err =>
      dsimp only
      by_cases h0 : streamID = 0
      · simp only [h0, if_true]
      · simp only [h0, if_false]
        cases err with
        | some e => rfl
        | none =>
          dsimp only
          cases hq : q1.frameMap.get? streamID with
          | none => rfl
          | some fq =>
            cases fq with
            | nil => rfl
            | cons f t =>
              dsimp only
              have hmax : getMaximumFrameDataSize { q1 with flowControlWindows := W } f =
                  getMaximumFrameDataSize q1 f := by
                apply getMaximumFrameDataSize_congr
                rw [hfw]
                exact H streamID f t h0 (hfm ▸ hq)
              rw [hmax]
              by_cases hpos : (getMaximumFrameDataSize q1 f).1 > 0
              · simp only [hpos, if_true]
              · simp only [hpos, if_false]
                exact ih q1 (some f) streamID _ (fun s g u hs hgu => by
                  rw [hfw]
                  exact H s g u hs (hfm ▸ hgu))

theorem writeHead_windows (q : streamFrameQueue) (W : GoMap Nat) (isPrio : Bool) (sid : Nat)
    (g : StreamFrame) :
    writeHead { q with flowControlWindows := W } isPrio sid g =
      { writeHead q isPrio sid g with flowControlWindows := W } := by
  unfold writeHead
  cases isPrio with
  | true => rfl
  | false =>
    dsimp only
    cases q.frameMap.get? sid <;> rfl

theorem dequeueHead_windows (q : streamFrameQueue) (W : GoMap Nat) (isPrio : Bool) (sid : Nat) :
    dequeueHead { q with flowControlWindows := W } isPrio sid =
      (dequeueHead q isPrio sid).map (fun q1 => { q1 with flowControlWindows := W }) := by
  unfold dequeueHead
  cases isPrio with
  | true =>
    dsimp only
    cases q.prioFrames <;> rfl
  | false =>
    dsimp only
    cases q.frameMap.get? sid with
    | none => rfl
    | some fq => cases fq <;> rfl

theorem popFinish_windows (env : FrameEnv) (q : streamFrameQueue) (W : GoMap Nat) (isPrio : Bool)
    (fr : Option StreamFrame) (sid m maxLength : Nat) :
    popFinish env { q with flowControlWindows := W } isPrio fr sid m maxLength =
      ({ (popFinish env q isPrio fr sid m maxLength).1 with flowControlWindows := W },
        (popFinish env q isPrio fr sid m maxLength).2) := by
  by_cases hm : m = 0
  · subst hm
    rw [popFinish_zero, popFinish_zero]
  cases fr with
  | none => simp [popFinish, hm]
  | some f =>
    by_cases hlen : maxLength < env.MinLength f
    · rw [popFinish_short env _ isPrio f sid m maxLength hlen,
        popFinish_short env _ isPrio f sid m maxLength hlen]
    by_cases hb : popBudget env f m maxLength < f.Data.length
    · rw [popFinish_split env _ isPrio f sid m maxLength hm (by omega) hb,
        popFinish_split env _ isPrio f sid m maxLength hm (by omega) hb, writeHead_windows]
    · rw [popFinish_whole env _ isPrio f sid m maxLength hm (by omega) (by omega),
        popFinish_whole env _ isPrio f sid m maxLength hm (by omega) (by omega),
        dequeueHead_windows]
      cases dequeueHead q isPrio sid <;> rfl

/-- `Pop` reads a ceiling only for the stream of a frame that heads the queue
of a stream other than 0: with any other ceilings in place of the others it
hands back the same result and leaves the same queue. -/
theorem Pop_windows (env : FrameEnv) (q : streamFrameQueue) (W : GoMap Nat) (maxLength : Nat)
    (H : ∀ s f t, s ≠ 0 → q.frameMap.get? s = some (f :: t) →
      W.get? f.StreamID = q.flowControlWindows.get? f.StreamID) :
    Pop env { q with flowControlWindows := W } maxLength =
      ({ (Pop env q maxLength).1 with flowControlWindows := W }, (Pop env q maxLength).2) := by
  unfold Pop
  dsimp only
  cases hd : dropNilPrio q.prioFrames with
  | nil =>
    dsimp only
    have h1 := popScan_windows q.activeStreams.length { q with prioFrames := [] } W none 0 0 H
    dsimp only at h1
    rw [h1]
    rcases popScan q.activeStreams.length { q with prioFrames := [] } none 0 0 with ⟨q1, sc⟩
    cases sc with
    | returned r => rfl
    | left fr sid m => exact popFinish_windows env q1 W false fr sid m maxLength
  | cons a t =>
    cases a with
    | some f =>
      dsimp only
      exact popFinish_windows env { q with prioFrames := some f :: t } W true (some f) 0
        env.MaxPacketSize maxLength
    | none =>
      dsimp only
      have h1 :=
        popScan_windows q.activeStreams.length { q with prioFrames := none :: t } W none 0 0 H
      dsimp only at h1
      rw [h1]
      rcases popScan q.activeStreams.length { q with prioFrames := none :: t } none 0 0 with
        ⟨q1, sc⟩
      cases sc with
      | returned r => rfl
      | left fr sid m => exact popFinish_windows env q1 W false fr sid m maxLength

/-- C3, as stated, fails: stream 5 holds a 16-byte frame at offset 0, its ceiling
is 100 and the connection ceiling (stream ID 0) is 10, with no byte sent yet.
The cap is 100, not the lesser of 100 and 10, and `Pop` hands back all 16
bytes, past the connection ceiling. -/
theorem Pop_exceeds_connection_ceiling :
    (∀ e ∈ (UpdateWindow (UpdateWindow (Push newStreamFrameQueue (sampleFrame 5 0 16) false)
        5 100) 0 10).prioFrames, e = none) ∧
      (UpdateWindow (UpdateWindow (Push newStreamFrameQueue (sampleFrame 5 0 16) false)
        5 100) 0 10).flowControlWindows.get? 0 = some 10 ∧
      (UpdateWindow (UpdateWindow (Push newStreamFrameQueue (sampleFrame 5 0 16) false)
        5 100) 0 10).flowControlWindows.get? 5 = some 100 ∧
      (UpdateWindow (UpdateWindow (Push newStreamFrameQueue (sampleFrame 5 0 16) false)
        5 100) 0 10).bytesSent = 0 ∧
      (getMaximumFrameDataSize (UpdateWindow (UpdateWindow
        (Push newStreamFrameQueue (sampleFrame 5 0 16) false) 5 100) 0 10)
        ⟨false, 5, 0, List.replicate 16 7, true⟩).1 = 100 ∧
      ∃ r, (Pop sampleEnv (UpdateWindow (UpdateWindow
        (Push newStreamFrameQueue (sampleFrame 5 0 16) false) 5 100) 0 10) 1000).2 =
          PopResult.frame r ∧
        r.StreamID = 5 ∧ min 100 10 < r.Offset + r.Data.length :=
  ⟨by decide, by decide, by decide, by decide, by decide,
    ⟨false, 5, 0, List.replicate 16 7, true⟩, by decide, by decide, by decide⟩

/-- C3, amended: when no priority frame is live and `Pop` hands back a frame
`r`, it was cut from a frame `f` heading the queue of a stream `sid` other than
0 under the cap `m`, the cap being the remaining window of the frame's own
stream, its ceiling `w` less the frame's offset; `r` is at most `m` bytes long
and ends at or below `w`. The ceiling of stream ID 0 is not read: when every
queued frame is filed under its own stream ID, `Pop` hands back the same result
and leaves the same queue under any ceilings `W` that agree with those of the
queue on the stream IDs other than 0. -/
theorem Pop_cap_is_stream_window (env : FrameEnv) (q : streamFrameQueue) (maxLength : Nat)
    (r : StreamFrame) (hprio : ∀ e ∈ q.prioFrames, e = none)
    (h : (Pop env q maxLength).2 = PopResult.frame r) :
    (∃ f sid m w p, sid ≠ 0 ∧ (∃ t, q.frameMap.get? sid = some (f :: t)) ∧
        q.flowControlWindows.get? f.StreamID = some w ∧ f.Offset ≤ w ∧ m = w - f.Offset ∧
        Pop env q maxLength =
          popFinish env { q with prioFrames := [], activeStreamsPosition := p } false (some f)
            sid m maxLength ∧
        r.StreamID = f.StreamID ∧ r.Offset = f.Offset ∧ r.Data.length ≤ m ∧
        r.Offset + r.Data.length ≤ w) ∧
      ∀ W : GoMap Nat,
        (∀ s fq, q.frameMap.get? s = some fq → ∀ g ∈ fq, g.StreamID = s) →
        (∀ s, s ≠ 0 → W.get? s = q.flowControlWindows.get? s) →
        (Pop env { q with flowControlWindows := W } maxLength).2 = (Pop env q maxLength).2 ∧
          (Pop env { q with flowControlWindows := W } maxLength).1.frameMap =
            (Pop env q maxLength).1.frameMap := by
  constructor
  · obtain ⟨f, sid, m, p, hsel, hpop⟩ := Pop_no_prio_selected env q maxLength r hprio h
    rw [hpop] at h
    obtain ⟨h1, h2, h3, _, _⟩ := popFinish_frame env _ false f r sid m maxLength h
    obtain ⟨hs, ht, w, hw1, hw2, hw3, _⟩ := hsel
    exact ⟨f, sid, m, w, p, hs, ht, hw1, hw2, hw3, hpop, h1, h2, h3, by omega⟩
  · intro W hfile hW
    have hP := Pop_windows env q W maxLength (fun s f t hs hft => by
      have hf : f.StreamID = s := hfile s (f :: t) hft f (List.mem_cons_self f t)
      rw [hf]
      exact hW s hs)
    rw [hP]
    exact ⟨rfl, rfl⟩

/-- C3, amended, at a concrete input: under stream ceiling 10 the 16-byte frame
of stream 5 is cut to the 10 bytes of the stream's window, and a connection
ceiling of 3 in place of 10 changes nothing. -/
theorem Pop_cap_is_stream_window_witness :
    (∃ f sid m w p, sid ≠ 0 ∧
        (∃ t, (UpdateWindow (UpdateWindow (Push newStreamFrameQueue (sampleFrame 5 0 16) false)
          5 10) 0 10).frameMap.get? sid = some (f :: t)) ∧
        (UpdateWindow (UpdateWindow (Push newStreamFrameQueue (sampleFrame 5 0 16) false)
          5 10) 0 10).flowControlWindows.get? f.StreamID = some w ∧ f.Offset ≤ w ∧
        m = w - f.Offset ∧
        Pop sampleEnv (UpdateWindow (UpdateWindow
            (Push newStreamFrameQueue (sampleFrame 5 0 16) false) 5 10) 0 10) 1000 =
          popFinish sampleEnv
            { UpdateWindow (UpdateWindow (Push newStreamFrameQueue (sampleFrame 5 0 16) false)
                5 10) 0 10 with prioFrames := [], activeStreamsPosition := p }
            false (some f) sid m 1000 ∧
        (StreamFrame.mk false 5 0 (List.replicate 10 7) true).StreamID = f.StreamID ∧
        (StreamFrame.mk false 5 0 (List.replicate 10 7) true).Offset = f.Offset ∧
        (StreamFrame.mk false 5 0 (List.replicate 10 7) true).Data.length ≤ m ∧
        (StreamFrame.mk false 5 0 (List.replicate 10 7) true).Offset +
          (StreamFrame.mk false 5 0 (List.replicate 10 7) true).Data.length ≤ w) ∧
      (Pop sampleEnv
        { UpdateWindow (UpdateWindow (Push newStreamFrameQueue (sampleFrame 5 0 16) false)
            5 10) 0 10 with flowControlWindows := (GoMap.empty.set 5 10).set 0 3 } 1000).2 =
        (Pop sampleEnv (UpdateWindow (UpdateWindow
          (Push newStreamFrameQueue (sampleFrame 5 0 16) false) 5 10) 0 10) 1000).2 := by
  have h := Pop_cap_is_stream_window sampleEnv
    (UpdateWindow (UpdateWindow (Push newStreamFrameQueue (sampleFrame 5 0 16) false) 5 10) 0 10)
    1000 ⟨false, 5, 0, List.replicate 10 7, true⟩ (by decide) (by decide)
  refine ⟨h.1, ?_⟩
  have h2 := h.2 ((GoMap.empty.set 5 10).set 0 3) ?_ ?_
  · exact h2.1
  · intro s fq hfq g hg
    have hfm : (UpdateWindow (UpdateWindow (Push newStreamFrameQueue (sampleFrame 5 0 16) false)
        5 10) 0 10).frameMap.get? s =
        lookupKey s [(5, [StreamFrame.mk false 5 0 (List.replicate 16 7) true])] := rfl
    rw [hfm] at hfq
    by_cases h5 : 5 = s
    · simp only [lookupKey, h5, if_true, Option.some.injEq] at hfq
      subst hfq
      simp only [List.mem_singleton] at hg
      rw [hg, ← h5]
    · simp [lookupKey, h5] at hfq
  · intro s hs
    have hfw : (UpdateWindow (UpdateWindow (Push newStreamFrameQueue (sampleFrame 5 0 16) false)
        5 10) 0 10).flowControlWindows.get? s = lookupKey s [(5, 10), (0, 10)] := rfl
    rw [hfw]
    have h0 : ¬ 0 = s := fun e => hs e.symm
    simp [GoMap.get?_set, lookupKey, hs, h0]
    by_cases h5 : 5 = s
    · simp [h5]
    · have h5b : ¬ s = 5 := fun e => h5 e.symm
      simp [h5, h5b]

/-! ## `RemoveStream` -/

theorem removePrioFrames_fst (s : Nat) (l : List (Option StreamFrame)) (len : Int) (b : Nat) :
    (removePrioFrames s l len b).1 =
      l.map (fun e => e.filter (fun f => decide (f.StreamID ≠ s))) := by
  induction l generalizing len b with
  | nil => rfl
  | cons a t ih =>
    cases a with
    | none =>
      simp only [removePrioFrames, ih, List.map_cons, Option.filter]
    | some f =>
      by_cases hf : f.StreamID = s
      · simp [removePrioFrames, hf, ih, Option.filter]
      · simp [removePrioFrames, hf, ih, Option.filter]

theorem garbageCollectActiveStreams_fields (q : streamFrameQueue) :
    (garbageCollectActiveStreams q).prioFrames = q.prioFrames ∧
      (garbageCollectActiveStreams q).frameMap = q.frameMap ∧
      (garbageCollectActiveStreams q).flowControlWindows = q.flowControlWindows ∧
      (garbageCollectActiveStreams q).bytesSent = q.bytesSent ∧
      (garbageCollectActiveStreams q).len = q.len ∧
      (garbageCollectActiveStreams q).byteLen = q.byteLen := by
  unfold garbageCollectActiveStreams
  dsimp only
  split <;> split <;> exact ⟨rfl, rfl, rfl, rfl, rfl, rfl⟩

theorem RemoveStream_prioFrames (q : streamFrameQueue) (s : Nat) :
    (RemoveStream q s).prioFrames =
      q.prioFrames.map (fun e => e.filter (fun f => decide (f.StreamID ≠ s))) := by
  unfold RemoveStream
  dsimp only
  rw [(garbageCollectActiveStreams_fields _).1]
  dsimp only
  split <;> exact removePrioFrames_fst s _ _ _

theorem RemoveStream_frameMap (q : streamFrameQueue) (s : Nat) :
    (RemoveStream q s).frameMap = q.frameMap.delete s ∨
      (q.frameMap.get? s = none ∧ (RemoveStream q s).frameMap = q.frameMap) := by
  unfold RemoveStream
  dsimp only
  rw [(garbageCollectActiveStreams_fields _).2.1]
  dsimp only
  cases h : q.frameMap.get? s with
  | none => exact Or.inr ⟨rfl, rfl⟩
  | some fq => exact Or.inl rfl

theorem RemoveStream_flowControlWindows (q : streamFrameQueue) (s : Nat) :
    (RemoveStream q s).flowControlWindows = q.flowControlWindows.delete s := by
  unfold RemoveStream
  dsimp only
  rw [(garbageCollectActiveStreams_fields _).2.2.1]
  dsimp only
  split <;> rfl

/-- C8: after `RemoveStream(s)` every entry of `prioFrames` that held a frame of
stream `s` is `nil` and every other entry is as before, `frameMap` and the
ceiling map have no entry for `s`, and the queues and ceilings of every other
stream ID are as before. -/
theorem RemoveStream_frame_effect (q : streamFrameQueue) (s : Nat) :
    (RemoveStream q s).prioFrames =
        q.prioFrames.map (fun e => e.filter (fun f => decide (f.StreamID ≠ s))) ∧
      (∀ f, some f ∈ (RemoveStream q s).prioFrames → f.StreamID ≠ s) ∧
      (RemoveStream q s).frameMap.get? s = none ∧
      (RemoveStream q s).flowControlWindows.get? s = none ∧
      ∀ t, t ≠ s →
        (RemoveStream q s).frameMap.get? t = q.frameMap.get? t ∧
        (RemoveStream q s).flowControlWindows.get? t = q.flowControlWindows.get? t := by
  refine ⟨RemoveStream_prioFrames q s, ?_, ?_, ?_, ?_⟩
  · intro f hf
    rw [RemoveStream_prioFrames, List.mem_map] at hf
    obtain ⟨e, _, he⟩ := hf
    cases e with
    | none => simp [Option.filter] at he
    | some g =>
      by_cases hg : g.StreamID = s
      · simp [Option.filter, hg] at he
      · simp [Option.filter, hg] at he
        rw [← he]
        exact hg
  · rcases RemoveStream_frameMap q s with h | ⟨h1, h2⟩
    · rw [h]
      exact GoMap.get?_delete_self _ _
    · rw [h2]
      exact h1
  · rw [RemoveStream_flowControlWindows]
    exact GoMap.get?_delete_self _ _
  · intro t ht
    constructor
    · rcases RemoveStream_frameMap q s with h | ⟨_, h2⟩
      · rw [h]
        exact GoMap.get?_delete_ne _ _ _ ht
      · rw [h2]
    · rw [RemoveStream_flowControlWindows]
      exact GoMap.get?_delete_ne _ _ _ ht

/-- C9 fails on the code: streams 5 and 7 are active, stream 9 is not.
`RemoveStream(5)` leaves the list `[7]`, as it should, but after
`RemoveStream(9)` the list has lost stream 7, whose frame is still queued and
counted, and `Pop` no longer reaches it. -/
theorem RemoveStream_drops_last_active_stream :
    (Push (Push newStreamFrameQueue (sampleFrame 5 0 16) false) (sampleFrame 7 0 3)
        false).activeStreams = [5, 7] ∧
      (RemoveStream (Push (Push newStreamFrameQueue (sampleFrame 5 0 16) false)
        (sampleFrame 7 0 3) false) 5).activeStreams = [7] ∧
      (RemoveStream (Push (Push newStreamFrameQueue (sampleFrame 5 0 16) false)
        (sampleFrame 7 0 3) false) 9).activeStreams = [5] ∧
      (RemoveStream (Push (Push newStreamFrameQueue (sampleFrame 5 0 16) false)
        (sampleFrame 7 0 3) false) 9).frameMap.get? 7 =
          some [⟨false, 7, 0, List.replicate 3 7, true⟩] ∧
      (Pop sampleEnv (UpdateWindow (RemoveStream (Push newStreamFrameQueue (sampleFrame 7 0 3)
        false) 9) 7 100) 1000).2 = PopResult.nothing ∧
      Len (Pop sampleEnv (UpdateWindow (RemoveStream (Push newStreamFrameQueue (sampleFrame 7 0 3)
        false) 9) 7 100) 1000).1 = 1 := by
  refine ⟨?_, ?_, ?_, ?_, ?_, ?_⟩ <;> decide

/-! ## Totals of a map under assignment and deletion -/

theorem mapTotal_setKey {V : Type} (F : V → Nat) (k : Nat) (v : V) (l : List (Nat × V)) :
    mapTotal F (setKey k v l) + (match lookupKey k l with
      | some old => F old
      | none => 0) = mapTotal F l + F v := by
  induction l with
  | nil => simp [mapTotal, setKey, lookupKey]
  | cons e t ih =>
    obtain ⟨a, w⟩ := e
    by_cases ha : a = k
    · simp [mapTotal, setKey, lookupKey, ha]
      omega
    · simp only [mapTotal, setKey, lookupKey, ha, if_false, List.map_cons, List.sum_cons] at ih ⊢
      omega

theorem deleteKey_of_not_mem {V : Type} (k : Nat) (l : List (Nat × V))
    (h : k ∉ l.map Prod.fst) : deleteKey k l = l := by
  induction l with
  | nil => rfl
  | cons e t ih =>
    obtain ⟨a, w⟩ := e
    simp only [List.map_cons, List.mem_cons, not_or] at h
    have ha : ¬ a = k := fun e => h.1 e.symm
    simp only [deleteKey, ha, if_false, ih h.2]

theorem mapTotal_deleteKey {V : Type} (F : V → Nat) (k : Nat) (l : List (Nat × V))
    (hn : (l.map Prod.fst).Nodup) :
    mapTotal F (deleteKey k l) + (match lookupKey k l with
      | some old => F old
      | none => 0) = mapTotal F l := by
  induction l with
  | nil => simp [mapTotal, deleteKey, lookupKey]
  | cons e t ih =>
    obtain ⟨a, w⟩ := e
    simp only [List.map_cons, List.nodup_cons] at hn
    by_cases ha : a = k
    · subst ha
      rw [deleteKey, if_pos rfl, deleteKey_of_not_mem a t hn.1]
      simp [mapTotal, lookupKey]
      omega
    · have := ih hn.2
      simp only [mapTotal, deleteKey, lookupKey, ha, if_false, List.map_cons, List.sum_cons]
        at this ⊢
      omega

theorem mapTotal_setKey_some {V : Type} (F : V → Nat) (k : Nat) (v old : V)
    (l : List (Nat × V)) (h : lookupKey k l = some old) :
    mapTotal F (setKey k v l) + F old = mapTotal F l + F v := by
  have := mapTotal_setKey F k v l
  rw [h] at this
  exact this

theorem mapTotal_deleteKey_some {V : Type} (F : V → Nat) (k : Nat) (old : V)
    (l : List (Nat × V)) (hn : (l.map Prod.fst).Nodup) (h : lookupKey k l = some old) :
    mapTotal F (deleteKey k l) + F old = mapTotal F l := by
  have := mapTotal_deleteKey F k l hn
  rw [h] at this
  exact this

/-! ## Machine arithmetic on totals -/

theorem wrapAdd_mod (B d : Nat) : wrapAdd (B % U64) d = (B + d) % U64 := by
  unfold wrapAdd U64
  omega

theorem wrapSub_mod (B d : Nat) (h : d ≤ B) : wrapSub (B % U64) d = (B - d) % U64 := by
  unfold wrapSub U64
  omega

/-! ## The totals are kept by every call -/

@[simp] theorem prioCount_nil : prioCount [] = 0 := rfl

@[simp] theorem prioCount_none (t : List (Option StreamFrame)) :
    prioCount (none :: t) = prioCount t := by
  simp [prioCount]

@[simp] theorem prioCount_some (f : StreamFrame) (t : List (Option StreamFrame)) :
    prioCount (some f :: t) = prioCount t + 1 := by
  simp [prioCount]

@[simp] theorem prioBytes_nil : prioBytes [] = 0 := rfl

@[simp] theorem prioBytes_none (t : List (Option StreamFrame)) :
    prioBytes (none :: t) = prioBytes t := by
  simp [prioBytes]

@[simp] theorem prioBytes_some (f : StreamFrame) (t : List (Option StreamFrame)) :
    prioBytes (some f :: t) = f.DataLen + prioBytes t := by
  simp [prioBytes]

theorem prioCount_append_some (l : List (Option StreamFrame)) (f : StreamFrame) :
    prioCount (l ++ [some f]) = prioCount l + 1 := by
  simp [prioCount]

theorem prioBytes_append_some (l : List (Option StreamFrame)) (f : StreamFrame) :
    prioBytes (l ++ [some f]) = prioBytes l + f.DataLen := by
  simp [prioBytes]

theorem prioCount_dropNilPrio (l : List (Option StreamFrame)) :
    prioCount (dropNilPrio l) = prioCount l := by
  induction l with
  | nil => rfl
  | cons a t ih =>
    cases a with
    | none => rw [dropNilPrio, ih, prioCount_none]
    | some f => rfl

theorem prioBytes_dropNilPrio (l : List (Option StreamFrame)) :
    prioBytes (dropNilPrio l) = prioBytes l := by
  induction l with
  | nil => rfl
  | cons a t ih =>
    cases a with
    | none => rw [dropNilPrio, ih, prioBytes_none]
    | some f => rfl

theorem queueBytes_append (fq : List StreamFrame) (f : StreamFrame) :
    queueBytes (fq ++ [f]) = queueBytes fq + f.DataLen := by
  simp [queueBytes]

theorem TotalsOk_new : TotalsOk newStreamFrameQueue := by
  constructor <;> rfl

theorem Push_prio (q : streamFrameQueue) (frame : StreamFrame) :
    Push q frame true =
      { q with
        prioFrames := q.prioFrames ++ [some { frame with DataLenPresent := true }]
        byteLen := wrapAdd q.byteLen frame.Data.length
        len := q.len + 1 } := by
  simp [Push, StreamFrame.DataLen]

theorem Push_existing (q : streamFrameQueue) (frame : StreamFrame) (fq : List StreamFrame)
    (h : q.frameMap.get? frame.StreamID = some fq) :
    Push q frame false =
      { q with
        frameMap := q.frameMap.set frame.StreamID (fq ++ [{ frame with DataLenPresent := true }])
        byteLen := wrapAdd q.byteLen frame.Data.length
        len := q.len + 1 } := by
  simp [Push, StreamFrame.DataLen, h]

theorem Push_fresh (q : streamFrameQueue) (frame : StreamFrame)
    (h : q.frameMap.get? frame.StreamID = none) :
    Push q frame false =
      { q with
        frameMap := q.frameMap.set frame.StreamID [{ frame with DataLenPresent := true }]
        activeStreams := q.activeStreams ++ [frame.StreamID]
        byteLen := wrapAdd q.byteLen frame.Data.length
        len := q.len + 1 } := by
  simp [Push, StreamFrame.DataLen, h]

theorem TotalsOk_Push (q : streamFrameQueue) (frame : StreamFrame) (prio : Bool)
    (h : TotalsOk q) : TotalsOk (Push q frame prio) := by
  obtain ⟨h1, h2⟩ := h
  cases prio with
  | true =>
    rw [Push_prio]
    constructor
    · simp only [queuedCount, prioCount_append_some, h1]
      push_cast
      omega
    · simp only [queuedBytes, prioBytes_append_some, h2]
      rw [wrapAdd_mod]
      simp only [StreamFrame.DataLen]
      congr 1
      omega
  | false =>
    have hc := mapTotal_setKey (List.length : List StreamFrame → Nat) frame.StreamID
    have hb := mapTotal_setKey queueBytes frame.StreamID
    cases hq : q.frameMap.get? frame.StreamID with
    | none =>
      have hq1 : lookupKey frame.StreamID q.frameMap.entries = none := hq
      have hc1 := hc [{ frame with DataLenPresent := true }] q.frameMap.entries
      have hb1 := hb [{ frame with DataLenPresent := true }] q.frameMap.entries
      rw [hq1] at hc1 hb1
      rw [Push_fresh q frame hq]
      constructor
      · simp only [queuedCount, GoMap.set, h1]
        simp only [List.length_singleton] at hc1
        push_cast
        omega
      · simp only [queuedBytes, GoMap.set, h2]
        rw [wrapAdd_mod]
        simp only [queueBytes, List.map_cons, List.map_nil, List.sum_cons, List.sum_nil,
          StreamFrame.DataLen] at hb1 ⊢
        congr 1
        omega
    | some fq =>
      have hq1 : lookupKey frame.StreamID q.frameMap.entries = some fq := hq
      have hc1 := hc (fq ++ [{ frame with DataLenPresent := true }]) q.frameMap.entries
      have hb1 := hb (fq ++ [{ frame with DataLenPresent := true }]) q.frameMap.entries
      rw [hq1] at hc1 hb1
      rw [Push_existing q frame fq hq]
      constructor
      · simp only [queuedCount, GoMap.set, h1]
        simp only [List.length_append, List.length_singleton] at hc1
        push_cast
        omega
      · simp only [queuedBytes, GoMap.set, h2]
        rw [wrapAdd_mod]
        simp only [queueBytes_append, StreamFrame.DataLen] at hb1 ⊢
        congr 1
        omega

theorem TotalsOk_UpdateWindow (q : streamFrameQueue) (s offset : Nat) (h : TotalsOk q) :
    TotalsOk (UpdateWindow q s offset) := by
  unfold UpdateWindow
  split
  · split
    · exact h
    · exact h
  · exact h

theorem TotalsOk_popFinish_prio (env : FrameEnv) (q : streamFrameQueue) (f : StreamFrame)
    (t : List (Option StreamFrame)) (sid m maxLength : Nat) (h : TotalsOk q)
    (hq : q.prioFrames = some f :: t) :
    TotalsOk (popFinish env q true (some f) sid m maxLength).1 := by
  obtain ⟨h1, h2⟩ := h
  simp only [queuedCount, queuedBytes, hq, prioCount_some, prioBytes_some,
    StreamFrame.DataLen] at h1 h2
  by_cases hm : m = 0
  · subst hm
    rw [popFinish_zero]
    exact ⟨by simp only [queuedCount, hq, prioCount_some, h1],
      by simp only [queuedBytes, hq, prioBytes_some, StreamFrame.DataLen, h2]⟩
  by_cases hlen : maxLength < env.MinLength f
  · rw [popFinish_short env q true f sid m maxLength hlen]
    exact ⟨by simp only [queuedCount, hq, prioCount_some, h1],
      by simp only [queuedBytes, hq, prioBytes_some, StreamFrame.DataLen, h2]⟩
  by_cases hb : popBudget env f m maxLength < f.Data.length
  · rw [popFinish_split env q true f sid m maxLength hm (by omega) hb]
    have hl : (List.take (popBudget env f m maxLength) f.Data).length =
        popBudget env f m maxLength := by
      rw [List.length_take]
      omega
    constructor
    · simp only [queuedCount, writeHead, if_true, hq, List.drop_one, List.tail_cons,
        prioCount_some, h1]
    · simp only [queuedBytes, writeHead, if_true, hq, List.drop_one, List.tail_cons,
        prioBytes_some, StreamFrame.DataLen, h2, hl, List.length_drop]
      rw [wrapSub_mod _ _ (by omega)]
      congr 1
      omega
  · rw [popFinish_whole env q true f sid m maxLength hm (by omega) (by omega)]
    have hd : dequeueHead q true sid = some { q with prioFrames := t } := by
      simp [dequeueHead, hq]
    rw [hd]
    constructor
    · simp only [queuedCount, h1]
      push_cast
      omega
    · simp only [queuedBytes, StreamFrame.DataLen, h2]
      rw [wrapSub_mod _ _ (by omega)]
      congr 1
      omega

theorem TotalsOk_popFinish_stream (env : FrameEnv) (q : streamFrameQueue) (f : StreamFrame)
    (t : List StreamFrame) (sid m maxLength : Nat) (h : TotalsOk q)
    (hq : q.frameMap.get? sid = some (f :: t)) :
    TotalsOk (popFinish env q false (some f) sid m maxLength).1 := by
  by_cases hm : m = 0
  · subst hm
    rw [popFinish_zero]
    exact h
  by_cases hlen : maxLength < env.MinLength f
  · rw [popFinish_short env q false f sid m maxLength hlen]
    exact h
  obtain ⟨h1, h2⟩ := h
  have hq1 : lookupKey sid q.frameMap.entries = some (f :: t) := hq
  simp only [queuedCount, queuedBytes] at h1 h2
  by_cases hb : popBudget env f m maxLength < f.Data.length
  · rw [popFinish_split env q false f sid m maxLength hm (by omega) hb]
    have hl : (List.take (popBudget env f m maxLength) f.Data).length =
        popBudget env f m maxLength := by
      rw [List.length_take]
      omega
    have hc1 := mapTotal_setKey_some (List.length : List StreamFrame → Nat) sid
      (StreamFrame.mk f.FinBit f.StreamID (wrapAdd f.Offset (popBudget env f m maxLength))
        (f.Data.drop (popBudget env f m maxLength)) f.DataLenPresent :: t) (f :: t)
      q.frameMap.entries hq1
    have hb1 := mapTotal_setKey_some queueBytes sid
      (StreamFrame.mk f.FinBit f.StreamID (wrapAdd f.Offset (popBudget env f m maxLength))
        (f.Data.drop (popBudget env f m maxLength)) f.DataLenPresent :: t) (f :: t)
      q.frameMap.entries hq1
    simp only [List.length_cons, queueBytes, List.map_cons, List.sum_cons, StreamFrame.DataLen,
      List.length_drop] at hc1 hb1
    constructor
    · simp only [queuedCount, writeHead, hq, List.drop_one, List.tail_cons, GoMap.set, h1]
      simp only [Bool.false_eq_true, if_false]
      push_cast
      omega
    · simp only [queuedBytes, writeHead, hq, List.drop_one, List.tail_cons, GoMap.set, h2, hl]
      simp only [Bool.false_eq_true, if_false]
      rw [wrapSub_mod _ _ (by omega)]
      congr 1
      omega
  · rw [popFinish_whole env q false f sid m maxLength hm (by omega) (by omega)]
    have hd : dequeueHead q false sid = some { q with frameMap := q.frameMap.set sid t } := by
      simp [dequeueHead, hq]
    rw [hd]
    have hc1 := mapTotal_setKey_some (List.length : List StreamFrame → Nat) sid t (f :: t)
      q.frameMap.entries hq1
    have hb1 := mapTotal_setKey_some queueBytes sid t (f :: t) q.frameMap.entries hq1
    simp only [List.length_cons, queueBytes, List.map_cons, List.sum_cons, StreamFrame.DataLen]
      at hc1 hb1
    constructor
    · simp only [queuedCount, GoMap.set, h1]
      push_cast
      omega
    · simp only [queuedBytes, GoMap.set, StreamFrame.DataLen, h2]
      rw [wrapSub_mod _ _ (by omega)]
      congr 1
      omega

theorem TotalsOk_dropNilPrio (q : streamFrameQueue) (h : TotalsOk q) :
    TotalsOk { q with prioFrames := dropNilPrio q.prioFrames } := by
  obtain ⟨h1, h2⟩ := h
  exact ⟨by simp only [queuedCount, prioCount_dropNilPrio]; exact h1,
    by simp only [queuedBytes, prioBytes_dropNilPrio]; exact h2⟩

theorem TotalsOk_scan (env : FrameEnv) (q0 : streamFrameQueue) (maxLength : Nat)
    (h : TotalsOk q0) (q1 : streamFrameQueue) (sc : Scan)
    (hp : popScan q0.activeStreams.length q0 none 0 0 = (q1, sc)) :
    TotalsOk q1 ∧
      ∀ fr sid m, sc = Scan.left fr sid m →
        TotalsOk (popFinish env q1 false fr sid m maxLength).1 := by
  obtain ⟨h1, _, h3⟩ := popScan_spec q0.activeStreams.length q0 none 0 0
  rw [hp] at h1 h3
  dsimp only at h1 h3
  have hq1 : TotalsOk q1 := by
    rw [h1]
    exact h
  refine ⟨hq1, ?_⟩
  intro fr sid m hsc
  rcases h3 fr sid m hsc with ⟨_, _, hm⟩ | hm | ⟨f, hf, hsel⟩
  · subst hm
    rw [popFinish_zero]
    exact hq1
  · subst hm
    rw [popFinish_zero]
    exact hq1
  · subst hf
    obtain ⟨_, ⟨t, ht⟩, _⟩ := hsel
    have ht1 : q1.frameMap.get? sid = some (f :: t) := by
      rw [h1]
      exact ht
    exact TotalsOk_popFinish_stream env q1 f t sid m maxLength hq1 ht1

theorem TotalsOk_Pop (env : FrameEnv) (q : streamFrameQueue) (maxLength : Nat)
    (h : TotalsOk q) : TotalsOk (Pop env q maxLength).1 := by
  have h0 := TotalsOk_dropNilPrio q h
  unfold Pop
  dsimp only
  cases hd : dropNilPrio q.prioFrames with
  | nil =>
    rw [hd] at h0
    dsimp only
    rcases hp : popScan q.activeStreams.length { q with prioFrames := [] } none 0 0 with ⟨q1, sc⟩
    obtain ⟨i1, i2⟩ := TotalsOk_scan env _ maxLength h0 q1 sc hp
    cases sc with
    | returned r => exact i1
    | left fr sid m => exact i2 fr sid m rfl
  | cons a t =>
    rw [hd] at h0
    cases a with
    | some f =>
      dsimp only
      exact TotalsOk_popFinish_prio env _ f t 0 env.MaxPacketSize maxLength h0 rfl
    | none =>
      dsimp only
      rcases hp : popScan q.activeStreams.length { q with prioFrames := none :: t } none 0 0 with
        ⟨q1, sc⟩
      obtain ⟨i1, i2⟩ := TotalsOk_scan env _ maxLength h0 q1 sc hp
      cases sc with
      | returned r => exact i1
      | left fr sid m => exact i2 fr sid m rfl

theorem removePrioFrames_totals (s : Nat) (l : List (Option StreamFrame)) (len : Int) (b : Nat)
    (X Y : Nat) (h1 : len = ((prioCount l + X : Nat) : Int)) (h2 : b = (prioBytes l + Y) % U64) :
    (removePrioFrames s l len b).2.1 =
        ((prioCount (removePrioFrames s l len b).1 + X : Nat) : Int) ∧
      (removePrioFrames s l len b).2.2 = (prioBytes (removePrioFrames s l len b).1 + Y) % U64 := by
  induction l generalizing len b X Y with
  | nil => exact ⟨h1, h2⟩
  | cons a t ih =>
    cases a with
    | none =>
      simp only [removePrioFrames, prioCount_none, prioBytes_none] at h1 h2 ⊢
      exact ih len b X Y h1 h2
    | some f =>
      simp only [prioCount_some, prioBytes_some] at h1 h2
      by_cases hf : f.StreamID = s
      · simp only [removePrioFrames, hf, if_true, prioCount_none, prioBytes_none]
        apply ih
        · rw [h1]
          push_cast
          omega
        · rw [h2, wrapSub_mod _ _ (by omega)]
          congr 1
          omega
      · simp only [removePrioFrames, hf, if_false, prioCount_some, prioBytes_some]
        have := ih len b (X + 1) (Y + f.DataLen) (by rw [h1]; congr 1; omega)
          (by rw [h2]; congr 1; omega)
        constructor
        · rw [this.1]
          congr 1
          omega
        · rw [this.2]
          congr 1
          omega

theorem removeQueued_totals (fq : List StreamFrame) (len : Int) (b : Nat) (X Y : Nat)
    (h1 : len = ((fq.length + X : Nat) : Int)) (h2 : b = (queueBytes fq + Y) % U64) :
    (removeQueued fq len b).1 = (X : Int) ∧ (removeQueued fq len b).2 = Y % U64 := by
  induction fq generalizing len b with
  | nil =>
    simp only [removeQueued, List.length_nil, queueBytes, List.map_nil, List.sum_nil,
      Nat.zero_add] at h1 h2 ⊢
    exact ⟨h1, h2⟩
  | cons f t ih =>
    simp only [queueBytes, List.map_cons, List.sum_cons, List.length_cons] at h1 h2
    rw [removeQueued]
    apply ih
    · rw [h1]
      push_cast
      omega
    · rw [h2, wrapSub_mod _ _ (by omega)]
      simp only [queueBytes]
      congr 1
      omega

theorem TotalsOk_garbageCollectActiveStreams (q : streamFrameQueue) (h : TotalsOk q) :
    TotalsOk (garbageCollectActiveStreams q) := by
  obtain ⟨g1, g2, _, _, g5, g6⟩ := garbageCollectActiveStreams_fields q
  unfold TotalsOk queuedCount queuedBytes
  rw [g1, g2, g5, g6]
  exact h

theorem TotalsOk_RemoveStream (q : streamFrameQueue) (s : Nat) (h : TotalsOk q) :
    TotalsOk (RemoveStream q s) := by
  obtain ⟨h1, h2⟩ := h
  unfold RemoveStream
  dsimp only
  apply TotalsOk_garbageCollectActiveStreams
  obtain ⟨r1, r2⟩ := removePrioFrames_totals s q.prioFrames q.len q.byteLen
    (mapTotal List.length q.frameMap.entries) (mapTotal queueBytes q.frameMap.entries) h1 h2
  cases hq : q.frameMap.get? s with
  | none =>
    dsimp only
    exact ⟨r1, r2⟩
  | some fq =>
    dsimp only
    have hq1 : lookupKey s q.frameMap.entries = some fq := hq
    have hc := mapTotal_deleteKey_some (List.length : List StreamFrame → Nat) s fq
      q.frameMap.entries q.frameMap.nodup hq1
    have hb := mapTotal_deleteKey_some queueBytes s fq q.frameMap.entries q.frameMap.nodup hq1
    obtain ⟨c1, c2⟩ := removeQueued_totals fq
      (removePrioFrames s q.prioFrames q.len q.byteLen).2.1
      (removePrioFrames s q.prioFrames q.len q.byteLen).2.2
      (prioCount (removePrioFrames s q.prioFrames q.len q.byteLen).1 +
        mapTotal List.length (deleteKey s q.frameMap.entries))
      (prioBytes (removePrioFrames s q.prioFrames q.len q.byteLen).1 +
        mapTotal queueBytes (deleteKey s q.frameMap.entries))
      (by rw [r1]; congr 1; omega) (by rw [r2]; congr 1; omega)
    exact ⟨c1, c2⟩

theorem TotalsOk_run (env : FrameEnv) (ops : List Op) : TotalsOk (run env ops) := by
  unfold run
  suffices H : ∀ q, TotalsOk q → TotalsOk (ops.foldl (step env) q) from H _ TotalsOk_new
  induction ops with
  | nil => exact fun q h => h
  | cons op t ih =>
    intro q h
    rw [List.foldl_cons]
    apply ih
    cases op with
    | push frame prio => exact TotalsOk_Push q frame prio h
    | pop maxLength => exact TotalsOk_Pop env q maxLength h
    | updateWindow streamID offset => exact TotalsOk_UpdateWindow q streamID offset h
    | removeStream streamID => exact TotalsOk_RemoveStream q streamID h

/-- C1: in every state reached from `newStreamFrameQueue()` by `Push`, `Pop`,
`UpdateWindow` and `RemoveStream` calls, `Len()` is the number of entries of
`prioFrames` that are not `nil` plus the number of frames in the queues of
`frameMap`, and `ByteLen()` is the sum of `DataLen()` over those frames, as a
`uint64`: the sum itself whenever it is below `2^64`. -/
theorem Len_ByteLen_match_queued_frames (env : FrameEnv) (ops : List Op) :
    Len (run env ops) = (queuedCount (run env ops) : Int) ∧
      ByteLen (run env ops) = queuedBytes (run env ops) % U64 ∧
      (queuedBytes (run env ops) < U64 → ByteLen (run env ops) = queuedBytes (run env ops)) := by
  obtain ⟨h1, h2⟩ := TotalsOk_run env ops
  refine ⟨h1, h2, fun hlt => ?_⟩
  rw [ByteLen, h2]
  exact Nat.mod_eq_of_lt hlt

/-- C1, at a concrete run: a ceiling of 10 makes `Pop` split a 16-byte frame,
two priority frames are pushed, and the stream of one of them is removed; a
frame of 6 bytes and a frame of 4 bytes remain. -/
theorem Len_ByteLen_match_queued_frames_witness :
    Len (run sampleEnv [Op.push (sampleFrame 5 0 16) false, Op.updateWindow 5 10, Op.pop 1000,
        Op.push (sampleFrame 7 0 3) true, Op.push (sampleFrame 9 0 4) true,
        Op.removeStream 7]) = 2 ∧
      ByteLen (run sampleEnv [Op.push (sampleFrame 5 0 16) false, Op.updateWindow 5 10,
        Op.pop 1000, Op.push (sampleFrame 7 0 3) true, Op.push (sampleFrame 9 0 4) true,
        Op.removeStream 7]) = 10 ∧
      queuedCount (run sampleEnv [Op.push (sampleFrame 5 0 16) false, Op.updateWindow 5 10,
        Op.pop 1000, Op.push (sampleFrame 7 0 3) true, Op.push (sampleFrame 9 0 4) true,
        Op.removeStream 7]) = 2 ∧
      queuedBytes (run sampleEnv [Op.push (sampleFrame 5 0 16) false, Op.updateWindow 5 10,
        Op.pop 1000, Op.push (sampleFrame 7 0 3) true, Op.push (sampleFrame 9 0 4) true,
        Op.removeStream 7]) = 10 := by
  have h := Len_ByteLen_match_queued_frames sampleEnv
    [Op.push (sampleFrame 5 0 16) false, Op.updateWindow 5 10, Op.pop 1000,
      Op.push (sampleFrame 7 0 3) true, Op.push (sampleFrame 9 0 4) true, Op.removeStream 7]
  have hc : queuedCount (run sampleEnv [Op.push (sampleFrame 5 0 16) false,
      Op.updateWindow 5 10, Op.pop 1000, Op.push (sampleFrame 7 0 3) true,
      Op.push (sampleFrame 9 0 4) true, Op.removeStream 7]) = 2 := by decide
  have hb : queuedBytes (run sampleEnv [Op.push (sampleFrame 5 0 16) false,
      Op.updateWindow 5 10, Op.pop 1000, Op.push (sampleFrame 7 0 3) true,
      Op.push (sampleFrame 9 0 4) true, Op.removeStream 7]) = 10 := by decide
  refine ⟨?_, ?_, hc, hb⟩
  · rw [h.1, hc]
    rfl
  · rw [h.2.2 (by rw [hb]; decide), hb]

/-! ## One `Pop` at the cursor -/

theorem getNextStreamLoop_hit (k : Nat) (q : streamFrameQueue) (sid : Nat) (f : StreamFrame)
    (t : List StreamFrame) (hpos : 0 ≤ q.activeStreamsPosition)
    (hidx : q.activeStreams[q.activeStreamsPosition.toNat]? = some sid)
    (hq : q.frameMap.get? sid = some (f :: t)) :
    getNextStreamLoop (k + 1) q =
      ({ q with
         activeStreamsPosition :=
           (q.activeStreamsPosition + 1).tmod (q.activeStreams.length : Int) },
        NextStream.ret sid none) := by
  have h1 : ¬ q.activeStreamsPosition < 0 := by omega
  simp only [getNextStreamLoop, h1, if_false, hidx, hq, List.length_cons]
  simp

theorem getNextStream_hit (q : streamFrameQueue) (sid : Nat) (f : StreamFrame)
    (t : List StreamFrame) (hlen : q.len - (q.prioFrames.length : Int) ≠ 0)
    (hpos : 0 ≤ q.activeStreamsPosition)
    (hidx : q.activeStreams[q.activeStreamsPosition.toNat]? = some sid)
    (hq : q.frameMap.get? sid = some (f :: t)) :
    getNextStream q =
      ({ q with
         activeStreamsPosition :=
           (q.activeStreamsPosition + 1).tmod (q.activeStreams.length : Int) },
        NextStream.ret sid none) := by
  unfold getNextStream
  rw [if_neg hlen]
  have hl : q.activeStreamsPosition.toNat < q.activeStreams.length := by
    by_contra hc
    rw [List.getElem?_eq_none (by omega)] at hidx
    cases hidx
  obtain ⟨k, hk⟩ : ∃ k, q.activeStreams.length = k + 1 := ⟨q.activeStreams.length - 1, by omega⟩
  rw [hk, getNextStreamLoop_hit k q sid f t hpos hidx hq, hk]

theorem popScan_hit (n : Nat) (q : streamFrameQueue) (fr : Option StreamFrame) (sid0 m0 : Nat)
    (sid : Nat) (f : StreamFrame) (t : List StreamFrame) (w : Nat) (hn : n ≠ 0)
    (hlen : q.len - (q.prioFrames.length : Int) ≠ 0)
    (hpos : 0 ≤ q.activeStreamsPosition)
    (hidx : q.activeStreams[q.activeStreamsPosition.toNat]? = some sid) (hs : sid ≠ 0)
    (hq : q.frameMap.get? sid = some (f :: t))
    (hw : q.flowControlWindows.get? f.StreamID = some w) (hw1 : f.Offset < w) :
    popScan n q fr sid0 m0 =
      ({ q with
         activeStreamsPosition :=
           (q.activeStreamsPosition + 1).tmod (q.activeStreams.length : Int) },
        Scan.left (some f) sid (w - f.Offset)) := by
  obtain ⟨k, rfl⟩ : ∃ k, n = k + 1 := ⟨n - 1, by omega⟩
  have hg : ¬ f.Offset > w := by omega
  have hpos1 : w - f.Offset > 0 := by omega
  simp only [popScan, getNextStream_hit q sid f t hlen hpos hidx hq, hs, if_false, hq,
    getMaximumFrameDataSize, hw, hg, hpos1, if_true]

theorem popBudget_whole (env : FrameEnv) (f : StreamFrame) (m maxLength : Nat)
    (hmin : 1 ≤ env.MinLength f) (hfit : env.MinLength f ≤ maxLength)
    (hmax : env.MinLength f + f.Data.length ≤ maxLength + 1) (h64 : maxLength < U64)
    (hm : f.Data.length ≤ m) : f.Data.length ≤ popBudget env f m maxLength := by
  unfold popBudget
  rw [wrapSub_of_le hmin (by omega), wrapSub_of_le (by omega) h64]
  unfold MinByteCount
  split <;> omega

/-- One `Pop` when no priority frame is live, the stream at the cursor is not
stream 0 and has the frame `f` at the head of its queue, the ceiling of the
frame's stream lies above the frame's offset and not below its end, and
`maxLength` holds the whole frame: `f` is handed back, its queue loses it, the
cursor moves on by one and the totals are updated. -/
theorem Pop_hit (env : FrameEnv) (q : streamFrameQueue) (maxLength sid : Nat) (f : StreamFrame)
    (t : List StreamFrame) (w : Nat) (hprio : ∀ e ∈ q.prioFrames, e = none) (hlen : q.len ≠ 0)
    (hpos : 0 ≤ q.activeStreamsPosition)
    (hidx : q.activeStreams[q.activeStreamsPosition.toNat]? = some sid) (hs : sid ≠ 0)
    (hq : q.frameMap.get? sid = some (f :: t))
    (hw : q.flowControlWindows.get? f.StreamID = some w) (hw1 : f.Offset < w)
    (hw2 : f.Offset + f.Data.length ≤ w)
    (hmin : 1 ≤ env.MinLength f) (hfit : env.MinLength f ≤ maxLength)
    (hmax : env.MinLength f + f.Data.length ≤ maxLength + 1) (h64 : maxLength < U64) :
    Pop env q maxLength =
      ({ q with
         prioFrames := []
         activeStreamsPosition :=
           (q.activeStreamsPosition + 1).tmod (q.activeStreams.length : Int)
         frameMap := q.frameMap.set sid t
         byteLen := wrapSub q.byteLen f.DataLen
         bytesSent :=
           if f.StreamID ≠ 1 ∧ f.StreamID ≠ 3 then wrapAdd q.bytesSent f.DataLen
           else q.bytesSent
         len := q.len - 1 }, PopResult.frame f) := by
  rw [Pop_no_prio env q maxLength hprio]
  have hl : q.activeStreamsPosition.toNat < q.activeStreams.length := by
    by_contra hc
    rw [List.getElem?_eq_none (by omega)] at hidx
    cases hidx
  have hsc := popScan_hit q.activeStreams.length { q with prioFrames := [] } none 0 0 sid f t w
    (by omega) (by simp only [List.length_nil, Nat.cast_zero, sub_zero]; exact hlen) hpos hidx hs
    hq hw hw1
  dsimp only at hsc
  rw [hsc]
  dsimp only
  rw [popFinish_whole env _ false f sid (w - f.Offset) maxLength (by omega) hfit
    (popBudget_whole env f _ maxLength hmin hfit hmax h64 (by omega))]
  have hd : dequeueHead
      { q with
        prioFrames := []
        activeStreamsPosition :=
          (q.activeStreamsPosition + 1).tmod (q.activeStreams.length : Int) } false sid =
      some { q with
        prioFrames := []
        activeStreamsPosition :=
          (q.activeStreamsPosition + 1).tmod (q.activeStreams.length : Int)
        frameMap := q.frameMap.set sid t } := by
    simp [dequeueHead, hq]
  rw [hd]

/-! ## The rotation over streams with one frame each -/

theorem setKey_of_not_mem {V : Type} (k : Nat) (v : V) (l : List (Nat × V))
    (h : k ∉ l.map Prod.fst) : setKey k v l = l ++ [(k, v)] := by
  induction l with
  | nil => rfl
  | cons e t ih =>
    obtain ⟨a, w⟩ := e
    simp only [List.map_cons, List.mem_cons, not_or] at h
    have ha : ¬ a = k := fun e => h.1 e.symm
    simp only [setKey, ha, if_false, ih h.2, List.cons_append]

theorem lookupKey_none_of_not_mem {V : Type} (k : Nat) (l : List (Nat × V))
    (h : k ∉ l.map Prod.fst) : lookupKey k l = none := by
  induction l with
  | nil => rfl
  | cons e t ih =>
    obtain ⟨a, w⟩ := e
    simp only [List.map_cons, List.mem_cons, not_or] at h
    have ha : ¬ a = k := fun e => h.1 e.symm
    simp only [lookupKey, ha, if_false, ih h.2]

theorem lookupKey_map_of_mem (fs : List StreamFrame) (f : StreamFrame)
    (hn : (fs.map StreamFrame.StreamID).Nodup) (hf : f ∈ fs) :
    lookupKey f.StreamID (fs.map (fun g => (g.StreamID, [withDataLen g]))) =
      some [withDataLen f] := by
  induction fs with
  | nil => cases hf
  | cons g t ih =>
    simp only [List.map_cons, List.nodup_cons] at hn
    rcases List.mem_cons.mp hf with h | h
    · subst h
      simp [lookupKey]
    · have hne : ¬ g.StreamID = f.StreamID := by
        intro e
        apply hn.1
        rw [e]
        exact List.mem_map_of_mem _ h
      simp only [List.map_cons, lookupKey, hne, if_false]
      exact ih hn.2 h

theorem updateWindows_fields (q : streamFrameQueue) (ws : List (Nat × Nat)) :
    (updateWindows q ws).prioFrames = q.prioFrames ∧
      (updateWindows q ws).frameMap = q.frameMap ∧
      (updateWindows q ws).activeStreams = q.activeStreams ∧
      (updateWindows q ws).activeStreamsPosition = q.activeStreamsPosition ∧
      (updateWindows q ws).len = q.len := by
  unfold updateWindows
  induction ws generalizing q with
  | nil => exact ⟨rfl, rfl, rfl, rfl, rfl⟩
  | cons p t ih =>
    rw [List.foldl_cons]
    obtain ⟨i1, i2, i3, i4, i5⟩ := ih (UpdateWindow q p.1 p.2)
    have hu : (UpdateWindow q p.1 p.2).prioFrames = q.prioFrames ∧
        (UpdateWindow q p.1 p.2).frameMap = q.frameMap ∧
        (UpdateWindow q p.1 p.2).activeStreams = q.activeStreams ∧
        (UpdateWindow q p.1 p.2).activeStreamsPosition = q.activeStreamsPosition ∧
        (UpdateWindow q p.1 p.2).len = q.len := by
      unfold UpdateWindow
      split
      · split <;> exact ⟨rfl, rfl, rfl, rfl, rfl⟩
      · exact ⟨rfl, rfl, rfl, rfl, rfl⟩
    exact ⟨i1.trans hu.1, i2.trans hu.2.1, i3.trans hu.2.2.1, i4.trans hu.2.2.2.1,
      i5.trans hu.2.2.2.2⟩

theorem pushAll_fresh (q0 : streamFrameQueue) (fs : List StreamFrame)
    (h1 : q0.prioFrames = []) (h2 : q0.frameMap.entries = []) (h3 : q0.activeStreams = [])
    (h4 : q0.activeStreamsPosition = 0) (h5 : q0.len = 0)
    (hn : (fs.map StreamFrame.StreamID).Nodup) :
    (pushAll q0 fs).prioFrames = [] ∧
      (pushAll q0 fs).frameMap.entries = fs.map (fun g => (g.StreamID, [withDataLen g])) ∧
      (pushAll q0 fs).activeStreams = fs.map StreamFrame.StreamID ∧
      (pushAll q0 fs).activeStreamsPosition = 0 ∧
      (pushAll q0 fs).len = (fs.length : Int) ∧
      (pushAll q0 fs).flowControlWindows = q0.flowControlWindows := by
  induction fs using List.reverseRecOn with
  | nil => exact ⟨h1, h2, h3, h4, h5, rfl⟩
  | append_singleton t f ih =>
    rw [List.map_append, List.nodup_append] at hn
    obtain ⟨hn1, _, hn3⟩ := hn
    obtain ⟨i1, i2, i3, i4, i5, i6⟩ := ih hn1
    have hnot : f.StreamID ∉ (pushAll q0 t).frameMap.entries.map Prod.fst := by
      rw [i2, List.map_map]
      intro hmem
      exact hn3 hmem (by simp)
    have hget : (pushAll q0 t).frameMap.get? f.StreamID = none :=
      lookupKey_none_of_not_mem _ _ hnot
    have hstep : pushAll q0 (t ++ [f]) = Push (pushAll q0 t) f false := by
      simp [pushAll, List.foldl_append]
    rw [hstep, Push_fresh _ f hget]
    refine ⟨i1, ?_, ?_, i4, ?_, i6⟩
    · simp only [GoMap.set]
      rw [setKey_of_not_mem _ _ _ hnot, i2]
      simp only [List.map_append, List.map_cons, List.map_nil, withDataLen]
    · simp only [i3, List.map_append, List.map_cons, List.map_nil]
    · simp only [i5, List.length_append, List.length_singleton]
      push_cast
      rfl

/-- The rotation: the streams from the cursor on hold one frame each, with
room in their windows and in `maxLength`; as many calls of `Pop` as there are
such streams hand back their frames in the order of the active streams. -/
theorem popMany_rotation (env : FrameEnv) (maxLength : Nat) (h64 : maxLength < U64)
    (rest : List StreamFrame) :
    ∀ (done : List Nat) (q : streamFrameQueue),
      (rest.map StreamFrame.StreamID).Nodup → (∀ g ∈ rest, g.StreamID ≠ 0) →
      q.prioFrames = [] → q.activeStreams = done ++ rest.map StreamFrame.StreamID →
      q.activeStreamsPosition = (done.length : Int) → q.len = (rest.length : Int) →
      (∀ g ∈ rest, q.frameMap.get? g.StreamID = some [withDataLen g]) →
      (∀ g ∈ rest, ∃ w, q.flowControlWindows.get? g.StreamID = some w ∧
        g.Offset + g.Data.length < w) →
      (∀ g ∈ rest, 1 ≤ env.MinLength (withDataLen g) ∧
        env.MinLength (withDataLen g) ≤ maxLength ∧
        env.MinLength (withDataLen g) + g.Data.length ≤ maxLength + 1) →
      popMany env maxLength rest.length q =
        rest.map (fun g => PopResult.frame (withDataLen g)) := by
  induction rest with
  | nil =>
    intro done q _ _ _ _ _ _ _ _ _
    rfl
  | cons f r ih =>
    intro done q hn hz hprio hact hpos hlen hmap hwin henv
    simp only [List.map_cons, List.nodup_cons] at hn
    obtain ⟨w, hw, hw2⟩ := hwin f (List.mem_cons_self f r)
    obtain ⟨e1, e2, e3⟩ := henv f (List.mem_cons_self f r)
    have hidx : q.activeStreams[q.activeStreamsPosition.toNat]? = some f.StreamID := by
      rw [hact, hpos, Int.toNat_ofNat, List.getElem?_append_right (le_refl _)]
      simp
    have hP := Pop_hit env q maxLength f.StreamID (withDataLen f) [] w
      (by rw [hprio]; intro e he; cases he)
      (by rw [hlen]; simp only [List.length_cons]; push_cast; omega)
      (by rw [hpos]; omega) hidx (hz f (List.mem_cons_self f r))
      (hmap f (List.mem_cons_self f r)) hw
      (by simp only [withDataLen]; omega) (by simp only [withDataLen]; omega) e1 e2
      (by simp only [withDataLen]; exact e3) h64
    rw [List.length_cons, popMany, hP, List.map_cons]
    congr 1
    cases r with
    | nil => rfl
    | cons g r2 =>
      apply ih (done ++ [f.StreamID])
      · exact hn.2
      · exact fun x hx => hz x (List.mem_cons_of_mem _ hx)
      · rfl
      · simp only [hact, List.map_cons, List.append_assoc, List.singleton_append]
      · simp only [hact, hpos, List.length_append, List.length_cons, List.map_cons,
          List.length_map, List.length_singleton, List.length_nil]
        rw [Int.tmod_eq_of_lt (by omega) (by push_cast; omega)]
        push_cast
        rfl
      · simp only [hlen, List.length_cons]
        push_cast
        omega
      · intro x hx
        have hne : x.StreamID ≠ f.StreamID := by
          intro e
          apply hn.1
          rw [← e]
          exact List.mem_map_of_mem _ hx
        simp only
        rw [GoMap.get?_set_ne _ _ _ _ hne]
        exact hmap x (List.mem_cons_of_mem _ hx)
      · exact fun x hx => hwin x (List.mem_cons_of_mem _ hx)
      · exact fun x hx => henv x (List.mem_cons_of_mem _ hx)

/-- C5: one frame per stream is pushed, none as a priority frame, for pairwise
distinct streams other than stream 0, onto a fresh queue (ceilings may be set
before and after); every stream's ceiling lies above the end of its frame and
`maxLength` holds each frame whole. As many calls of `Pop` as there are
streams hand back the frames as pushed, in the order in which they were
pushed, one for each stream. -/
theorem Pop_rotates_over_streams (env : FrameEnv) (fs : List StreamFrame)
    (ws0 ws : List (Nat × Nat)) (maxLength : Nat)
    (hn : (fs.map StreamFrame.StreamID).Nodup) (hz : ∀ f ∈ fs, f.StreamID ≠ 0)
    (hwin : ∀ f ∈ fs, ∃ w,
      (updateWindows (pushAll (updateWindows newStreamFrameQueue ws0) fs)
        ws).flowControlWindows.get? f.StreamID = some w ∧ f.Offset + f.Data.length < w)
    (henv : ∀ f ∈ fs, 1 ≤ env.MinLength (withDataLen f) ∧
      env.MinLength (withDataLen f) ≤ maxLength ∧
      env.MinLength (withDataLen f) + f.Data.length ≤ maxLength + 1)
    (h64 : maxLength < U64) :
    popMany env maxLength fs.length
        (updateWindows (pushAll (updateWindows newStreamFrameQueue ws0) fs) ws) =
      fs.map (fun f => PopResult.frame (withDataLen f)) := by
  obtain ⟨u1, u2, u3, u4, u5⟩ := updateWindows_fields newStreamFrameQueue ws0
  obtain ⟨p1, p2, p3, p4, p5, _⟩ := pushAll_fresh (updateWindows newStreamFrameQueue ws0) fs
    u1 (by rw [u2]; rfl) u3 u4 u5 hn
  obtain ⟨v1, v2, v3, v4, v5⟩ :=
    updateWindows_fields (pushAll (updateWindows newStreamFrameQueue ws0) fs) ws
  apply popMany_rotation env maxLength h64 fs [] _ hn hz
  · rw [v1, p1]
  · rw [v3, p3]
    rfl
  · rw [v4, p4]
    rfl
  · rw [v5, p5]
  · intro g hg
    rw [v2]
    show lookupKey g.StreamID _ = _
    rw [p2]
    exact lookupKey_map_of_mem fs g hn hg
  · exact hwin
  · exact henv

/-- C5, at a concrete input: frames for the streams 5, 7 and 9, each under
ceiling 100. -/
theorem Pop_rotates_over_streams_witness :
    popMany sampleEnv 1000 3
        (updateWindows (pushAll (updateWindows newStreamFrameQueue [(5, 100)])
          [sampleFrame 5 0 16, sampleFrame 7 0 3, sampleFrame 9 4 2]) [(7, 100), (9, 100)]) =
      [PopResult.frame (withDataLen (sampleFrame 5 0 16)),
        PopResult.frame (withDataLen (sampleFrame 7 0 3)),
        PopResult.frame (withDataLen (sampleFrame 9 4 2))] :=
  Pop_rotates_over_streams sampleEnv [sampleFrame 5 0 16, sampleFrame 7 0 3, sampleFrame 9 4 2]
    [(5, 100)] [(7, 100), (9, 100)] 1000 (by decide) (by decide)
    (by
      intro f hf
      simp only [List.mem_cons, List.mem_singleton, List.not_mem_nil, or_false] at hf
      rcases hf with h | h | h <;> subst h <;> exact ⟨100, by decide, by decide⟩)
    (by decide) (by decide)

/-! ## Errors and the sent-bytes counter -/

/-- C11 fails on the code: stream 5 is at the cursor and has no entry in
`frameMap`, with one frame counted in `len`. `getNextStream` returns
`(0, errMapAccess)`, but `Pop` tests `streamID == 0` before it looks at the
error and hands back `(nil, nil)`; no call of `Pop` hands back `errMapAccess`. -/
theorem Pop_drops_map_access_error :
    (∀ e ∈ staleActiveQueue.prioFrames, e = none) ∧
      staleActiveQueue.activeStreams[staleActiveQueue.activeStreamsPosition.toNat]? = some 5 ∧
      staleActiveQueue.frameMap.get? 5 = none ∧
      (getNextStream staleActiveQueue).2 =
        NextStream.ret 0 (some QueueError.errMapAccess) ∧
      (Pop sampleEnv staleActiveQueue 1000).2 = PopResult.nothing ∧
      ∀ (env : FrameEnv) (q : streamFrameQueue) (maxLength : Nat),
        (Pop env q maxLength).2 ≠ PopResult.error QueueError.errMapAccess :=
  ⟨by decide, by decide, by decide, by decide, by decide,
    fun env q maxLength => Pop_ne_error env q maxLength _⟩

theorem writeHead_counters (q : streamFrameQueue) (isPrio : Bool) (sid : Nat) (g : StreamFrame) :
    (writeHead q isPrio sid g).bytesSent = q.bytesSent ∧ (writeHead q isPrio sid g).len = q.len := by
  unfold writeHead
  cases isPrio with
  | true => exact ⟨rfl, rfl⟩
  | false =>
    simp only [Bool.false_eq_true, if_false]
    cases q.frameMap.get? sid <;> exact ⟨rfl, rfl⟩

theorem dequeueHead_counters (q q1 : streamFrameQueue) (isPrio : Bool) (sid : Nat)
    (h : dequeueHead q isPrio sid = some q1) :
    q1.bytesSent = q.bytesSent ∧ q1.len = q.len := by
  unfold dequeueHead at h
  cases isPrio with
  | true =>
    simp only [if_true] at h
    cases hp : q.prioFrames with
    | nil => rw [hp] at h; simp at h
    | cons a t =>
      rw [hp] at h
      simp only [if_true, Option.some.injEq] at h
      subst h
      exact ⟨rfl, rfl⟩
  | false =>
    simp only [Bool.false_eq_true, if_false] at h
    cases hq : q.frameMap.get? sid with
    | none => rw [hq] at h; simp at h
    | some fq =>
      rw [hq] at h
      cases fq with
      | nil => simp at h
      | cons a t =>
        simp only [Bool.false_eq_true, if_false, Option.some.injEq] at h
        subst h
        exact ⟨rfl, rfl⟩

/-- What the tail of `Pop` does to the counters: a result other than a frame
leaves `bytesSent` as it was; a split-off frame leaves `bytesSent` and `len` as
they were; a whole frame lowers `len` by one and adds its length to
`bytesSent` unless its stream is 1 or 3. -/
theorem popFinish_counters (env : FrameEnv) (q : streamFrameQueue) (isPrio : Bool)
    (fr : Option StreamFrame) (sid m maxLength : Nat) :
    ((∀ r, (popFinish env q isPrio fr sid m maxLength).2 ≠ PopResult.frame r) →
        (popFinish env q isPrio fr sid m maxLength).1.bytesSent = q.bytesSent) ∧
      ∀ r, (popFinish env q isPrio fr sid m maxLength).2 = PopResult.frame r →
        (fr = some r ∧ (popFinish env q isPrio fr sid m maxLength).1.len = q.len - 1 ∧
          (popFinish env q isPrio fr sid m maxLength).1.bytesSent =
            if r.StreamID ≠ 1 ∧ r.StreamID ≠ 3 then wrapAdd q.bytesSent r.Data.length
            else q.bytesSent) ∨
        ((∃ f, fr = some f ∧ r.Data.length < f.Data.length) ∧
          (popFinish env q isPrio fr sid m maxLength).1.len = q.len ∧
          (popFinish env q isPrio fr sid m maxLength).1.bytesSent = q.bytesSent) := by
  by_cases hm : m = 0
  · subst hm
    rw [popFinish_zero]
    exact ⟨fun _ => rfl, fun r h => by cases h⟩
  cases fr with
  | none =>
    have : popFinish env q isPrio none sid m maxLength = (q, PopResult.panicked) := by
      simp [popFinish, hm]
    rw [this]
    exact ⟨fun _ => rfl, fun r h => by cases h⟩
  | some f =>
    by_cases hlen : maxLength < env.MinLength f
    · rw [popFinish_short env q isPrio f sid m maxLength hlen]
      exact ⟨fun _ => rfl, fun r h => by cases h⟩
    by_cases hb : popBudget env f m maxLength < f.Data.length
    · rw [popFinish_split env q isPrio f sid m maxLength hm (by omega) hb]
      obtain ⟨w1, w2⟩ := writeHead_counters q isPrio sid
        { f with Data := f.Data.drop (popBudget env f m maxLength),
                 Offset := wrapAdd f.Offset (popBudget env f m maxLength) }
      refine ⟨fun _ => w1, fun r h => Or.inr ⟨⟨f, rfl, ?_⟩, w2, w1⟩⟩
      simp only [PopResult.frame.injEq] at h
      subst h
      simp only [List.length_take]
      omega
    · rw [popFinish_whole env q isPrio f sid m maxLength hm (by omega) (by omega)]
      cases hd : dequeueHead q isPrio sid with
      | none => exact ⟨fun _ => rfl, fun r h => by cases h⟩
      | some q1 =>
        obtain ⟨d1, d2⟩ := dequeueHead_counters q q1 isPrio sid hd
        refine ⟨fun hne => absurd rfl (hne f), fun r h => Or.inl ?_⟩
        simp only [PopResult.frame.injEq] at h
        subst h
        exact ⟨rfl, by simp only [d2], by simp only [d1, StreamFrame.DataLen]⟩

/-- Every call of `Pop` is a call of the tail of `Pop` on a queue with the same
counters, or hands back `(nil, nil)` or a panic from such a queue. -/
theorem Pop_shape (env : FrameEnv) (q : streamFrameQueue) (maxLength : Nat) :
    ∃ q1 : streamFrameQueue, q1.bytesSent = q.bytesSent ∧ q1.len = q.len ∧
      (Pop env q maxLength = (q1, PopResult.nothing) ∨
        Pop env q maxLength = (q1, PopResult.panicked) ∨
        ∃ isPrio fr sid m, Pop env q maxLength = popFinish env q1 isPrio fr sid m maxLength) := by
  unfold Pop
  dsimp only
  have key : ∀ l : List (Option StreamFrame),
      ∃ q1 : streamFrameQueue, q1.bytesSent = q.bytesSent ∧ q1.len = q.len ∧
        ((match popScan q.activeStreams.length { q with prioFrames := l } none 0 0 with
          | (q1, Scan.returned r) => (q1, r)
          | (q1, Scan.left frame streamID maxFrameDataSize) =>
            popFinish env q1 false frame streamID maxFrameDataSize maxLength) =
            (q1, PopResult.nothing) ∨
          (match popScan q.activeStreams.length { q with prioFrames := l } none 0 0 with
          | (q1, Scan.returned r) => (q1, r)
          | (q1, Scan.left frame streamID maxFrameDataSize) =>
            popFinish env q1 false frame streamID maxFrameDataSize maxLength) =
            (q1, PopResult.panicked) ∨
          ∃ isPrio fr sid m,
            (match popScan q.activeStreams.length { q with prioFrames := l } none 0 0 with
            | (q1, Scan.returned r) => (q1, r)
            | (q1, Scan.left frame streamID maxFrameDataSize) =>
              popFinish env q1 false frame streamID maxFrameDataSize maxLength) =
              popFinish env q1 isPrio fr sid m maxLength) := by
    intro l
    obtain ⟨h1, h2, _⟩ := popScan_spec q.activeStreams.length { q with prioFrames := l } none 0 0
    rcases hp : popScan q.activeStreams.length { q with prioFrames := l } none 0 0 with ⟨q1, sc⟩
    rw [hp] at h1 h2
    dsimp only at h1 h2
    refine ⟨q1, by rw [h1], by rw [h1], ?_⟩
    cases sc with
    | returned r =>
      rcases h2 r rfl with h | h
      · exact Or.inl (by rw [h])
      · exact Or.inr (Or.inl (by rw [h]))
    | left fr sid m => exact Or.inr (Or.inr ⟨false, fr, sid, m, rfl⟩)
  cases hd : dropNilPrio q.prioFrames with
  | nil => exact key []
  | cons a t =>
    cases a with
    | none => exact key (none :: t)
    | some f =>
      exact ⟨{ q with prioFrames := some f :: t }, rfl, rfl,
        Or.inr (Or.inr ⟨true, some f, 0, env.MaxPacketSize, rfl⟩)⟩

/-- C12 fails on the code for a split-off frame: under ceiling 10 a 16-byte
frame of stream 5 is split, `Pop` hands back 10 bytes and `bytesSent` stays 0,
because the split path returns before the counter is updated; under ceiling
100 the same frame is handed back whole and `bytesSent` becomes 16. In
general a result other than a frame leaves `bytesSent` as it was, a frame
handed back whole (`len` lowered by one) adds its length, as a `uint64`,
unless its stream is 1 or 3, and a split-off frame (`len` as before) adds
nothing. -/
theorem Pop_split_skips_bytesSent :
    ((Pop sampleEnv (UpdateWindow (Push newStreamFrameQueue (sampleFrame 5 0 16) false) 5 10)
        1000).2 = PopResult.frame ⟨false, 5, 0, List.replicate 10 7, true⟩ ∧
      (UpdateWindow (Push newStreamFrameQueue (sampleFrame 5 0 16) false) 5 10).bytesSent = 0 ∧
      (Pop sampleEnv (UpdateWindow (Push newStreamFrameQueue (sampleFrame 5 0 16) false) 5 10)
        1000).1.bytesSent = 0) ∧
      ((Pop sampleEnv (UpdateWindow (Push newStreamFrameQueue (sampleFrame 5 0 16) false) 5 100)
        1000).2 = PopResult.frame ⟨false, 5, 0, List.replicate 16 7, true⟩ ∧
      (Pop sampleEnv (UpdateWindow (Push newStreamFrameQueue (sampleFrame 5 0 16) false) 5 100)
        1000).1.bytesSent = 16) ∧
      ∀ (env : FrameEnv) (q : streamFrameQueue) (maxLength : Nat),
        ((∀ r, (Pop env q maxLength).2 ≠ PopResult.frame r) →
          (Pop env q maxLength).1.bytesSent = q.bytesSent) ∧
        ∀ r, (Pop env q maxLength).2 = PopResult.frame r →
          ((Pop env q maxLength).1.len = q.len - 1 ∧
            (Pop env q maxLength).1.bytesSent =
              if r.StreamID ≠ 1 ∧ r.StreamID ≠ 3 then wrapAdd q.bytesSent r.Data.length
              else q.bytesSent) ∨
          ((Pop env q maxLength).1.len = q.len ∧
            (Pop env q maxLength).1.bytesSent = q.bytesSent) := by
  refine ⟨⟨by decide, by decide, by decide⟩, ⟨by decide, by decide⟩, ?_⟩
  intro env q maxLength
  obtain ⟨q1, hb, hl, h | h | ⟨isPrio, fr, sid, m, h⟩⟩ := Pop_shape env q maxLength
  · rw [h]
    exact ⟨fun _ => hb, fun r hr => by cases hr⟩
  · rw [h]
    exact ⟨fun _ => hb, fun r hr => by cases hr⟩
  · rw [h]
    obtain ⟨c1, c2⟩ := popFinish_counters env q1 isPrio fr sid m maxLength
    refine ⟨fun hne => (c1 hne).trans hb, fun r hr => ?_⟩
    rcases c2 r hr with ⟨_, d1, d2⟩ | ⟨_, d1, d2⟩
    · exact Or.inl ⟨by rw [d1, hl], by rw [d2, hb]⟩
    · exact Or.inr ⟨by rw [d1, hl], by rw [d2, hb]⟩

/-! ## `UpdateWindow` -/

theorem UpdateWindow_fresh (q : streamFrameQueue) (s offset : Nat)
    (h : q.flowControlWindows.get? s = none) :
    UpdateWindow q s offset =
      { q with flowControlWindows := q.flowControlWindows.set s offset } := by
  simp only [UpdateWindow, h]

theorem UpdateWindow_raise (q : streamFrameQueue) (s offset w : Nat)
    (h : q.flowControlWindows.get? s = some w) (hgt : offset > w) :
    UpdateWindow q s offset =
      { q with flowControlWindows := q.flowControlWindows.set s offset } := by
  simp only [UpdateWindow, h, hgt, if_true]

theorem UpdateWindow_keep (q : streamFrameQueue) (s offset w : Nat)
    (h : q.flowControlWindows.get? s = some w) (hle : offset ≤ w) :
    UpdateWindow q s offset = q := by
  have hgt : ¬ offset > w := by omega
  simp only [UpdateWindow, h, hgt, if_false]

/-- C14: after `UpdateWindow(s, offset)` the ceiling of `s` is the greater of the
previous ceiling and `offset` when there was an entry, and `offset` when there
was none; a call with `offset` at most the current ceiling changes nothing, the
ceiling of `s` does not decrease, the ceilings of all other stream IDs are as
before, and so are the queues, the active streams, the cursor and the totals. -/
theorem UpdateWindow_monotonic_max (q : streamFrameQueue) (s offset : Nat) :
    (UpdateWindow q s offset).flowControlWindows.get? s =
        (match q.flowControlWindows.get? s with
         | some w => some (max w offset)
         | none => some offset) ∧
      (∀ w, q.flowControlWindows.get? s = some w → offset ≤ w → UpdateWindow q s offset = q) ∧
      (∀ w, q.flowControlWindows.get? s = some w →
        ∃ w1, (UpdateWindow q s offset).flowControlWindows.get? s = some w1 ∧ w ≤ w1) ∧
      (∀ t, t ≠ s →
        (UpdateWindow q s offset).flowControlWindows.get? t = q.flowControlWindows.get? t) ∧
      (UpdateWindow q s offset).prioFrames = q.prioFrames ∧
      (UpdateWindow q s offset).frameMap = q.frameMap ∧
      (UpdateWindow q s offset).activeStreams = q.activeStreams ∧
      (UpdateWindow q s offset).activeStreamsPosition = q.activeStreamsPosition ∧
      (UpdateWindow q s offset).bytesSent = q.bytesSent ∧
      (UpdateWindow q s offset).len = q.len ∧
      (UpdateWindow q s offset).byteLen = q.byteLen := by
  have hc : (∃ w, q.flowControlWindows.get? s = some w ∧ offset ≤ w ∧
        UpdateWindow q s offset = q) ∨
      (UpdateWindow q s offset = { q with flowControlWindows := q.flowControlWindows.set s offset } ∧
        (q.flowControlWindows.get? s = none ∨
          ∃ w, q.flowControlWindows.get? s = some w ∧ w < offset)) := by
    cases hw : q.flowControlWindows.get? s with
    | none => exact Or.inr ⟨UpdateWindow_fresh q s offset hw, Or.inl rfl⟩
    | some w =>
      by_cases hgt : offset > w
      · exact Or.inr ⟨UpdateWindow_raise q s offset w hw hgt, Or.inr ⟨w, rfl, hgt⟩⟩
      · exact Or.inl ⟨w, rfl, by omega, UpdateWindow_keep q s offset w hw (by omega)⟩
  rcases hc with ⟨w, hw, hle, hq⟩ | ⟨hq, hw⟩
  · rw [hq]
    refine ⟨?_, ?_, ?_, ?_, rfl, rfl, rfl, rfl, rfl, rfl, rfl⟩
    · rw [hw]
      simp only [max_eq_left hle]
    · intro _ _ _
      rfl
    · intro w1 h1
      exact ⟨w1, h1, le_refl _⟩
    · intro t _
      rfl
  · rw [hq]
    refine ⟨?_, ?_, ?_, ?_, rfl, rfl, rfl, rfl, rfl, rfl, rfl⟩
    · rw [GoMap.get?_set_self]
      rcases hw with hw | ⟨w, hw, hlt⟩
      · rw [hw]
      · rw [hw]
        simp only [max_eq_right (le_of_lt hlt)]
    · intro w1 h1 h2
      rcases hw with hw | ⟨w, hw, hlt⟩
      · rw [hw] at h1
        cases h1
      · rw [hw] at h1
        simp only [Option.some.injEq] at h1
        omega
    · intro w1 h1
      refine ⟨offset, GoMap.get?_set_self _ _ _, ?_⟩
      rcases hw with hw | ⟨w, hw, hlt⟩
      · rw [hw] at h1
        cases h1
      · rw [hw] at h1
        simp only [Option.some.injEq] at h1
        omega
    · intro t ht
      exact GoMap.get?_set_ne _ _ _ _ ht

/-- C14, at a concrete input: ceiling 10 for stream 5 is raised by 12 and kept
by 7, and a first call for stream 0 sets the connection ceiling. -/
theorem UpdateWindow_monotonic_max_witness :
    (UpdateWindow (UpdateWindow newStreamFrameQueue 5 10) 5 12).flowControlWindows.get? 5 =
        some 12 ∧
      UpdateWindow (UpdateWindow newStreamFrameQueue 5 10) 5 7 =
        UpdateWindow newStreamFrameQueue 5 10 ∧
      (UpdateWindow (UpdateWindow newStreamFrameQueue 5 10) 0 3).flowControlWindows.get? 0 =
        some 3 :=
  ⟨(UpdateWindow_monotonic_max (UpdateWindow newStreamFrameQueue 5 10) 5 12).1,
    (UpdateWindow_monotonic_max (UpdateWindow newStreamFrameQueue 5 10) 5 7).2.1 10
      (by decide) (by decide),
    (UpdateWindow_monotonic_max (UpdateWindow newStreamFrameQueue 5 10) 0 3).1⟩

/-! ## The payload budget -/

theorem MinByteCount_le_left (a b : Nat) : MinByteCount a b ≤ a := by
  unfold MinByteCount
  split <;> omega

theorem popBudget_le_room (env : FrameEnv) (f : StreamFrame) (m maxLength : Nat)
    (hfit : env.MinLength f ≤ maxLength) :
    popBudget env f m maxLength ≤ maxLength + 1 - env.MinLength f := by
  have h1 := MinByteCount_le_left (wrapSub maxLength (wrapSub (env.MinLength f) 1)) m
  unfold popBudget
  unfold wrapSub U64 at h1 ⊢
  omega

theorem popFinish_frame_budget (env : FrameEnv) (q : streamFrameQueue) (isPrio : Bool)
    (f r : StreamFrame) (sid m maxLength : Nat)
    (h : (popFinish env q isPrio (some f) sid m maxLength).2 = PopResult.frame r) :
    env.MinLength f ≤ maxLength ∧ r.Data.length ≤ popBudget env f m maxLength := by
  by_cases hm : m = 0
  · subst hm
    rw [popFinish_zero] at h
    cases h
  by_cases hlen : maxLength < env.MinLength f
  · rw [popFinish_short env q isPrio f sid m maxLength hlen] at h
    cases h
  refine ⟨by omega, ?_⟩
  by_cases hb : popBudget env f m maxLength < f.Data.length
  · rw [popFinish_split env q isPrio f sid m maxLength hm (by omega) hb] at h
    simp only [PopResult.frame.injEq] at h
    subst h
    simp only [List.length_take]
    omega
  · rw [popFinish_whole env q isPrio f sid m maxLength hm (by omega) (by omega)] at h
    cases hd : dequeueHead q isPrio sid with
    | none =>
      rw [hd] at h
      cases h
    | some q1 =>
      rw [hd] at h
      simp only [PopResult.frame.injEq] at h
      subst h
      omega

theorem dropNilPrio_eq_cons (l : List (Option StreamFrame)) (f : StreamFrame)
    (t : List (Option StreamFrame)) (h : dropNilPrio l = some f :: t) :
    ∃ k, l = List.replicate k none ++ some f :: t := by
  induction l with
  | nil => cases h
  | cons a l ih =>
    cases a with
    | none =>
      rw [dropNilPrio] at h
      obtain ⟨k, hk⟩ := ih h
      exact ⟨k + 1, by rw [hk, List.replicate_succ, List.cons_append]⟩
    | some g =>
      have hg : dropNilPrio (some g :: l) = some g :: l := rfl
      rw [hg] at h
      exact ⟨0, by rw [h]; rfl⟩

theorem dropNilPrio_no_nil_head (l t : List (Option StreamFrame)) :
    dropNilPrio l ≠ none :: t := by
  induction l with
  | nil => intro h; cases h
  | cons a l ih =>
    cases a with
    | none =>
      rw [dropNilPrio]
      exact ih
    | some g =>
      intro h
      cases h

theorem dropNilPrio_eq_nil (l : List (Option StreamFrame)) (h : dropNilPrio l = []) :
    ∀ e ∈ l, e = none := by
  induction l with
  | nil => intro e he; cases he
  | cons a l ih =>
    cases a with
    | none =>
      rw [dropNilPrio] at h
      intro e he
      rcases List.mem_cons.mp he with h1 | h1
      · exact h1
      · exact ih h e h1
    | some g => cases h

/-- A frame handed back by `Pop` is cut by the tail of `Pop` from the first
live priority frame, under the cap `frameSizeInf`, or, when no priority frame
is live, from a selected frame under the window of its stream. -/
theorem Pop_frame_source (env : FrameEnv) (q : streamFrameQueue) (maxLength : Nat)
    (r : StreamFrame) (h : (Pop env q maxLength).2 = PopResult.frame r) :
    ∃ f m q1 isPrio sid,
      ((∃ k t, q.prioFrames = List.replicate k none ++ some f :: t ∧ m = env.MaxPacketSize) ∨
        ((∀ e ∈ q.prioFrames, e = none) ∧ Selected q f sid m)) ∧
      Pop env q maxLength = popFinish env q1 isPrio (some f) sid m maxLength := by
  cases hd : dropNilPrio q.prioFrames with
  | nil =>
    have hprio := dropNilPrio_eq_nil _ hd
    obtain ⟨f, sid, m, p, hsel, hpop⟩ := Pop_no_prio_selected env q maxLength r hprio h
    exact ⟨f, m, _, false, sid, Or.inr ⟨hprio, hsel⟩, hpop⟩
  | cons a t =>
    cases a with
    | none => exact absurd hd (dropNilPrio_no_nil_head _ _)
    | some f =>
      obtain ⟨k, hk⟩ := dropNilPrio_eq_cons _ f t hd
      exact ⟨f, env.MaxPacketSize, _, true, 0, Or.inl ⟨k, t, hk, rfl⟩,
        Pop_prio env q maxLength k f t hk⟩

/-- C13, as stated, fails: the frame of stream 5 has 16 bytes and
`MinLength()` 16, its window is 100 and `maxLength` is 20. `Pop` hands back
5 bytes, one more than `maxLength - h = 4`. -/
theorem Pop_payload_exceeds_maxLength_less_header :
    (∀ e ∈ (UpdateWindow (Push newStreamFrameQueue (sampleFrame 5 0 16) false) 5 100).prioFrames,
        e = none) ∧
      sampleEnv.MinLength ⟨false, 5, 0, List.replicate 16 7, true⟩ = 16 ∧
      (Pop sampleEnv (UpdateWindow (Push newStreamFrameQueue (sampleFrame 5 0 16) false) 5 100)
        20).2 = PopResult.frame ⟨false, 5, 0, List.replicate 5 7, true⟩ ∧
      ¬ (StreamFrame.mk false 5 0 (List.replicate 5 7) true).Data.length ≤
        20 - sampleEnv.MinLength ⟨false, 5, 0, List.replicate 16 7, true⟩ :=
  ⟨by decide, by decide, by decide, by decide⟩

/-! ## The cursor -/

/-- C20 fails on the code: frames are pushed for the streams 5 and 7, one `Pop`
serves stream 5 and leaves the cursor at 1, on stream 7, and `RemoveStream(7)`
shortens the list to `[5]` without moving the cursor, since the deleted index
is not below it. The cursor 1 is then no index of the list, and after one more
`Push` for stream 5 the next `Pop` indexes `activeStreams[1]` out of range. -/
theorem cursor_out_of_range_after_RemoveStream :
    (run sampleEnv [Op.push (sampleFrame 5 0 16) false, Op.push (sampleFrame 7 0 3) false,
        Op.updateWindow 5 100, Op.pop 1000]).activeStreams = [5, 7] ∧
      (run sampleEnv [Op.push (sampleFrame 5 0 16) false, Op.push (sampleFrame 7 0 3) false,
        Op.updateWindow 5 100, Op.pop 1000]).activeStreamsPosition = 1 ∧
      (run sampleEnv [Op.push (sampleFrame 5 0 16) false, Op.push (sampleFrame 7 0 3) false,
        Op.updateWindow 5 100, Op.pop 1000, Op.removeStream 7]).activeStreams = [5] ∧
      (run sampleEnv [Op.push (sampleFrame 5 0 16) false, Op.push (sampleFrame 7 0 3) false,
        Op.updateWindow 5 100, Op.pop 1000, Op.removeStream 7]).activeStreamsPosition = 1 ∧
      ¬ ((run sampleEnv [Op.push (sampleFrame 5 0 16) false, Op.push (sampleFrame 7 0 3) false,
          Op.updateWindow 5 100, Op.pop 1000, Op.removeStream 7]).activeStreamsPosition <
        ((run sampleEnv [Op.push (sampleFrame 5 0 16) false, Op.push (sampleFrame 7 0 3) false,
          Op.updateWindow 5 100, Op.pop 1000, Op.removeStream 7]).activeStreams.length : Int)) ∧
      (Pop sampleEnv (run sampleEnv [Op.push (sampleFrame 5 0 16) false,
        Op.push (sampleFrame 7 0 3) false, Op.updateWindow 5 100, Op.pop 1000,
        Op.removeStream 7, Op.push (sampleFrame 5 16 4) false]) 1000).2 = PopResult.panicked := by
  refine ⟨?_, ?_, ?_, ?_, ?_, ?_⟩ <;> decide

/-! ## Entropy accumulator -/

theorem EntropyAccumulator.Add_lt (e n : Nat) (b : Bool) (he : e < 256) :
    EntropyAccumulator.Add e n b < 256 := by
  unfold EntropyAccumulator.Add
  split
  · have h8 : n % 8 < 8 := Nat.mod_lt _ (by decide)
    have h1 : 1 <<< (n % 8) < 2 ^ 8 := by
      rw [Nat.one_shiftLeft]
      exact Nat.pow_lt_pow_right (by decide) h8
    exact Nat.xor_lt_two_pow (n := 8) he h1
  · exact he

/-- C18: `Add(n, b)` followed by `Subtract(n, b)` restores the accumulator, and
so do two calls `Add(n, b)`; with the flag unset `Add` changes nothing, and
with the flag set it flips the bit at position `n mod 8` of the byte returned
by `Get()` and no other bit. The accumulator stays a byte. -/
theorem EntropyAccumulator_Add_Subtract (e n : Nat) (b : Bool) :
    EntropyAccumulator.Subtract (EntropyAccumulator.Add e n b) n b = e ∧
      EntropyAccumulator.Add (EntropyAccumulator.Add e n b) n b = e ∧
      EntropyAccumulator.Add e n false = e ∧
      (∀ i, (EntropyAccumulator.Get (EntropyAccumulator.Add e n true)).testBit i =
        if i = n % 8 then !(EntropyAccumulator.Get e).testBit i
        else (EntropyAccumulator.Get e).testBit i) ∧
      (e < 256 → EntropyAccumulator.Add e n b < 256) := by
  have hadd : EntropyAccumulator.Add (EntropyAccumulator.Add e n b) n b = e := by
    unfold EntropyAccumulator.Add
    cases b with
    | false => rfl
    | true =>
      simp only [if_true]
      exact Nat.xor_cancel_right _ _
  refine ⟨hadd, hadd, rfl, ?_, EntropyAccumulator.Add_lt e n b⟩
  intro i
  simp only [EntropyAccumulator.Get, EntropyAccumulator.Add, if_true, Nat.testBit_xor,
    Nat.one_shiftLeft, Nat.testBit_two_pow]
  by_cases hi : i = n % 8
  · have : n % 8 = i := hi.symm
    simp [hi]
  · have : ¬ n % 8 = i := fun h => hi h.symm
    simp [hi, this]

/-- C18, at a concrete input: packet 13 flips bit 5 of the byte 0x81. -/
theorem EntropyAccumulator_Add_Subtract_witness :
    EntropyAccumulator.Add 129 13 true = 161 ∧
      EntropyAccumulator.Subtract (EntropyAccumulator.Add 129 13 true) 13 true = 129 ∧
      EntropyAccumulator.Add 129 13 true < 256 :=
  ⟨by decide, (EntropyAccumulator_Add_Subtract 129 13 true).1,
    (EntropyAccumulator_Add_Subtract 129 13 true).2.2.2.2 (by decide)⟩

/-! ## Sent packets -/

theorem foldl_stream_frames (l : List Frame) (acc : List StreamFrame) :
    l.foldl
        (fun streamFrames frame =>
          match frame with
          | Frame.streamFrame streamFrame => streamFrames ++ [streamFrame]
          | _ => streamFrames)
        acc = acc ++ l.filterMap Frame.asStream := by
  induction l generalizing acc with
  | nil => simp
  | cons x t ih =>
    rw [List.foldl_cons, ih]
    cases x <;> simp [Frame.asStream]

theorem foldl_control_frames (l : List Frame) (acc : List Frame) :
    l.foldl
        (fun controlFrames frame =>
          match frame with
          | Frame.streamFrame _ => controlFrames
          | Frame.ackFrameLegacy _ => controlFrames
          | Frame.stopWaitingFrame _ => controlFrames
          | Frame.other _ => controlFrames ++ [frame])
        acc = acc ++ l.filter Frame.isControl := by
  induction l generalizing acc with
  | nil => simp
  | cons x t ih =>
    rw [List.foldl_cons, ih]
    cases x <;> simp [Frame.isControl, Frame.isStream, Frame.isAck, Frame.isStopWaiting]

theorem map_streamFrame_filterMap (l : List Frame) :
    (l.filterMap Frame.asStream).map Frame.streamFrame = l.filter Frame.isStream := by
  induction l with
  | nil => rfl
  | cons x t ih =>
    cases x <;> simp [Frame.asStream, Frame.isStream, ih]

theorem count_filter_of_false (l : List Frame) (P : Frame → Bool) (x : Frame)
    (h : P x = false) : (l.filter P).count x = 0 := by
  rw [List.count_eq_zero]
  intro hm
  rw [List.mem_filter] at hm
  rw [h] at hm
  exact absurd hm.2 (by decide)

/-- C19: `GetStreamFramesForRetransmission` returns the stream frames of
`p.Frames` in their order, and `GetControlFramesForRetransmission` the frames
that are neither stream frames nor acknowledgment frames nor stop-waiting
frames, in their order. No stream frame is in the control view, and a frame of
`p.Frames` that is neither an acknowledgment nor a stop-waiting frame occurs
in the two views together as often as in `p.Frames`, in one view only. -/
theorem Packet_retransmission_views (p : Packet) :
    p.GetStreamFramesForRetransmission = p.Frames.filterMap Frame.asStream ∧
      p.GetControlFramesForRetransmission = p.Frames.filter Frame.isControl ∧
      (∀ f, Frame.streamFrame f ∉ p.GetControlFramesForRetransmission) ∧
      (∀ x ∈ p.GetControlFramesForRetransmission,
        x ∉ p.GetStreamFramesForRetransmission.map Frame.streamFrame) ∧
      ∀ x, x.isAck = false → x.isStopWaiting = false →
        (p.GetStreamFramesForRetransmission.map Frame.streamFrame).count x +
            p.GetControlFramesForRetransmission.count x = p.Frames.count x ∧
          ((p.GetStreamFramesForRetransmission.map Frame.streamFrame).count x = 0 ∨
            p.GetControlFramesForRetransmission.count x = 0) := by
  have hs : p.GetStreamFramesForRetransmission = p.Frames.filterMap Frame.asStream := by
    unfold Packet.GetStreamFramesForRetransmission
    rw [foldl_stream_frames]
    rfl
  have hc : p.GetControlFramesForRetransmission = p.Frames.filter Frame.isControl := by
    unfold Packet.GetControlFramesForRetransmission
    rw [foldl_control_frames]
    rfl
  have hns : ∀ f, Frame.streamFrame f ∉ p.GetControlFramesForRetransmission := by
    intro f hf
    rw [hc, List.mem_filter] at hf
    have h2 : (Frame.streamFrame f).isControl = false := rfl
    rw [h2] at hf
    exact absurd hf.2 (by decide)
  refine ⟨hs, hc, hns, ?_, ?_⟩
  · intro x hx hx2
    rw [List.mem_map] at hx2
    obtain ⟨f, _, hf⟩ := hx2
    rw [← hf] at hx
    exact hns f hx
  · intro x hack hstop
    rw [hs, hc, map_streamFrame_filterMap]
    by_cases hst : x.isStream = true
    · have hcx : Frame.isControl x = false := by
        simp [Frame.isControl, hst]
      rw [count_filter_of_false _ _ x hcx, List.count_filter hst]
      exact ⟨rfl, Or.inr rfl⟩
    · have hst2 : x.isStream = false := by
        cases h : x.isStream
        · rfl
        · exact absurd h hst
      have hcx : Frame.isControl x = true := by
        simp [Frame.isControl, hst2, hack, hstop]
      rw [count_filter_of_false _ _ x hst2, List.count_filter hcx]
      exact ⟨by omega, Or.inl rfl⟩

/-- C19, at a concrete packet: two stream frames, two control frames, one
acknowledgment frame and one stop-waiting frame. -/
theorem Packet_retransmission_views_witness :
    (Packet.mk 7 [Frame.other 1, Frame.streamFrame (sampleFrame 5 0 2), Frame.ackFrameLegacy 2,
        Frame.stopWaitingFrame 3, Frame.other 4, Frame.streamFrame (sampleFrame 9 0 1)]
        false 0 40 0 false).GetStreamFramesForRetransmission =
        [sampleFrame 5 0 2, sampleFrame 9 0 1] ∧
      (Packet.mk 7 [Frame.other 1, Frame.streamFrame (sampleFrame 5 0 2), Frame.ackFrameLegacy 2,
        Frame.stopWaitingFrame 3, Frame.other 4, Frame.streamFrame (sampleFrame 9 0 1)]
        false 0 40 0 false).GetControlFramesForRetransmission =
        [Frame.other 1, Frame.other 4] :=
  ⟨(Packet_retransmission_views _).1.trans (by decide),
    (Packet_retransmission_views _).2.1.trans (by decide)⟩

/-! ## Received-packet history -/

/-- The model passes the tests of `received_packet_history_test.go`. -/
theorem receivedPacketHistory_tests :
    (received [4]).ranges = [⟨4, 4⟩] ∧
      (received [4, 4]).ranges = [⟨4, 4⟩] ∧
      (received [4, 5, 6]).ranges = [⟨4, 6⟩] ∧
      (received [4, 5, 6, 5]).ranges = [⟨4, 6⟩] ∧
      (received [4, 3]).ranges = [⟨3, 4⟩] ∧
      (received [4, 6]).ranges = [⟨4, 4⟩, ⟨6, 6⟩] ∧
      (received [4, 10, 7]).ranges = [⟨4, 4⟩, ⟨7, 7⟩, ⟨10, 10⟩] ∧
      (received [6, 4]).ranges = [⟨4, 4⟩, ⟨6, 6⟩] ∧
      (received [4, 7, 5]).ranges = [⟨4, 5⟩, ⟨7, 7⟩] ∧
      (received [4, 7, 6]).ranges = [⟨4, 4⟩, ⟨6, 7⟩] ∧
      (received [6, 4, 5]).ranges = [⟨4, 6⟩] ∧
      (received [1, 10, 4, 6]).ranges.length = 4 ∧
      (received [1, 10, 4, 6, 5]).ranges = [⟨1, 1⟩, ⟨4, 6⟩, ⟨10, 10⟩] ∧
      (newReceivedPacketHistory.DeleteBelow 5).ranges = [] ∧
      ((received [4, 5, 10]).DeleteBelow 6).ranges = [⟨10, 10⟩] ∧
      ((received [1, 5, 10]).DeleteBelow 8).ranges = [⟨10, 10⟩] ∧
      ((received [3, 4, 5, 6]).DeleteBelow 4).ranges = [⟨4, 6⟩] ∧
      ((received [4, 5, 10]).DeleteBelow 5).ranges = [⟨5, 5⟩, ⟨10, 10⟩] ∧
      ((received [4]).DeleteBelow 4).ranges = [⟨4, 4⟩] ∧
      newReceivedPacketHistory.GetAckRanges = [] ∧
      (received [4, 5]).GetAckRanges = [⟨4, 5⟩] ∧
      (received [4, 5, 6, 1, 11, 10, 2]).GetAckRanges = [⟨10, 11⟩, ⟨4, 6⟩, ⟨1, 2⟩] := by
  decide

theorem Tracked_nil (x : Nat) : ¬ Tracked [] x := by
  rintro ⟨i, hi, _⟩
  cases hi

theorem Tracked_cons (i : PacketInterval) (t : List PacketInterval) (x : Nat) :
    Tracked (i :: t) x ↔ (i.Start ≤ x ∧ x ≤ i.End) ∨ Tracked t x := by
  unfold Tracked
  simp only [List.mem_cons, exists_eq_or_imp]

theorem Canonical_mono {lo lo2 : Nat} {l : List PacketInterval} (h : Canonical lo l)
    (hlo : lo2 ≤ lo) : Canonical lo2 l := by
  cases l with
  | nil => trivial
  | cons i t => exact ⟨le_trans hlo h.1, h.2.1, h.2.2⟩

theorem Canonical_le {l : List PacketInterval} : ∀ {lo x : Nat}, Canonical lo l → Tracked l x → lo ≤ x := by
  induction l with
  | nil => intro lo x _ h; exact absurd h (Tracked_nil x)
  | cons i t ih =>
    intro lo x h hx
    rcases (Tracked_cons i t x).1 hx with h1 | h1
    · exact le_trans h.1 h1.1
    · have h2 := ih h.2.2 h1
      have h3 := h.1
      have h4 := h.2.1
      omega

theorem insertPacket_Canonical (n : Nat) (l : List PacketInterval) :
    ∀ {lo lo2 : Nat}, Canonical lo l → lo2 ≤ lo → lo2 ≤ n → Canonical lo2 (insertPacket n l) := by
  induction l with
  | nil => intro lo lo2 _ _ hn; exact ⟨hn, le_refl _, trivial⟩
  | cons i t ih =>
    intro lo lo2 h hlo hn
    obtain ⟨h1, h2, h3⟩ := h
    unfold insertPacket
    split
    · exact ⟨le_trans hlo h1, h2, h3⟩
    · split
      · exact ⟨hn, by show n ≤ i.End; omega, h3⟩
      · split
        · cases t with
          | nil => exact ⟨le_trans hlo h1, by show i.Start ≤ n; omega, trivial⟩
          | cons j t2 =>
            obtain ⟨k1, k2, k3⟩ := h3
            dsimp only
            split
            · exact ⟨le_trans hlo h1, by show i.Start ≤ j.End; omega, k3⟩
            · exact ⟨le_trans hlo h1, by show i.Start ≤ n; omega, by show n + 2 ≤ j.Start; omega, k2, k3⟩
        · split
          · exact ⟨hn, le_refl _, by show n + 2 ≤ i.Start; omega, h2, h3⟩
          · exact ⟨le_trans hlo h1, h2, ih h3 (le_refl _) (by omega)⟩

theorem insertPacket_Tracked (n : Nat) (l : List PacketInterval) :
    ∀ {lo : Nat}, Canonical lo l → ∀ x, Tracked (insertPacket n l) x ↔ x = n ∨ Tracked l x := by
  induction l with
  | nil =>
    intro lo _ x
    unfold insertPacket
    simp only [Tracked_cons]
    have := Tracked_nil x
    simp only [this, or_false]
    omega
  | cons i t ih =>
    intro lo h x
    obtain ⟨h1, h2, h3⟩ := h
    unfold insertPacket
    split
    · simp only [Tracked_cons]
      by_cases hT : Tracked t x
      · simp only [hT, or_true, or_false]
      · simp only [hT, or_true, or_false]
        omega
    · split
      · simp only [Tracked_cons]
        by_cases hT : Tracked t x
        · simp only [hT, or_true, or_false]
        · simp only [hT, or_true, or_false]
          omega
      · split
        · cases t with
          | nil =>
            simp only [Tracked_cons]
            have := Tracked_nil x
            simp only [this, or_false]
            omega
          | cons j t2 =>
            obtain ⟨k1, k2, k3⟩ := h3
            dsimp only
            split
            · simp only [Tracked_cons]
              by_cases hT : Tracked t2 x
              · simp only [hT, or_true, or_false]
              · simp only [hT, or_true, or_false]
                omega
            · simp only [Tracked_cons]
              by_cases hT : Tracked t2 x
              · simp only [hT, or_true, or_false]
              · simp only [hT, or_true, or_false]
                omega
        · split
          · simp only [Tracked_cons]
            by_cases hT : Tracked t x
            · simp only [hT, or_true, or_false]
            · simp only [hT, or_true, or_false]
              omega
          · simp only [Tracked_cons, ih h3 x]
            by_cases hT : Tracked t x
            · simp only [hT, or_true, or_false]
            · simp only [hT, or_true, or_false]
              omega

theorem Canonical_unique : ∀ (l1 l2 : List PacketInterval) {lo1 lo2 : Nat},
    Canonical lo1 l1 → Canonical lo2 l2 → (∀ x, Tracked l1 x ↔ Tracked l2 x) → l1 = l2 := by
  intro l1
  induction l1 with
  | nil =>
    intro l2 lo1 lo2 _ h2 h
    cases l2 with
    | nil => rfl
    | cons j t2 =>
      have hj : Tracked (j :: t2) j.Start := (Tracked_cons j t2 _).2 (Or.inl ⟨le_refl _, h2.2.1⟩)
      exact absurd ((h _).2 hj) (Tracked_nil _)
  | cons i t1 ih =>
    intro l2 lo1 lo2 h1 h2 h
    cases l2 with
    | nil =>
      have hi : Tracked (i :: t1) i.Start := (Tracked_cons i t1 _).2 (Or.inl ⟨le_refl _, h1.2.1⟩)
      exact absurd ((h _).1 hi) (Tracked_nil _)
    | cons j t2 =>
      obtain ⟨a1, a2, a3⟩ := h1
      obtain ⟨b1, b2, b3⟩ := h2
      have hA : ∀ x, Tracked t1 x → i.End + 2 ≤ x := fun x hx => Canonical_le a3 hx
      have hB : ∀ x, Tracked t2 x → j.End + 2 ≤ x := fun x hx => Canonical_le b3 hx
      have hS : i.Start = j.Start := by
        have e1 := (h i.Start).1 ((Tracked_cons i t1 _).2 (Or.inl ⟨le_refl _, a2⟩))
        have e2 := (h j.Start).2 ((Tracked_cons j t2 _).2 (Or.inl ⟨le_refl _, b2⟩))
        rcases (Tracked_cons j t2 _).1 e1 with c1 | c1
        · rcases (Tracked_cons i t1 _).1 e2 with c2 | c2
          · omega
          · have := hA _ c2
            omega
        · have := hB _ c1
          rcases (Tracked_cons i t1 _).1 e2 with c2 | c2
          · omega
          · have := hA _ c2
            omega
      have hE : i.End = j.End := by
        rcases Nat.lt_trichotomy i.End j.End with c | c | c
        · have e1 := (h (i.End + 1)).2 ((Tracked_cons j t2 _).2 (Or.inl ⟨by omega, by omega⟩))
          rcases (Tracked_cons i t1 _).1 e1 with c2 | c2
          · omega
          · have := hA _ c2
            omega
        · exact c
        · have e1 := (h (j.End + 1)).1 ((Tracked_cons i t1 _).2 (Or.inl ⟨by omega, by omega⟩))
          rcases (Tracked_cons j t2 _).1 e1 with c2 | c2
          · omega
          · have := hB _ c2
            omega
      have hij : i = j := by
        cases i
        cases j
        simp only at hS hE
        rw [hS, hE]
      have ht : t1 = t2 := by
        refine ih t2 a3 b3 ?_
        intro x
        constructor
        · intro hx
          have := hA x hx
          rcases (Tracked_cons j t2 x).1 ((h x).1 ((Tracked_cons i t1 x).2 (Or.inr hx))) with c | c
          · omega
          · exact c
        · intro hx
          have := hB x hx
          rcases (Tracked_cons i t1 x).1 ((h x).2 ((Tracked_cons j t2 x).2 (Or.inr hx))) with c | c
          · omega
          · exact c
      rw [hij, ht]

theorem Canonical_mem {l : List PacketInterval} : ∀ {lo : Nat}, Canonical lo l →
    ∀ j ∈ l, lo ≤ j.Start ∧ j.Start ≤ j.End := by
  induction l with
  | nil => intro lo _ j hj; cases hj
  | cons i t ih =>
    intro lo h j hj
    rcases List.mem_cons.1 hj with c | c
    · rw [c]
      exact ⟨h.1, h.2.1⟩
    · have := ih h.2.2 j c
      have h1 := h.1
      have h2 := h.2.1
      omega

theorem Canonical_pairwise {l : List PacketInterval} : ∀ {lo : Nat}, Canonical lo l →
    List.Pairwise (fun i j => i.End + 1 < j.Start) l := by
  induction l with
  | nil => intro lo _; exact List.Pairwise.nil
  | cons i t ih =>
    intro lo h
    refine List.Pairwise.cons ?_ (ih h.2.2)
    intro j hj
    have := (Canonical_mem h.2.2 j hj).1
    omega

theorem Canonical_sorted {l : List PacketInterval} : ∀ {lo : Nat}, Canonical lo l →
    List.Pairwise (fun i j => i.Start < j.Start) l := by
  induction l with
  | nil => intro lo _; exact List.Pairwise.nil
  | cons i t ih =>
    intro lo h
    refine List.Pairwise.cons ?_ (ih h.2.2)
    intro j hj
    have := (Canonical_mem h.2.2 j hj).1
    have := h.2.1
    omega

theorem deleteBelow_Canonical (k : Nat) (l : List PacketInterval) :
    ∀ {lo : Nat}, Canonical lo l → Canonical lo (deleteBelow k l) := by
  induction l with
  | nil => intro lo _; trivial
  | cons i t ih =>
    intro lo h
    obtain ⟨h1, h2, h3⟩ := h
    unfold deleteBelow
    split
    · exact Canonical_mono (ih h3) (by omega)
    · split
      · exact ⟨by show lo ≤ k; omega, by show k ≤ i.End; omega, ih h3⟩
      · exact ⟨h1, h2, ih h3⟩

theorem deleteBelow_Tracked (k : Nat) (l : List PacketInterval) (x : Nat) :
    Tracked (deleteBelow k l) x ↔ Tracked l x ∧ k ≤ x := by
  induction l with
  | nil =>
    unfold deleteBelow
    have := Tracked_nil x
    simp only [this, false_and]
  | cons i t ih =>
    unfold deleteBelow
    split
    · simp only [Tracked_cons, ih]
      constructor
      · intro h
        exact ⟨Or.inr h.1, h.2⟩
      · rintro ⟨h | h, h2⟩
        · omega
        · exact ⟨h, h2⟩
    · split
      · simp only [Tracked_cons, ih]
        constructor
        · rintro (h | h)
          · exact ⟨Or.inl ⟨by omega, h.2⟩, h.1⟩
          · exact ⟨Or.inr h.1, h.2⟩
        · rintro ⟨h | h, h2⟩
          · exact Or.inl ⟨h2, h.2⟩
          · exact Or.inr ⟨h, h2⟩
      · simp only [Tracked_cons, ih]
        constructor
        · rintro (h | h)
          · exact ⟨Or.inl h, by omega⟩
          · exact ⟨Or.inr h.1, h.2⟩
        · rintro ⟨h | h, h2⟩
          · exact Or.inl h
          · exact Or.inr ⟨h, h2⟩

theorem deleteBelow_starts (k : Nat) (l : List PacketInterval) :
    ∀ i ∈ deleteBelow k l, k ≤ i.Start := by
  induction l with
  | nil => intro i hi; cases hi
  | cons j t ih =>
    intro i hi
    unfold deleteBelow at hi
    split at hi
    · exact ih i hi
    · split at hi
      · rcases List.mem_cons.1 hi with c | c
        · rw [c]
        · exact ih i c
      · rcases List.mem_cons.1 hi with c | c
        · rw [c]
          omega
        · exact ih i c

theorem deleteBelow_of_starts (k : Nat) (l : List PacketInterval)
    (hv : ∀ i ∈ l, i.Start ≤ i.End) (h : ∀ i ∈ l, k ≤ i.Start) : deleteBelow k l = l := by
  induction l with
  | nil => rfl
  | cons j t ih =>
    have h1 := h j (List.mem_cons_self j t)
    have h2 := hv j (List.mem_cons_self j t)
    unfold deleteBelow
    rw [if_neg (by omega), if_neg (by omega),
      ih (fun i hi => hv i (List.mem_cons_of_mem j hi)) (fun i hi => h i (List.mem_cons_of_mem j hi))]

theorem deleteBelow_filter_map (k : Nat) (l : List PacketInterval) :
    deleteBelow k l
      = (l.filter (fun i => decide (k ≤ i.End))).map (fun i => ⟨max k i.Start, i.End⟩) := by
  induction l with
  | nil => rfl
  | cons j t ih =>
    unfold deleteBelow
    split
    · rw [List.filter_cons_of_neg (by simp only [decide_eq_true_eq]; omega), ih]
    · rw [List.filter_cons_of_pos (by simp only [decide_eq_true_eq]; omega), List.map_cons, ← ih]
      split
      · rw [max_eq_left (by omega)]
      · rw [max_eq_right (by omega)]

theorem received_snoc (ns : List Nat) (n : Nat) :
    received (ns ++ [n]) = (received ns).ReceivedPacket n := by
  unfold received
  rw [List.foldl_append]
  rfl

theorem received_Canonical (ns : List Nat) : Canonical 0 (received ns).ranges := by
  induction ns using List.reverseRecOn with
  | nil => trivial
  | append_singleton ns n ih =>
    rw [received_snoc]
    exact insertPacket_Canonical n _ ih (le_refl _) (Nat.zero_le _)

theorem received_Tracked (ns : List Nat) (x : Nat) : Tracked (received ns).ranges x ↔ x ∈ ns := by
  induction ns using List.reverseRecOn with
  | nil =>
    have := Tracked_nil x
    simp only [received, List.foldl_nil, newReceivedPacketHistory, this, List.not_mem_nil]
  | append_singleton ns n ih =>
    rw [received_snoc]
    show Tracked (insertPacket n (received ns).ranges) x ↔ _
    rw [insertPacket_Tracked n _ (received_Canonical ns) x, ih, List.mem_append, List.mem_singleton]
    exact or_comm

theorem historyAfter_snoc (ops : List HistoryOp) (o : HistoryOp) :
    historyAfter (ops ++ [o]) = historyStep (historyAfter ops) o := by
  unfold historyAfter
  rw [List.foldl_append]
  rfl

theorem historyAfter_Canonical (ops : List HistoryOp) : Canonical 0 (historyAfter ops).ranges := by
  induction ops using List.reverseRecOn with
  | nil => trivial
  | append_singleton ops o ih =>
    rw [historyAfter_snoc]
    cases o with
    | receivedPacket n => exact insertPacket_Canonical n _ ih (le_refl _) (Nat.zero_le _)
    | deleteBelow k => exact deleteBelow_Canonical k _ ih

theorem historyAfter_Tracked (ops : List HistoryOp) (x : Nat) :
    Tracked (historyAfter ops).ranges x ↔ trackedAfter ops x := by
  induction ops using List.reverseRecOn with
  | nil =>
    have := Tracked_nil x
    simp only [historyAfter, trackedAfter, List.foldl_nil, newReceivedPacketHistory, this]
  | append_singleton ops o ih =>
    rw [historyAfter_snoc]
    have e : trackedAfter (ops ++ [o]) = trackedStep (trackedAfter ops) o := by
      unfold trackedAfter
      rw [List.foldl_append]
      rfl
    rw [e]
    cases o with
    | receivedPacket n =>
      show Tracked (insertPacket n (historyAfter ops).ranges) x ↔ x = n ∨ trackedAfter ops x
      rw [insertPacket_Tracked n _ (historyAfter_Canonical ops) x, ih]
    | deleteBelow k =>
      show Tracked (deleteBelow k (historyAfter ops).ranges) x ↔ trackedAfter ops x ∧ k ≤ x
      rw [deleteBelow_Tracked, ih]

/-- C15: after any sequence of `ReceivedPacket` calls on a fresh history, in any
order and with duplicates, the intervals are in ascending order of their starts,
none is empty, an interval ends at least two below the start of every later one
(so any two are disjoint and not adjacent), a packet number lies in an interval
exactly when it was passed, and two sequences that pass the same numbers end in
the same list. The calls 1, 10, 4, 6 give `[1,1],[4,4],[6,6],[10,10]`, and 5 after
them gives `[1,1],[4,6],[10,10]`. -/
theorem ReceivedPacket_canonical_intervals (ns : List Nat) :
    List.Pairwise (fun i j => i.Start < j.Start) (received ns).ranges ∧
      (∀ i ∈ (received ns).ranges, i.Start ≤ i.End) ∧
      List.Pairwise (fun i j => i.End + 1 < j.Start) (received ns).ranges ∧
      (∀ x, Tracked (received ns).ranges x ↔ x ∈ ns) ∧
      (∀ ms : List Nat, (∀ x, x ∈ ms ↔ x ∈ ns) → received ms = received ns) ∧
      (received [1, 10, 4, 6]).ranges = [⟨1, 1⟩, ⟨4, 4⟩, ⟨6, 6⟩, ⟨10, 10⟩] ∧
      (received [1, 10, 4, 6, 5]).ranges = [⟨1, 1⟩, ⟨4, 6⟩, ⟨10, 10⟩] := by
  refine ⟨Canonical_sorted (received_Canonical ns),
    fun i hi => (Canonical_mem (received_Canonical ns) i hi).2,
    Canonical_pairwise (received_Canonical ns), received_Tracked ns, ?_, by decide, by decide⟩
  intro ms h
  have e : (received ms).ranges = (received ns).ranges := by
    refine Canonical_unique _ _ (received_Canonical ms) (received_Canonical ns) ?_
    intro x
    rw [received_Tracked, received_Tracked, h]
  cases hm : received ms
  cases hn : received ns
  rw [hm, hn] at e
  simp only at e
  rw [e]

/-- C16: for a history built by `ReceivedPacket` calls and any `k`, after
`DeleteBelow(k)` a packet number is tracked exactly when it was passed and is at
least `k`; the intervals are the old ones whose end is at least `k`, in their
order, each with its start raised to `k` when it was below (an interval ending at
`k` stays as `[k,k]`); every start is at least `k`; a second `DeleteBelow(k)`
changes nothing. The calls 1, 10, 4, 6 and `DeleteBelow(8)` leave `[10,10]`; the
calls 4, 5, 10 and `DeleteBelow(5)` leave `[5,5],[10,10]`. -/
theorem DeleteBelow_keeps_numbers_from_k (ns : List Nat) (k : Nat) :
    (∀ x, Tracked ((received ns).DeleteBelow k).ranges x ↔ x ∈ ns ∧ k ≤ x) ∧
      (∀ x, Tracked ((received ns).DeleteBelow k).ranges x ↔
        Tracked (received ns).ranges x ∧ k ≤ x) ∧
      ((received ns).DeleteBelow k).ranges
        = ((received ns).ranges.filter (fun i => decide (k ≤ i.End))).map
            (fun i => ⟨max k i.Start, i.End⟩) ∧
      (∀ i ∈ (received ns).ranges, i.Start ≤ k → i.End = k →
        (⟨k, k⟩ : PacketInterval) ∈ ((received ns).DeleteBelow k).ranges) ∧
      (∀ i ∈ ((received ns).DeleteBelow k).ranges, k ≤ i.Start) ∧
      ((received ns).DeleteBelow k).DeleteBelow k = (received ns).DeleteBelow k ∧
      ((received [1, 10, 4, 6]).DeleteBelow 8).ranges = [⟨10, 10⟩] ∧
      ((received [4, 5, 10]).DeleteBelow 5).ranges = [⟨5, 5⟩, ⟨10, 10⟩] := by
  refine ⟨?_, ?_, deleteBelow_filter_map k _, ?_, deleteBelow_starts k _, ?_, by decide, by decide⟩
  · intro x
    show Tracked (deleteBelow k (received ns).ranges) x ↔ _
    rw [deleteBelow_Tracked, received_Tracked]
  · intro x
    exact deleteBelow_Tracked k _ x
  · intro i hi h1 h2
    show _ ∈ deleteBelow k (received ns).ranges
    rw [deleteBelow_filter_map]
    refine List.mem_map.2 ⟨i, List.mem_filter.2 ⟨hi, ?_⟩, ?_⟩
    · simp only [decide_eq_true_eq]
      omega
    · rw [max_eq_left h1, h2]
  · show receivedPacketHistory.mk (deleteBelow k (deleteBelow k (received ns).ranges))
      = receivedPacketHistory.mk (deleteBelow k (received ns).ranges)
    have hc := deleteBelow_Canonical k _ (received_Canonical ns)
    rw [deleteBelow_of_starts k _ (fun i hi => (Canonical_mem hc i hi).2) (deleteBelow_starts k _)]

/-- C17: for a history built by `ReceivedPacket` and `DeleteBelow` calls,
`GetAckRanges` is empty exactly when there is no interval; read from its last pair
to its first it is the interval list, one pair `(Start, End)` for each interval;
the first packet numbers strictly decrease; a later pair ends at least two below
the start of every earlier one, so no two pairs overlap or touch; no pair is empty;
and a packet number lies in a pair exactly when it is tracked, that is when the
calls left it in the set. The calls 4, 5, 6, 1, 11, 10, 2 give
`(10,11),(4,6),(1,2)`. -/
theorem GetAckRanges_descending_ranges (ops : List HistoryOp) :
    ((historyAfter ops).GetAckRanges = [] ↔ (historyAfter ops).ranges = []) ∧
      (historyAfter ops).GetAckRanges.reverse
        = (historyAfter ops).ranges.map (fun i => ⟨i.Start, i.End⟩) ∧
      (historyAfter ops).GetAckRanges.length = (historyAfter ops).ranges.length ∧
      List.Pairwise (fun a b => b.FirstPacketNumber < a.FirstPacketNumber)
        (historyAfter ops).GetAckRanges ∧
      List.Pairwise (fun a b => b.LastPacketNumber + 1 < a.FirstPacketNumber)
        (historyAfter ops).GetAckRanges ∧
      (∀ a ∈ (historyAfter ops).GetAckRanges, a.FirstPacketNumber ≤ a.LastPacketNumber) ∧
      (∀ x, (∃ a ∈ (historyAfter ops).GetAckRanges,
          a.FirstPacketNumber ≤ x ∧ x ≤ a.LastPacketNumber) ↔
        Tracked (historyAfter ops).ranges x) ∧
      (∀ x, Tracked (historyAfter ops).ranges x ↔ trackedAfter ops x) ∧
      (received [4, 5, 6, 1, 11, 10, 2]).GetAckRanges = [⟨10, 11⟩, ⟨4, 6⟩, ⟨1, 2⟩] := by
  have hc := historyAfter_Canonical ops
  refine ⟨?_, ?_, ?_, ?_, ?_, ?_, ?_, historyAfter_Tracked ops, by decide⟩
  · unfold receivedPacketHistory.GetAckRanges
    rw [List.map_eq_nil_iff, List.reverse_eq_nil_iff]
  · unfold receivedPacketHistory.GetAckRanges
    rw [List.map_reverse, List.reverse_reverse]
  · unfold receivedPacketHistory.GetAckRanges
    rw [List.length_map, List.length_reverse]
  · unfold receivedPacketHistory.GetAckRanges
    rw [List.pairwise_map, List.pairwise_reverse]
    exact Canonical_sorted hc
  · unfold receivedPacketHistory.GetAckRanges
    rw [List.pairwise_map, List.pairwise_reverse]
    exact Canonical_pairwise hc
  · intro a ha
    unfold receivedPacketHistory.GetAckRanges at ha
    obtain ⟨i, hi, e⟩ := List.mem_map.1 ha
    rw [← e]
    exact (Canonical_mem hc i (List.mem_reverse.1 hi)).2
  · intro x
    unfold receivedPacketHistory.GetAckRanges Tracked
    constructor
    · rintro ⟨a, ha, h1, h2⟩
      obtain ⟨i, hi, e⟩ := List.mem_map.1 ha
      rw [← e] at h1 h2
      exact ⟨i, List.mem_reverse.1 hi, h1, h2⟩
    · rintro ⟨i, hi, h1, h2⟩
      exact ⟨⟨i.Start, i.End⟩, List.mem_map.2 ⟨i, List.mem_reverse.2 hi, rfl⟩, h1, h2⟩

/-! ## `Push` and `Pop` on an empty queue -/

theorem tmod_succ_toNat (p : Int) (n : Nat) (hp : 0 ≤ p) :
    0 ≤ (p + 1).tmod (n : Int) ∧ ((p + 1).tmod (n : Int)).toNat = (p.toNat + 1) % n := by
  have h1 : p + 1 = ((p.toNat + 1 : Nat) : Int) := by
    push_cast
    omega
  rw [h1, Int.tmod_eq_emod (Int.natCast_nonneg _) (Int.natCast_nonneg _), ← Int.natCast_mod]
  exact ⟨Int.natCast_nonneg _, Int.toNat_natCast _⟩

theorem getNextStreamLoop_reach (sid : Nat) (f : StreamFrame) (t : List StreamFrame) :
    ∀ (j k : Nat) (q : streamFrameQueue), j < k → 0 ≤ q.activeStreamsPosition →
      q.activeStreamsPosition.toNat < q.activeStreams.length →
      q.activeStreams[(q.activeStreamsPosition.toNat + j) % q.activeStreams.length]? = some sid →
      (∀ s ∈ q.activeStreams, s ≠ sid → q.frameMap.get? s = some []) →
      q.frameMap.get? sid = some (f :: t) →
      ∃ p, getNextStreamLoop k q =
        ({ q with activeStreamsPosition := p }, NextStream.ret sid none) := by
  intro j
  induction j with
  | zero =>
    intro k q hk hpos hlt hidx _ hq
    obtain ⟨k1, rfl⟩ : ∃ k1, k = k1 + 1 := ⟨k - 1, by omega⟩
    rw [Nat.add_zero, Nat.mod_eq_of_lt hlt] at hidx
    exact ⟨_, getNextStreamLoop_hit k1 q sid f t hpos hidx hq⟩
  | succ j ih =>
    intro k q hk hpos hlt hidx hall hq
    obtain ⟨k1, rfl⟩ : ∃ k1, k = k1 + 1 := ⟨k - 1, by omega⟩
    have hget : q.activeStreams[q.activeStreamsPosition.toNat]? =
        some (q.activeStreams[q.activeStreamsPosition.toNat]) := List.getElem?_eq_getElem hlt
    by_cases hs0 : q.activeStreams[q.activeStreamsPosition.toNat] = sid
    · rw [hs0] at hget
      exact ⟨_, getNextStreamLoop_hit k1 q sid f t hpos hget hq⟩
    · have he := hall _ (List.getElem_mem hlt) hs0
      have hneg : ¬ q.activeStreamsPosition < 0 := by omega
      obtain ⟨t1, t2⟩ := tmod_succ_toNat q.activeStreamsPosition q.activeStreams.length hpos
      have hstep : getNextStreamLoop (k1 + 1) q =
          getNextStreamLoop k1
            { q with
              activeStreamsPosition :=
                (q.activeStreamsPosition + 1).tmod (q.activeStreams.length : Int) } := by
        rw [getNextStreamLoop]
        simp only [hneg, if_false, hget, he, List.length_nil, gt_iff_lt, lt_self_iff_false]
      obtain ⟨p, hp⟩ := ih k1
        { q with
          activeStreamsPosition :=
            (q.activeStreamsPosition + 1).tmod (q.activeStreams.length : Int) }
        (by omega) t1
        (by
          show ((q.activeStreamsPosition + 1).tmod (q.activeStreams.length : Int)).toNat < _
          rw [t2]
          exact Nat.mod_lt _ (by omega))
        (by
          show q.activeStreams[(((q.activeStreamsPosition + 1).tmod
            (q.activeStreams.length : Int)).toNat + j) % q.activeStreams.length]? = some sid
          rw [t2, Nat.mod_add_mod]
          have e : q.activeStreamsPosition.toNat + 1 + j = q.activeStreamsPosition.toNat + (j + 1) := by
            omega
          rw [e]
          exact hidx)
        hall hq
      exact ⟨p, by rw [hstep, hp]⟩

theorem getNextStream_reach (q : streamFrameQueue) (sid : Nat) (f : StreamFrame)
    (t : List StreamFrame) (hlen : q.len - (q.prioFrames.length : Int) ≠ 0)
    (hpos : 0 ≤ q.activeStreamsPosition)
    (hlt : q.activeStreamsPosition.toNat < q.activeStreams.length)
    (hmem : sid ∈ q.activeStreams)
    (hall : ∀ s ∈ q.activeStreams, s ≠ sid → q.frameMap.get? s = some [])
    (hq : q.frameMap.get? sid = some (f :: t)) :
    ∃ p, getNextStream q = ({ q with activeStreamsPosition := p }, NextStream.ret sid none) := by
  unfold getNextStream
  rw [if_neg hlen]
  obtain ⟨i, hi, hget⟩ := List.getElem_of_mem hmem
  have hget2 : q.activeStreams[i]? = some sid := by
    rw [List.getElem?_eq_getElem hi, hget]
  by_cases hle : q.activeStreamsPosition.toNat ≤ i
  · refine getNextStreamLoop_reach sid f t (i - q.activeStreamsPosition.toNat) _ q (by omega)
      hpos hlt ?_ hall hq
    have e : q.activeStreamsPosition.toNat + (i - q.activeStreamsPosition.toNat) = i := by omega
    rw [e, Nat.mod_eq_of_lt hi]
    exact hget2
  · refine getNextStreamLoop_reach sid f t (i + q.activeStreams.length - q.activeStreamsPosition.toNat)
      _ q (by omega) hpos hlt ?_ hall hq
    have e : q.activeStreamsPosition.toNat +
        (i + q.activeStreams.length - q.activeStreamsPosition.toNat) =
        i + q.activeStreams.length := by omega
    rw [e, Nat.add_mod_right, Nat.mod_eq_of_lt hi]
    exact hget2

theorem popScan_reach (n : Nat) (q : streamFrameQueue) (fr : Option StreamFrame) (sid0 m0 : Nat)
    (sid : Nat) (f : StreamFrame) (t : List StreamFrame) (w : Nat) (hn : n ≠ 0)
    (hlen : q.len - (q.prioFrames.length : Int) ≠ 0)
    (hpos : 0 ≤ q.activeStreamsPosition)
    (hlt : q.activeStreamsPosition.toNat < q.activeStreams.length)
    (hmem : sid ∈ q.activeStreams)
    (hall : ∀ s ∈ q.activeStreams, s ≠ sid → q.frameMap.get? s = some []) (hs : sid ≠ 0)
    (hq : q.frameMap.get? sid = some (f :: t))
    (hw : q.flowControlWindows.get? f.StreamID = some w) (hw1 : f.Offset < w) :
    ∃ p, popScan n q fr sid0 m0 =
      ({ q with activeStreamsPosition := p }, Scan.left (some f) sid (w - f.Offset)) := by
  obtain ⟨k, rfl⟩ : ∃ k, n = k + 1 := ⟨n - 1, by omega⟩
  obtain ⟨p, hp⟩ := getNextStream_reach q sid f t hlen hpos hlt hmem hall hq
  have hg : ¬ f.Offset > w := by omega
  have hpos1 : w - f.Offset > 0 := by omega
  refine ⟨p, ?_⟩
  simp only [popScan, hp, hs, if_false, hq, getMaximumFrameDataSize, hw, hg, hpos1, if_true]

/-- One `Pop` when no priority frame is live, the cursor is an index of the
active-stream list, the stream of `f` is listed and has `f` alone in its queue,
and every other listed stream has an empty queue: the rotation passes the
empty queues and `f` is handed back whole. -/
theorem Pop_reach (env : FrameEnv) (q : streamFrameQueue) (maxLength sid : Nat) (f : StreamFrame)
    (t : List StreamFrame) (w : Nat) (hprio : ∀ e ∈ q.prioFrames, e = none) (hlen : q.len ≠ 0)
    (hpos : 0 ≤ q.activeStreamsPosition)
    (hlt : q.activeStreamsPosition.toNat < q.activeStreams.length)
    (hmem : sid ∈ q.activeStreams)
    (hall : ∀ s ∈ q.activeStreams, s ≠ sid → q.frameMap.get? s = some []) (hs : sid ≠ 0)
    (hq : q.frameMap.get? sid = some (f :: t))
    (hw : q.flowControlWindows.get? f.StreamID = some w) (hw1 : f.Offset < w)
    (hw2 : f.Offset + f.Data.length ≤ w)
    (hmin : 1 ≤ env.MinLength f) (hfit : env.MinLength f ≤ maxLength)
    (hmax : env.MinLength f + f.Data.length ≤ maxLength + 1) (h64 : maxLength < U64) :
    ∃ p, Pop env q maxLength =
      ({ q with
         prioFrames := []
         activeStreamsPosition := p
         frameMap := q.frameMap.set sid t
         byteLen := wrapSub q.byteLen f.DataLen
         bytesSent :=
           if f.StreamID ≠ 1 ∧ f.StreamID ≠ 3 then wrapAdd q.bytesSent f.DataLen
           else q.bytesSent
         len := q.len - 1 }, PopResult.frame f) := by
  rw [Pop_no_prio env q maxLength hprio]
  obtain ⟨p, hsc⟩ := popScan_reach q.activeStreams.length { q with prioFrames := [] } none 0 0
    sid f t w (by omega) (by simp only [List.length_nil, Nat.cast_zero, sub_zero]; exact hlen)
    hpos hlt hmem hall hs hq hw hw1
  refine ⟨p, ?_⟩
  dsimp only at hsc
  rw [hsc]
  dsimp only
  rw [popFinish_whole env _ false f sid (w - f.Offset) maxLength (by omega) hfit
    (popBudget_whole env f _ maxLength hmin hfit hmax h64 (by omega))]
  have hd : dequeueHead
      { q with
        prioFrames := []
        activeStreamsPosition := p } false sid =
      some { q with
        prioFrames := []
        activeStreamsPosition := p
        frameMap := q.frameMap.set sid t } := by
    simp [dequeueHead, hq]
  rw [hd]

/-- A frame of a stream other than 0 is pushed onto an empty queue that is in
order: no live priority frame, `Len()` zero, every queue of `frameMap` empty,
the streams with a queue are the listed ones, and the cursor an index of the
list the following `Pop` sees. With a ceiling above the frame's offset and not
below its end and a `maxLength` that holds the frame, `Pop` hands back the
frame as pushed. -/
theorem Push_then_Pop_in_order (env : FrameEnv) (q0 : streamFrameQueue) (f : StreamFrame)
    (maxLength w : Nat) (hs : f.StreamID ≠ 0)
    (hprio : ∀ e ∈ q0.prioFrames, e = none) (hlen : q0.len = 0)
    (hall : ∀ s fq, q0.frameMap.get? s = some fq → fq = [])
    (hact : ∀ s, s ∈ q0.activeStreams ↔ q0.frameMap.get? s ≠ none)
    (hpos : 0 ≤ q0.activeStreamsPosition)
    (hcur : q0.activeStreamsPosition < ((Push q0 f false).activeStreams.length : Int))
    (hw : q0.flowControlWindows.get? f.StreamID = some w) (hw1 : f.Offset < w)
    (hw2 : f.Offset + f.Data.length ≤ w)
    (hmin : 1 ≤ env.MinLength { f with DataLenPresent := true })
    (hfit : env.MinLength { f with DataLenPresent := true } ≤ maxLength)
    (hmax : env.MinLength { f with DataLenPresent := true } + f.Data.length ≤ maxLength + 1)
    (h64 : maxLength < U64) :
    (Pop env (Push q0 f false) maxLength).2 =
        PopResult.frame { f with DataLenPresent := true } ∧
      (Pop env (Push q0 f false) maxLength).1.frameMap.get? f.StreamID = some [] ∧
      Len (Pop env (Push q0 f false) maxLength).1 = 0 := by
  have hothers : ∀ s ∈ q0.activeStreams, s ≠ f.StreamID →
      (q0.frameMap.set f.StreamID [{ f with DataLenPresent := true }]).get? s = some [] := by
    intro s hsm hne
    rw [GoMap.get?_set_ne _ _ _ _ hne]
    cases hq : q0.frameMap.get? s with
    | none => exact absurd hq ((hact s).1 hsm)
    | some fq => rw [hall s fq hq]
  cases hmap : q0.frameMap.get? f.StreamID with
  | none =>
    rw [Push_fresh q0 f hmap] at hcur ⊢
    dsimp only at hcur
    obtain ⟨p, hP⟩ := Pop_reach env
      { q0 with
        frameMap := q0.frameMap.set f.StreamID [{ f with DataLenPresent := true }]
        activeStreams := q0.activeStreams ++ [f.StreamID]
        byteLen := wrapAdd q0.byteLen f.Data.length
        len := q0.len + 1 }
      maxLength f.StreamID { f with DataLenPresent := true } [] w hprio
      (by simp only [hlen]; decide) hpos (by dsimp only; omega)
      (List.mem_append_right _ (List.mem_singleton_self _))
      (by
        intro s hsm hne
        rcases List.mem_append.1 hsm with h1 | h1
        · exact hothers s h1 hne
        · exact absurd (List.mem_singleton.1 h1) hne)
      hs (GoMap.get?_set_self _ _ _) hw hw1 hw2 hmin hfit hmax h64
    rw [hP]
    refine ⟨rfl, GoMap.get?_set_self _ _ _, ?_⟩
    simp only [Len, hlen]
    decide
  | some fq =>
    have hfq := hall _ fq hmap
    subst hfq
    rw [Push_existing q0 f [] hmap] at hcur ⊢
    dsimp only at hcur
    obtain ⟨p, hP⟩ := Pop_reach env
      { q0 with
        frameMap := q0.frameMap.set f.StreamID ([] ++ [{ f with DataLenPresent := true }])
        byteLen := wrapAdd q0.byteLen f.Data.length
        len := q0.len + 1 }
      maxLength f.StreamID { f with DataLenPresent := true } [] w hprio
      (by simp only [hlen]; decide) hpos (by dsimp only; omega)
      ((hact _).2 (by rw [hmap]; exact Option.some_ne_none _))
      (by
        intro s hsm hne
        exact hothers s hsm hne)
      hs (GoMap.get?_set_self _ _ _) hw hw1 hw2 hmin hfit hmax h64
    rw [hP]
    refine ⟨rfl, GoMap.get?_set_self _ _ _, ?_⟩
    simp only [Len, hlen]
    decide

/-- C6 fails on the code for empty queues that `RemoveStream` has left out of
order. After pushes for the streams 5 and 7, `UpdateWindow(5, 100)`, one `Pop`
and `RemoveStream(7)` the queue is empty with ceiling 100 for stream 5, the
active list is `[5]` and the cursor is 1: a 4-byte frame of stream 5 at offset
16 is pushed and `Pop(1000)` indexes the list out of range. After a push for
stream 7, `UpdateWindow(7, 100)`, one `Pop` and `RemoveStream(9)` the queue is
empty with ceiling 100 for stream 7, but stream 7 has lost its place in the
active list while its queue is still in `frameMap`: a 4-byte frame of stream 7
at offset 3 is pushed, `Push` does not list the stream again, and `Pop(1000)`
hands back `(nil, nil)` with the frame still queued. On every empty queue that
is in order (no live priority frame, `Len()` zero, every queue of `frameMap`
empty, the listed streams being those with a queue, the cursor an index of the
list `Pop` sees), the frame comes back as pushed, with its length field marked
present; the drained queue left by a push and a `Pop` of stream 5 is one. -/
theorem Push_then_Pop_fails_after_RemoveStream :
    (Len cursorPastEndQueue = 0 ∧ cursorPastEndQueue.prioFrames = [] ∧
      cursorPastEndQueue.flowControlWindows.get? 5 = some 100 ∧
      cursorPastEndQueue.activeStreams = [5] ∧ cursorPastEndQueue.activeStreamsPosition = 1 ∧
      (Pop sampleEnv (Push cursorPastEndQueue (sampleFrame 5 16 4) false) 1000).2 =
        PopResult.panicked) ∧
      (Len unlistedStreamQueue = 0 ∧ unlistedStreamQueue.prioFrames = [] ∧
        unlistedStreamQueue.flowControlWindows.get? 7 = some 100 ∧
        unlistedStreamQueue.activeStreams = [] ∧
        unlistedStreamQueue.frameMap.get? 7 = some [] ∧
        (Push unlistedStreamQueue (sampleFrame 7 3 4) false).activeStreams = [] ∧
        (Pop sampleEnv (Push unlistedStreamQueue (sampleFrame 7 3 4) false) 1000).2 =
          PopResult.nothing ∧
        Len (Pop sampleEnv (Push unlistedStreamQueue (sampleFrame 7 3 4) false) 1000).1 = 1) ∧
      (Len drainedQueue = 0 ∧ drainedQueue.activeStreams = [5] ∧
        drainedQueue.frameMap.get? 5 = some [] ∧
        (Pop sampleEnv (Push drainedQueue (sampleFrame 5 16 4) false) 1000).2 =
          PopResult.frame { sampleFrame 5 16 4 with DataLenPresent := true }) ∧
      ∀ (env : FrameEnv) (q0 : streamFrameQueue) (f : StreamFrame) (maxLength w : Nat),
        f.StreamID ≠ 0 → (∀ e ∈ q0.prioFrames, e = none) → q0.len = 0 →
        (∀ s fq, q0.frameMap.get? s = some fq → fq = []) →
        (∀ s, s ∈ q0.activeStreams ↔ q0.frameMap.get? s ≠ none) →
        0 ≤ q0.activeStreamsPosition →
        q0.activeStreamsPosition < ((Push q0 f false).activeStreams.length : Int) →
        q0.flowControlWindows.get? f.StreamID = some w → f.Offset < w →
        f.Offset + f.Data.length ≤ w →
        1 ≤ env.MinLength { f with DataLenPresent := true } →
        env.MinLength { f with DataLenPresent := true } ≤ maxLength →
        env.MinLength { f with DataLenPresent := true } + f.Data.length ≤ maxLength + 1 →
        maxLength < U64 →
        (Pop env (Push q0 f false) maxLength).2 =
            PopResult.frame { f with DataLenPresent := true } ∧
          (Pop env (Push q0 f false) maxLength).1.frameMap.get? f.StreamID = some [] ∧
          Len (Pop env (Push q0 f false) maxLength).1 = 0 := by
  refine ⟨⟨?_, ?_, ?_, ?_, ?_, ?_⟩, ⟨?_, ?_, ?_, ?_, ?_, ?_, ?_, ?_⟩, ⟨?_, ?_, ?_, ?_⟩, ?_⟩
  all_goals first
    | decide
    | exact fun env q0 f maxLength w hs hprio hlen hall hact hpos hcur hw hw1 hw2 hmin hfit hmax
        h64 => Push_then_Pop_in_order env q0 f maxLength w hs hprio hlen hall hact hpos hcur hw
          hw1 hw2 hmin hfit hmax h64

/-! ## The payload budget of the selected frame -/

/-- A frame with which the rotation of `Pop` leaves the loop is the frame the
loop was entered with, or heads the queue of the stream the loop stopped at,
and the cap is what `getMaximumFrameDataSize` gives for it. -/
theorem popScan_left_frame (k : Nat) (q : streamFrameQueue) (fr : Option StreamFrame)
    (sid m : Nat) (f : StreamFrame) (sid1 m1 : Nat)
    (h : (popScan k q fr sid m).2 = Scan.left (some f) sid1 m1) :
    (fr = some f ∧ sid1 = sid ∧ m1 = m) ∨
      (sid1 ≠ 0 ∧ (∃ t, q.frameMap.get? sid1 = some (f :: t)) ∧
        m1 = (getMaximumFrameDataSize q f).1) := by
  induction k generalizing q fr sid m with
  | zero =>
    simp only [popScan, Scan.left.injEq] at h
    exact Or.inl ⟨h.1, h.2.1.symm, h.2.2.symm⟩
  | succ k ih =>
    rw [popScan] at h
    have hst := getNextStream_state q
    have hret := getNextStream_ret q
    rcases hg : getNextStream q with ⟨q1, ns⟩
    rw [hg] at hst hret h
    simp only at hst hret h
    cases ns with
    | panicked => simp at h
    | ret streamID err =>
      dsimp only at h
      by_cases h0 : streamID = 0
      · simp only [h0, if_true] at h
        cases h
      · simp only [h0, if_false] at h
        obtain ⟨herr, g, t, hgt⟩ := hret streamID err rfl h0
        subst herr
        have hq1 : q1.frameMap = q.frameMap := by rw [hst]
        have hw1 : q1.flowControlWindows = q.flowControlWindows := by rw [hst]
        simp only [hq1, hgt] at h
        have hmax : ∀ x, getMaximumFrameDataSize q1 x = getMaximumFrameDataSize q x :=
          fun x => getMaximumFrameDataSize_congr q q1 x (by rw [hw1])
        rw [hmax] at h
        by_cases hpos : (getMaximumFrameDataSize q g).1 > 0
        · simp only [hpos, if_true, Scan.left.injEq, Option.some.injEq] at h
          obtain ⟨h1, h2, h3⟩ := h
          subst h1 h2 h3
          exact Or.inr ⟨h0, ⟨t, hgt⟩, rfl⟩
        · simp only [hpos, if_false] at h
          rcases ih q1 (some g) streamID (getMaximumFrameDataSize q g).1 h with
            ⟨e1, e2, e3⟩ | ⟨e1, ⟨t1, e2⟩, e3⟩
          · simp only [Option.some.injEq] at e1
            subst e1 e2 e3
            exact Or.inr ⟨h0, ⟨t, hgt⟩, rfl⟩
          · rw [hq1] at e2
            rw [hmax] at e3
            exact Or.inr ⟨e1, ⟨t1, e2⟩, e3⟩

/-- The tail of `Pop` runs on what the selection part selected. -/
theorem Pop_of_popSelect (env : FrameEnv) (q : streamFrameQueue) (maxLength : Nat) :
    (popSelect env q = none →
        (Pop env q maxLength).2 = PopResult.nothing ∨
          (Pop env q maxLength).2 = PopResult.panicked) ∧
      ∀ fr m, popSelect env q = some (fr, m) →
        ∃ q1 isPrio sid, Pop env q maxLength = popFinish env q1 isPrio fr sid m maxLength := by
  cases hd : dropNilPrio q.prioFrames with
  | nil =>
    have hprio := dropNilPrio_eq_nil _ hd
    have hs := (popScan_spec q.activeStreams.length { q with prioFrames := [] } none 0 0).2.1
    have hsel : popSelect env q =
        (match popScan q.activeStreams.length { q with prioFrames := [] } none 0 0 with
         | (_, Scan.returned _) => none
         | (_, Scan.left frame _ maxFrameDataSize) => some (frame, maxFrameDataSize)) := by
      unfold popSelect
      simp only [hd]
    rw [hsel, Pop_no_prio env q maxLength hprio]
    rcases hp : popScan q.activeStreams.length { q with prioFrames := [] } none 0 0 with ⟨q1, sc⟩
    rw [hp] at hs
    cases sc with
    | returned r =>
      refine ⟨fun _ => hs r rfl, ?_⟩
      intro fr m h
      cases h
    | left fr0 sid0 m0 =>
      refine ⟨(fun h => by cases h), ?_⟩
      intro fr m h
      simp only [Option.some.injEq, Prod.mk.injEq] at h
      obtain ⟨h1, h2⟩ := h
      subst h1 h2
      exact ⟨q1, false, sid0, rfl⟩
  | cons a t =>
    cases a with
    | none => exact absurd hd (dropNilPrio_no_nil_head _ _)
    | some g =>
      obtain ⟨k, hk⟩ := dropNilPrio_eq_cons _ g t hd
      have hsel : popSelect env q = some (some g, env.MaxPacketSize) := by
        unfold popSelect
        simp only [hd]
      rw [hsel, Pop_prio env q maxLength k g t hk]
      refine ⟨(fun h => by cases h), ?_⟩
      intro fr m h
      simp only [Option.some.injEq, Prod.mk.injEq] at h
      obtain ⟨h1, h2⟩ := h
      subst h1 h2
      exact ⟨_, true, 0, rfl⟩

/-- What the selection part of `Pop` selects: the first live priority frame
with the cap `frameSizeInf`, or, when no priority frame is live, the frame
heading the queue of a stream other than 0 with the cap that
`getMaximumFrameDataSize` gives for it. -/
theorem popSelect_frame (env : FrameEnv) (q : streamFrameQueue) (f : StreamFrame) (m : Nat)
    (h : popSelect env q = some (some f, m)) :
    (∃ k t, q.prioFrames = List.replicate k none ++ some f :: t ∧ m = env.MaxPacketSize) ∨
      ((∀ e ∈ q.prioFrames, e = none) ∧
        (∃ sid t, sid ≠ 0 ∧ q.frameMap.get? sid = some (f :: t)) ∧
        m = (getMaximumFrameDataSize q f).1) := by
  unfold popSelect at h
  dsimp only at h
  cases hd : dropNilPrio q.prioFrames with
  | nil =>
    rw [hd] at h
    dsimp only at h
    have hprio := dropNilPrio_eq_nil _ hd
    rcases hp : popScan q.activeStreams.length { q with prioFrames := [] } none 0 0 with ⟨q1, sc⟩
    rw [hp] at h
    cases sc with
    | returned r => cases h
    | left fr0 sid0 m0 =>
      simp only [Option.some.injEq, Prod.mk.injEq] at h
      obtain ⟨h1, h2⟩ := h
      subst h1 h2
      rcases popScan_left_frame _ _ none 0 0 f sid0 m0 (by rw [hp]) with
        ⟨e1, _, _⟩ | ⟨e1, ⟨t, e2⟩, e3⟩
      · cases e1
      · exact Or.inr ⟨hprio, ⟨sid0, t, e1, e2⟩, e3⟩
  | cons a t =>
    cases a with
    | none => exact absurd hd (dropNilPrio_no_nil_head _ _)
    | some g =>
      rw [hd] at h
      simp only [Option.some.injEq, Prod.mk.injEq] at h
      obtain ⟨h1, h2⟩ := h
      subst h1 h2
      obtain ⟨k, hk⟩ := dropNilPrio_eq_cons _ g t hd
      exact Or.inl ⟨k, t, hk, rfl⟩

/-- C13, amended: let `f` be the frame `Pop` selects, that is the value of its
local variable `frame` when the rotation is over (the first live priority
frame, or else the frame heading the queue of the stream the rotation stopped
at), `m` its flow-control cap (`frameSizeInf` for a priority frame, otherwise
what `getMaximumFrameDataSize` gives) and `h` its `MinLength()`. When
`h > maxLength`, `Pop` hands back `(nil, nil)`. A frame that `Pop` hands back
is cut from the selected frame (same stream, same offset, an initial segment
of its payload), `h ≤ maxLength` holds, and the payload has at most
`maxLength - h + 1` bytes, since `MinLength()` counts one payload byte, and at
most `m` bytes. -/
theorem Pop_payload_budget (env : FrameEnv) (q : streamFrameQueue) (maxLength : Nat) :
    (∀ f m, popSelect env q = some (some f, m) → maxLength < env.MinLength f →
        (Pop env q maxLength).2 = PopResult.nothing) ∧
      (∀ r, (Pop env q maxLength).2 = PopResult.frame r →
        ∃ f m, popSelect env q = some (some f, m) ∧ env.MinLength f ≤ maxLength ∧
          r.StreamID = f.StreamID ∧ r.Offset = f.Offset ∧
          r.Data = f.Data.take r.Data.length ∧
          r.Data.length ≤ maxLength + 1 - env.MinLength f ∧ r.Data.length ≤ m) ∧
      ∀ f m, popSelect env q = some (some f, m) →
        (∃ k t, q.prioFrames = List.replicate k none ++ some f :: t ∧
            m = env.MaxPacketSize) ∨
          ((∀ e ∈ q.prioFrames, e = none) ∧
            (∃ sid t, sid ≠ 0 ∧ q.frameMap.get? sid = some (f :: t)) ∧
            m = (getMaximumFrameDataSize q f).1) := by
  obtain ⟨hnone, hsome⟩ := Pop_of_popSelect env q maxLength
  refine ⟨?_, ?_, popSelect_frame env q⟩
  · intro f m hsel hlt
    obtain ⟨q1, isPrio, sid, hpop⟩ := hsome (some f) m hsel
    rw [hpop, popFinish_short env q1 isPrio f sid m maxLength hlt]
  · intro r hr
    cases hsel : popSelect env q with
    | none =>
      rcases hnone hsel with h1 | h1 <;> rw [h1] at hr <;> cases hr
    | some sel =>
      obtain ⟨fr, m⟩ := sel
      obtain ⟨q1, isPrio, sid, hpop⟩ := hsome fr m hsel
      rw [hpop] at hr
      cases fr with
      | none =>
        by_cases hm : m = 0
        · subst hm
          rw [popFinish_zero] at hr
          cases hr
        · simp [popFinish, hm] at hr
      | some f =>
        obtain ⟨b1, b2⟩ := popFinish_frame_budget env q1 isPrio f r sid m maxLength hr
        obtain ⟨c1, c2, _, c4, _⟩ := popFinish_frame env q1 isPrio f r sid m maxLength hr
        have b3 := popBudget_le_room env f m maxLength b1
        have b4 := popBudget_le env f m maxLength
        exact ⟨f, m, rfl, b1, c1, c2, c4, by omega, by omega⟩

/-- C13, amended, at a concrete input: stream 5 (header 16) has no window left
and is passed, the 16-byte frame of stream 7 (header 2, window 100) is
selected; with `maxLength` 6 `Pop` hands back its first 5 bytes, and with
`maxLength` 1 nothing. -/
theorem Pop_payload_budget_witness :
    popSelect streamEnv blockedThenOpenQueue =
        some (some ⟨false, 7, 0, List.replicate 16 7, true⟩, 100) ∧
      (Pop streamEnv blockedThenOpenQueue 6).2 =
        PopResult.frame ⟨false, 7, 0, List.replicate 5 7, true⟩ ∧
      (Pop streamEnv blockedThenOpenQueue 1).2 = PopResult.nothing ∧
      ∃ f m, popSelect streamEnv blockedThenOpenQueue = some (some f, m) ∧
        streamEnv.MinLength f ≤ 6 ∧
        (StreamFrame.mk false 7 0 (List.replicate 5 7) true).StreamID = f.StreamID ∧
        (StreamFrame.mk false 7 0 (List.replicate 5 7) true).Offset = f.Offset ∧
        (StreamFrame.mk false 7 0 (List.replicate 5 7) true).Data =
          f.Data.take (StreamFrame.mk false 7 0 (List.replicate 5 7) true).Data.length ∧
        (StreamFrame.mk false 7 0 (List.replicate 5 7) true).Data.length ≤
          6 + 1 - streamEnv.MinLength f ∧
        (StreamFrame.mk false 7 0 (List.replicate 5 7) true).Data.length ≤ m :=
  ⟨by decide, by decide,
    (Pop_payload_budget streamEnv blockedThenOpenQueue 1).1
      ⟨false, 7, 0, List.replicate 16 7, true⟩ 100 (by decide) (by decide),
    (Pop_payload_budget streamEnv blockedThenOpenQueue 6).2.1
      ⟨false, 7, 0, List.replicate 5 7, true⟩ (by decide)⟩

end QuicGo
